import Mathlib

/-!
Behaviour tree engine (`BehaviorTree.h`, `BehaviorTree.c`).

A shallow embedding of the node / decorator data model, of the recursive
executor `executeNode`, of the constructor `createBehaviorNode` with its
validators, of the decorator factories and of the teardown `freeBehaviorTree`,
followed by theorems on them.

Conventions of the embedding

* A pointer is an `Option Nat`: `none` is `NULL`, `some a` is the address `a`.
  The heap holds the `BehaviorNode` and `Decorator` blocks; a cell that was
  freed (or never allocated) holds nothing and reading through a pointer to it
  is undefined behaviour.
* A function pointer `int (*)(void)` is an `Option Nat` as well.  What a
  callback returns is given by `Callbacks`: a function of the events so far and
  of the function's address, so that a callback may keep state of its own (the
  static counter of `checkCondition` in `main.c`) and every sequence of
  outcomes is the behaviour of some `Callbacks`.
* The observable effects of an execution are logged in order: every callback
  invocation with the value it returned, and every `sleep`.
* `executeNode` is recursive and `repeatUntilSuccessDecorator` loops without a
  bound, so the executor takes a fuel: the depth of calls (and the number of
  turns of the unbounded loop) it may still use.
* `malloc` may fail, and it does not clear the block it hands out: whether a
  request is served, and what the one field that `createBehaviorNode` leaves
  unwritten holds, are arguments of the constructors.  A new block is put at
  the first address never used before.
* `printf` output is not modelled.
-/

namespace BehaviorTree

/-! ## `BehaviorTree.h` -/

/-- The `NodeType` enumeration: a C `enum`, that is an integer, with seven named values. -/
abbrev NodeType := Int

def NODE_TYPE_ACTION : NodeType := 0
def NODE_TYPE_CONDITION : NodeType := 1
def NODE_TYPE_SEQUENCE : NodeType := 2
def NODE_TYPE_SELECTOR : NodeType := 3
def NODE_TYPE_PARALLEL : NodeType := 4
def NODE_TYPE_DECORATOR : NodeType := 5
def NODE_TYPE_MEMORY : NodeType := 6

/-- The `DecoratorType` enumeration, five named values. -/
abbrev DecoratorType := Int

def DECORATOR_TYPE_INVERT : DecoratorType := 0
def DECORATOR_TYPE_REPEAT : DecoratorType := 1
def DECORATOR_TYPE_REPEAT_UNTIL_SUCCESS : DecoratorType := 2
def DECORATOR_TYPE_CONDITIONAL : DecoratorType := 3
def DECORATOR_TYPE_DELAY : DecoratorType := 4

/-- The `struct Decorator`.  The union `DecoratorParams` has two `uint32_t` members,
`delay` and `repeat`, on the same storage: one number below `2 ^ 32`. -/
structure Decorator where
  type : DecoratorType
  params : Nat
  reference_count : Int
  deriving DecidableEq, Repr

/-- The `struct BehaviorNode`.  The field `children` is `NULL` or points to an array of
node pointers. -/
structure BehaviorNode where
  decorator : Option Nat
  action : Option Nat
  child_count : Int
  reference_count : Int
  type : NodeType
  children : Option (List (Option Nat))
  deriving DecidableEq, Repr

/-- The allocated blocks: cell `a` of `nodes` is the node at address `a`, cell `a` of
`decorators` the decorator at address `a`; `none` in a cell is a freed block. -/
structure Heap where
  nodes : List (Option BehaviorNode)
  decorators : List (Option Decorator)
  deriving DecidableEq, Repr

/-- The node a non-`NULL` node pointer points to, if the block is live. -/
def Heap.node (h : Heap) (a : Nat) : Option BehaviorNode :=
  h.nodes.getD a none

/-- The decorator a non-`NULL` decorator pointer points to, if the block is live. -/
def Heap.decoratorAt (h : Heap) (a : Nat) : Option Decorator :=
  h.decorators.getD a none

/-- Reading `node->decorator->...`: nothing when the pointer is `NULL` or dangling. -/
def Heap.decoratorOf (h : Heap) (node : BehaviorNode) : Option Decorator :=
  match node.decorator with
  | none => none
  | some d => h.decoratorAt d

/-- Reading `node->children[i]`: nothing when `children` is `NULL` or `i` is outside
the array. -/
def BehaviorNode.child (node : BehaviorNode) (i : Nat) : Option (Option Nat) :=
  match node.children with
  | none => none
  | some cs => cs[i]?

/-! ## Effects and results -/

/-- An observable effect: the call of the callback at address `fn`, which returned
`result`, or a `sleep (seconds)`. -/
inductive Event where
  | call (fn : Nat) (result : Int)
  | sleep (seconds : Nat)
  deriving DecidableEq, Repr

/-- What each callback returns, given the events that happened before the call. -/
abbrev Callbacks := List Event → Nat → Int

/-- How a call ends. -/
inductive Result (α : Type) where
  /-- The function returned a value. -/
  | ret (v : α)
  /-- The process ended in `handleMemoryError`, by `exit (EXIT_FAILURE)`. -/
  | exit
  /-- Undefined behaviour: a `NULL` or dangling pointer was dereferenced, an array was
  read outside its bounds, or an uninitialised value was used. -/
  | undef
  /-- The fuel ran out. -/
  | timeout
  deriving DecidableEq, Repr

/-- The executor as seen by the functions it dispatches to: a node pointer and the
events so far give a result and the events after. -/
abbrev Exec := Option Nat → List Event → Result Int × List Event

/-! ## `BehaviorTree.c`: the executor -/

/-- The loop of `sequenceNode`, with `i` the loop index and `n` the number of turns
left, `child_count - i`. -/
def sequenceLoop (exec : Exec) (node : BehaviorNode) :
    Nat → Nat → List Event → Result Int × List Event
  | 0, _, log => (.ret 1, log)
  | n + 1, i, log =>
    match node.child i with
    | none => (.undef, log)
    | some c =>
      match exec c log with
      | (.ret result, log1) =>
        if result = 0 then (.ret 0, log1) else sequenceLoop exec node n (i + 1) log1
      | (r, log1) => (r, log1)

def sequenceNode (exec : Exec) (node : BehaviorNode) (log : List Event) :
    Result Int × List Event :=
  sequenceLoop exec node node.child_count.toNat 0 log

/-- The loop of `selectorNode`. -/
def selectorLoop (exec : Exec) (node : BehaviorNode) :
    Nat → Nat → List Event → Result Int × List Event
  | 0, _, log => (.ret 0, log)
  | n + 1, i, log =>
    match node.child i with
    | none => (.undef, log)
    | some c =>
      match exec c log with
      | (.ret result, log1) =>
        if result ≠ 0 then (.ret 1, log1) else selectorLoop exec node n (i + 1) log1
      | (r, log1) => (r, log1)

def selectorNode (exec : Exec) (node : BehaviorNode) (log : List Event) :
    Result Int × List Event :=
  selectorLoop exec node node.child_count.toNat 0 log

def invertDecorator (exec : Exec) (node : BehaviorNode) (log : List Event) :
    Result Int × List Event :=
  match node.child 0 with
  | none => (.undef, log)
  | some c =>
    match exec c log with
    | (.ret result, log1) => (.ret (if result = 0 then 1 else 0), log1)
    | (r, log1) => (r, log1)

/-- The loop `while (repeat--)` of `repeatDecorator`; `result` is `none` as long as the
local variable has not been assigned. -/
def repeatLoop (exec : Exec) (node : BehaviorNode) :
    Nat → Option Int → List Event → Result Int × List Event
  | 0, none, log => (.undef, log)
  | 0, some result, log => (.ret result, log)
  | n + 1, _, log =>
    match node.child 0 with
    | none => (.undef, log)
    | some c =>
      match exec c log with
      | (.ret result, log1) => repeatLoop exec node n (some result) log1
      | (r, log1) => (r, log1)

def repeatDecorator (h : Heap) (exec : Exec) (node : BehaviorNode) (log : List Event) :
    Result Int × List Event :=
  match h.decoratorOf node with
  | none => (.undef, log)
  | some decorator => repeatLoop exec node decorator.params none log

/-- The loop `do ... while (result)` of `repeatUntilSuccessDecorator`, which has no
bound of its own: `fuel` turns are allowed. -/
def repeatUntilSuccessLoop (exec : Exec) (node : BehaviorNode) :
    Nat → List Event → Result Int × List Event
  | 0, log => (.timeout, log)
  | fuel + 1, log =>
    match node.child 0 with
    | none => (.undef, log)
    | some c =>
      match exec c log with
      | (.ret result, log1) =>
        if result ≠ 0 then repeatUntilSuccessLoop exec node fuel log1 else (.ret result, log1)
      | (r, log1) => (r, log1)

def repeatUntilSuccessDecorator (fuel : Nat) (exec : Exec) (node : BehaviorNode)
    (log : List Event) : Result Int × List Event :=
  repeatUntilSuccessLoop exec node fuel log

def conditionalDecorator (exec : Exec) (node : BehaviorNode) (log : List Event) :
    Result Int × List Event :=
  match node.child 0 with
  | none => (.undef, log)
  | some c0 =>
    match exec c0 log with
    | (.ret result, log1) =>
      if node.child_count = 1 then (.ret result, log1)
      else if result ≠ 0 then
        match node.child 1 with
        | none => (.undef, log1)
        | some c1 => exec c1 log1
      else if node.child_count < 3 then (.ret 0, log1)
      else
        match node.child 2 with
        | none => (.undef, log1)
        | some c2 => exec c2 log1
    | (r, log1) => (r, log1)

def delayDecorator (h : Heap) (exec : Exec) (node : BehaviorNode) (log : List Event) :
    Result Int × List Event :=
  match h.decoratorOf node with
  | none => (.undef, log)
  | some decorator =>
    match node.child 0 with
    | none => (.undef, log)
    | some c =>
      match exec c log with
      | (.ret result, log1) =>
        if result = 1 then (.ret result, log1 ++ [Event.sleep decorator.params])
        else (.ret result, log1)
      | (r, log1) => (r, log1)

/-- The loop of `parallelNode`, with the running value of `successCount`. -/
def parallelLoop (exec : Exec) (node : BehaviorNode) :
    Nat → Nat → Int → List Event → Result Int × List Event
  | 0, _, successCount, log =>
    (.ret (if successCount = node.child_count then 1 else 0), log)
  | n + 1, i, successCount, log =>
    match node.child i with
    | none => (.undef, log)
    | some c =>
      match exec c log with
      | (.ret result, log1) =>
        if result = 0 then parallelLoop exec node n (i + 1) (successCount + 1) log1
        else parallelLoop exec node n (i + 1) successCount log1
      | (r, log1) => (r, log1)

def parallelNode (exec : Exec) (node : BehaviorNode) (log : List Event) :
    Result Int × List Event :=
  parallelLoop exec node node.child_count.toNat 0 0 log

def decoratorNode (h : Heap) (fuel : Nat) (exec : Exec) (node : BehaviorNode)
    (log : List Event) : Result Int × List Event :=
  if node.child_count = 0 then (.exit, log)
  else
    match h.decoratorOf node with
    | none => (.undef, log)
    | some decorator =>
      if decorator.type = DECORATOR_TYPE_INVERT then invertDecorator exec node log
      else if decorator.type = DECORATOR_TYPE_REPEAT then repeatDecorator h exec node log
      else if decorator.type = DECORATOR_TYPE_REPEAT_UNTIL_SUCCESS then
        repeatUntilSuccessDecorator fuel exec node log
      else if decorator.type = DECORATOR_TYPE_CONDITIONAL then
        conditionalDecorator exec node log
      else if decorator.type = DECORATOR_TYPE_DELAY then delayDecorator h exec node log
      else (.ret 0, log)

/-- The call `node->action ()`: the callback's value is returned as it is, and the call
is logged. -/
def callAction (cb : Callbacks) (node : BehaviorNode) (log : List Event) :
    Result Int × List Event :=
  match node.action with
  | none => (.undef, log)
  | some fn => (.ret (cb log fn), log ++ [Event.call fn (cb log fn)])

def executeNode (cb : Callbacks) (h : Heap) :
    Nat → Option Nat → List Event → Result Int × List Event
  | 0, _, log => (.timeout, log)
  | _ + 1, none, log => (.exit, log)
  | fuel + 1, some a, log =>
    match h.node a with
    | none => (.undef, log)
    | some node =>
      if node.type = NODE_TYPE_ACTION then callAction cb node log
      else if node.type = NODE_TYPE_CONDITION then callAction cb node log
      else if node.type = NODE_TYPE_SEQUENCE then sequenceNode (executeNode cb h fuel) node log
      else if node.type = NODE_TYPE_SELECTOR then selectorNode (executeNode cb h fuel) node log
      else if node.type = NODE_TYPE_DECORATOR then
        decoratorNode h fuel (executeNode cb h fuel) node log
      else if node.type = NODE_TYPE_PARALLEL then parallelNode (executeNode cb h fuel) node log
      else (.ret 0, log)

/-! ## `BehaviorTree.c`: construction and validation -/

/-- The largest `int`: incrementing it is undefined behaviour. -/
def INT_MAX : Int := 2147483647

/-- Writing the node block at address `a`. -/
def Heap.setNode (h : Heap) (a : Nat) (node : BehaviorNode) : Heap :=
  { h with nodes := h.nodes.set a (some node) }

/-- What `malloc` does during one call of `createBehaviorNode`: whether the request for
the node block is served, whether the request for the array of children is served, and
the value that the fresh node block happens to hold in its field `decorator`, which
`createBehaviorNode` does not initialise. -/
structure Malloc where
  node : Bool
  children : Bool
  decorator : Option Nat
  deriving DecidableEq, Repr

def checkActionNode (h : Heap) (node : Option Nat) : Result (Option Nat) :=
  match node with
  | none => .ret none
  | some a =>
    match h.node a with
    | none => .undef
    | some n =>
      if n.action = none then .ret none
      else if n.children ≠ none then .ret none
      else if n.child_count ≠ 0 then .ret none
      else .ret node

def checkConditionNode (h : Heap) (node : Option Nat) : Result (Option Nat) :=
  match node with
  | none => .ret none
  | some a =>
    match h.node a with
    | none => .undef
    | some n =>
      if n.action = none then .ret none
      else if n.children ≠ none then .ret none
      else if n.child_count ≠ 0 then .ret none
      else .ret node

def checkSequenceNode (h : Heap) (node : Option Nat) : Result (Option Nat) :=
  match node with
  | none => .ret none
  | some a =>
    match h.node a with
    | none => .undef
    | some n =>
      if n.children = none ∨ n.decorator ≠ none then .ret none
      else if n.child_count = 0 then .ret none
      else if n.action ≠ none then .ret none
      else .ret node

def checkSelectorNode (h : Heap) (node : Option Nat) : Result (Option Nat) :=
  match node with
  | none => .ret none
  | some a =>
    match h.node a with
    | none => .undef
    | some n =>
      if n.children = none ∨ n.decorator ≠ none then .ret none
      else if n.child_count = 0 then .ret none
      else if n.action ≠ none then .ret none
      else .ret node

def checkParallelNode (h : Heap) (node : Option Nat) : Result (Option Nat) :=
  match node with
  | none => .ret none
  | some a =>
    match h.node a with
    | none => .undef
    | some n =>
      if n.children = none ∨ n.decorator ≠ none then .ret none
      else if n.child_count = 0 then .ret none
      else if n.action ≠ none then .ret none
      else .ret node

def checkMemoryNode (_h : Heap) (_node : Option Nat) : Result (Option Nat) :=
  .ret none

def checkDecoratorNode (h : Heap) (node : Option Nat) : Result (Option Nat) :=
  match node with
  | none => .ret none
  | some a =>
    match h.node a with
    | none => .undef
    | some n =>
      if n.children = none then .ret none
      else if 3 < n.child_count ∨ n.child_count = 0 then .ret none
      else .ret node

def BehaviorNodeCheck (h : Heap) (type : NodeType) (node : Option Nat) :
    Result (Option Nat) :=
  if type = NODE_TYPE_ACTION then checkActionNode h node
  else if type = NODE_TYPE_CONDITION then checkConditionNode h node
  else if type = NODE_TYPE_SEQUENCE then checkSequenceNode h node
  else if type = NODE_TYPE_SELECTOR then checkSelectorNode h node
  else if type = NODE_TYPE_PARALLEL then checkParallelNode h node
  else if type = NODE_TYPE_DECORATOR then checkDecoratorNode h node
  else if type = NODE_TYPE_MEMORY then checkMemoryNode h node
  else .ret none

/-- The loop of `createBehaviorNode` that copies the child pointers into the new array
and increments the reference count of every child that is not `NULL`; `i` is the loop
index, `n` the number of turns left and `copied` the cells of the new array written so
far.  Nothing when the behaviour is undefined: the argument `children` is `NULL` or
shorter than `child_count`, a child pointer is dangling, or a count overflows. -/
def adoptLoop (children : Option (List (Option Nat))) :
    Nat → Nat → Heap → List (Option Nat) → Option (Heap × List (Option Nat))
  | 0, _, h, copied => some (h, copied)
  | n + 1, i, h, copied =>
    match children with
    | none => none
    | some cs =>
      match cs[i]? with
      | none => none
      | some none => adoptLoop children n (i + 1) h (copied ++ [none])
      | some (some c) =>
        match h.node c with
        | none => none
        | some child =>
          if child.reference_count = INT_MAX then none
          else
            adoptLoop children n (i + 1)
              (h.setNode c { child with reference_count := child.reference_count + 1 })
              (copied ++ [some c])

/-- The function `createBehaviorNode`: the result, a node pointer or `NULL`, and the heap
after the call.  The new block is put at the first address never used before. -/
def createBehaviorNode (m : Malloc) (h : Heap) (children : Option (List (Option Nat)))
    (child_count : Int) (type : NodeType) (actionFunc : Option Nat) :
    Result (Option Nat) × Heap :=
  if m.node = false then (.exit, h)
  else
    let node : BehaviorNode :=
      { decorator := m.decorator, action := actionFunc, child_count := child_count,
        reference_count := 0, type := type, children := none }
    if 0 < child_count then
      if m.children = false then (.exit, h)
      else
        match adoptLoop children child_count.toNat 0 h [] with
        | none => (.undef, h)
        | some (h1, copied) =>
          let h2 : Heap :=
            { h1 with nodes := h1.nodes ++ [some { node with children := some copied }] }
          (BehaviorNodeCheck h2 type (some h1.nodes.length), h2)
    else
      let h2 : Heap := { h with nodes := h.nodes ++ [some node] }
      (BehaviorNodeCheck h2 type (some h.nodes.length), h2)

/-! ## `BehaviorTree.c`: the decorator factories -/

/-- The number of values of a `uint32_t`. -/
def UINT32_SIZE : Nat := 4294967296

/-- The function `createEmptyDecorator`; `ok` tells whether `malloc` serves the request.
After `memset` all the fields are `0`: the type is `DECORATOR_TYPE_INVERT`. -/
def createEmptyDecorator (ok : Bool) (h : Heap) : Result (Option Nat) × Heap :=
  if ok = false then (.exit, h)
  else
    (.ret (some h.decorators.length),
      { h with decorators := h.decorators ++
          [some { type := 0, params := 0, reference_count := 0 }] })

/-- Writing the decorator block at address `d`. -/
def Heap.setDecorator (h : Heap) (d : Nat) (decorator : Decorator) : Heap :=
  { h with decorators := h.decorators.set d (some decorator) }

/-- The two assignments `decorator->type = type; decorator->params.repeat = value;`
through the pointer `decorator`. -/
def writeDecorator (h : Heap) (decorator : Option Nat) (type : DecoratorType)
    (value : Option Nat) : Result (Option Nat) × Heap :=
  match decorator with
  | none => (.undef, h)
  | some d =>
    match h.decoratorAt d with
    | none => (.undef, h)
    | some dec =>
      (.ret (some d),
        h.setDecorator d { dec with type := type, params := value.getD dec.params })

def createRepeatDecorator (ok : Bool) (h : Heap) (repeatCount : Nat) :
    Result (Option Nat) × Heap :=
  match createEmptyDecorator ok h with
  | (.ret decorator, h1) =>
    writeDecorator h1 decorator DECORATOR_TYPE_REPEAT (some (repeatCount % UINT32_SIZE))
  | (r, h1) => (r, h1)

def createDelayDecorator (ok : Bool) (h : Heap) (delayTime : Nat) :
    Result (Option Nat) × Heap :=
  match createEmptyDecorator ok h with
  | (.ret decorator, h1) =>
    writeDecorator h1 decorator DECORATOR_TYPE_DELAY (some (delayTime % UINT32_SIZE))
  | (r, h1) => (r, h1)

def createConditionalDecorator (ok : Bool) (h : Heap) : Result (Option Nat) × Heap :=
  match createEmptyDecorator ok h with
  | (.ret none, h1) => (.exit, h1)
  | (.ret decorator, h1) => writeDecorator h1 decorator DECORATOR_TYPE_CONDITIONAL none
  | (r, h1) => (r, h1)

/-- The function `createDecorator`.  The argument `param` is a `void *`: `NULL`, or a
pointer to a `uint32_t` whose value is given. -/
def createDecorator (ok : Bool) (h : Heap) (type : DecoratorType) (param : Option Nat) :
    Result (Option Nat) × Heap :=
  match createEmptyDecorator ok h with
  | (.ret none, h1) => (.exit, h1)
  | (.ret decorator, h1) =>
    if type = DECORATOR_TYPE_REPEAT ∨ type = DECORATOR_TYPE_REPEAT_UNTIL_SUCCESS ∨
        type = DECORATOR_TYPE_DELAY then
      match param with
      | none => (.undef, h1)
      | some value => writeDecorator h1 decorator type (some (value % UINT32_SIZE))
    else writeDecorator h1 decorator type none
  | (r, h1) => (r, h1)

/-- The assignment `node->decorator = decorator` that `main.c` makes after it has created
a decorator node; nothing when `node` is `NULL` or dangling. -/
def attachDecorator (h : Heap) (node : Option Nat) (decorator : Option Nat) : Option Heap :=
  match node with
  | none => none
  | some a =>
    match h.node a with
    | none => none
    | some n => some (h.setNode a { n with decorator := decorator })

/-! ## `BehaviorTree.c`: teardown -/

/-- The smallest `int`: decrementing it is undefined behaviour. -/
def INT_MIN : Int := -2147483648

/-- The call `free (node)` on the node block at address `a`. -/
def Heap.freeNode (h : Heap) (a : Nat) : Heap :=
  { h with nodes := h.nodes.set a none }

/-- The call `free (decorator)` on the decorator block at address `d`. -/
def Heap.freeDecorator (h : Heap) (d : Nat) : Heap :=
  { h with decorators := h.decorators.set d none }

/-- The loop of `freeBehaviorTree` over the children of the node at address `a`, with `i`
the loop index and `n` the number of turns left.  The node is read again at every turn;
`child_count` is written by no statement of `freeBehaviorTree`, so the number of turns is
that of the first reading as long as the block is live.  The value is `1` when the loop
runs to its end. -/
def freeChildrenLoop (free : Option Nat → Heap → Result Int × Heap) (a : Nat) :
    Nat → Nat → Heap → Result Int × Heap
  | 0, _, h => (.ret 1, h)
  | n + 1, i, h =>
    match h.node a with
    | none => (.undef, h)
    | some node =>
      match node.child i with
      | none => (.undef, h)
      | some none => (.ret 0, h)
      | some (some c) =>
        match free (some c) h with
        | (.ret result, h1) =>
          if result = 0 then (.ret 0, h1) else freeChildrenLoop free a n (i + 1) h1
        | (r, h1) => (r, h1)

/-- The part `if (node->decorator) ...` of `freeBehaviorTree` for the node at address `a`;
nothing when the behaviour is undefined. -/
def releaseDecorator (h : Heap) (a : Nat) : Option Heap :=
  match h.node a with
  | none => none
  | some node =>
    match node.decorator with
    | none => some h
    | some d =>
      match h.decoratorAt d with
      | none => none
      | some dec =>
        if dec.reference_count = INT_MIN then none
        else if dec.reference_count - 1 = 0 then
          some ((h.freeDecorator d).setNode a { node with decorator := none })
        else
          some (h.setDecorator d { dec with reference_count := dec.reference_count - 1 })

/-- The part `if (--node->reference_count == 0) ...` of `freeBehaviorTree` for the node at
address `a`; nothing when the behaviour is undefined. -/
def releaseSelf (h : Heap) (a : Nat) : Option Heap :=
  match h.node a with
  | none => none
  | some node =>
    if node.reference_count = INT_MIN then none
    else if node.reference_count - 1 = 0 then some (h.freeNode a)
    else some (h.setNode a { node with reference_count := node.reference_count - 1 })

/-- The function `freeBehaviorTree`: the value returned and the heap after the call. -/
def freeBehaviorTree : Nat → Option Nat → Heap → Result Int × Heap
  | 0, _, h => (.timeout, h)
  | _ + 1, none, h => (.ret 0, h)
  | fuel + 1, some a, h =>
    match h.node a with
    | none => (.undef, h)
    | some node =>
      match freeChildrenLoop (freeBehaviorTree fuel) a node.child_count.toNat 0 h with
      | (.ret result, h1) =>
        if result = 0 then (.ret 0, h1)
        else
          match releaseDecorator h1 a with
          | none => (.undef, h1)
          | some h2 =>
            match releaseSelf h2 a with
            | none => (.undef, h2)
            | some h3 => (.ret 1, h3)
      | (r, h1) => (r, h1)

/-! ## Vocabulary of the statements -/

/-- Executing the listed nodes one after the other, left to right, each from the events
left by the one before and each to a normal return: the values returned, in order, and
the events after the last one.  Nothing when one of the executions does not return. -/
def runInOrder (exec : Exec) : List (Option Nat) → List Event → Option (List Int × List Event)
  | [], log => some ([], log)
  | c :: cs, log =>
    match exec c log with
    | (.ret result, log1) =>
      match runInOrder exec cs log1 with
      | some (results, log2) => some (result :: results, log2)
      | none => none
    | _ => none

/-- The node `node` after `k` adoptions: its reference count has grown by `k` and no
other field has changed. -/
def adoptedBy (k : Nat) (node : BehaviorNode) : BehaviorNode :=
  { node with reference_count := node.reference_count + k }

/-- What releases can have done between the heap `h` and the later heap `h1`: a node that
is live in `h1` was live in `h`, with the same children, and its count has not grown; a
node whose count was `0` or less in `h` is still live in `h1`; a decorator whose count
was `0` or less in `h` is still live in `h1`, with a count that has not grown. -/
def Released (h h1 : Heap) : Prop :=
  (∀ a n1, h1.node a = some n1 →
    ∃ n, h.node a = some n ∧ n1.children = n.children ∧ n1.child_count = n.child_count ∧
      n1.reference_count ≤ n.reference_count) ∧
  (∀ a n, h.node a = some n → n.reference_count ≤ 0 → ∃ n1, h1.node a = some n1) ∧
  (∀ d dec, h.decoratorAt d = some dec → dec.reference_count ≤ 0 →
    ∃ dec1, h1.decoratorAt d = some dec1 ∧ dec1.reference_count ≤ dec.reference_count)

/-- Releasing the listed children of the node at address `a` one after the other, from
left to right: every child is a node, the block of the parent is live when the call is
made, and every call returns a non-zero value.  The heap after the last call; nothing
when a child is `NULL` or a call fails. -/
def freeInOrder (free : Option Nat → Heap → Result Int × Heap) (a : Nat) :
    List (Option Nat) → Heap → Option Heap
  | [], h => some h
  | none :: _, _ => none
  | some x :: cs, h =>
    match h.node a with
    | none => none
    | some _ =>
      match free (some x) h with
      | (.ret result, h1) => if result = 0 then none else freeInOrder free a cs h1
      | _ => none

/-- The heap `h` with the blocks `l` allocated after those of `h`. -/
def Heap.withNodes (h : Heap) (l : List (Option BehaviorNode)) : Heap :=
  { nodes := h.nodes ++ l, decorators := h.decorators }

/-- The Condition leaf of the scenario of the shared node: the callback `fn`, no child,
and the reference count `count`. -/
def sharedLeaf (fn : Nat) (count : Int) : BehaviorNode :=
  { decorator := none, action := some fn, child_count := 0, reference_count := count,
    type := NODE_TYPE_CONDITION, children := none }

/-- The Condition leaf of the scenario of the shared node, built in a block whose field
`decorator`, which `createBehaviorNode` does not write, holds the address `d`. -/
def garbageLeaf (d fn : Nat) (count : Int) : BehaviorNode :=
  { sharedLeaf fn count with decorator := some d }

/-- A Sequence of the scenario of the shared node: its one child is the node at address
`x`, and its reference count is `count`. -/
def sharedParent (x : Nat) (count : Int) : BehaviorNode :=
  { decorator := none, action := none, child_count := 1, reference_count := count,
    type := NODE_TYPE_SEQUENCE, children := some [some x] }

/-- The shape of one node of a well-formed tree: an Action or a Condition has a callback
and no children; a Sequence, a Selector or a Parallel has its `child_count` children, at
least one; a decorator node has its `child_count` children, from one to three, and a
live decorator of one of the five kinds, with a count of at least `1` when the kind is
Repeat.  With `rus` false, the kind RepeatUntilSuccess is excluded. -/
def nodeOk (rus : Bool) (h : Heap) (node : BehaviorNode) : Bool :=
  if node.type = NODE_TYPE_ACTION ∨ node.type = NODE_TYPE_CONDITION then
    node.action.isSome && decide (node.children = none) && decide (node.child_count = 0)
  else if node.type = NODE_TYPE_SEQUENCE ∨ node.type = NODE_TYPE_SELECTOR ∨
      node.type = NODE_TYPE_PARALLEL then
    match node.children with
    | none => false
    | some cs => decide (node.child_count = cs.length) && decide (1 ≤ cs.length)
  else if node.type = NODE_TYPE_DECORATOR then
    match node.children, h.decoratorOf node with
    | some cs, some d =>
      decide (node.child_count = cs.length) && decide (1 ≤ cs.length) &&
        decide (cs.length ≤ 3) &&
        (decide (d.type = DECORATOR_TYPE_INVERT) ||
          (decide (d.type = DECORATOR_TYPE_REPEAT) && decide (1 ≤ d.params)) ||
          (rus && decide (d.type = DECORATOR_TYPE_REPEAT_UNTIL_SUCCESS)) ||
          decide (d.type = DECORATOR_TYPE_CONDITIONAL) ||
          decide (d.type = DECORATOR_TYPE_DELAY))
    | _, _ => false
  else false

/-- A well-formed tree of depth at most `depth` is rooted at the address `a`: the node is
live and has the shape `nodeOk`, and every child reference is present and is the root of
a well-formed tree of depth at most `depth - 1`. -/
def wellFormed (rus : Bool) (h : Heap) : Nat → Nat → Bool
  | 0, _ => false
  | depth + 1, a =>
    match h.node a with
    | none => false
    | some node =>
      nodeOk rus h node &&
        (node.children.getD []).all (fun c =>
          match c with
          | none => false
          | some x => wellFormed rus h depth x)

/-! ## A small tree, for the instances

Callbacks: `10` always returns `1`, `11` always returns `0`, `12` returns `1` on its
first two calls and `0` from then on, `13` always returns `2`. -/

def demoCallbacks : Callbacks := fun log fn =>
  if fn = 10 then 1
  else if fn = 11 then 0
  else if fn = 12 then
    (if (log.filter (fun e => e matches Event.call 12 _)).length < 2 then 1 else 0)
  else if fn = 13 then 2
  else 0

/-- A leaf as `createBehaviorNode (NULL, 0, type, fn)` builds it. -/
def demoLeaf (type : NodeType) (fn : Nat) : BehaviorNode :=
  { decorator := none, action := some fn, child_count := 0, reference_count := 0,
    type := type, children := none }

/-- An inner node: the given children, no callback. -/
def demoInner (type : NodeType) (decorator : Option Nat) (children : List (Option Nat)) :
    BehaviorNode :=
  { decorator := decorator, action := none, child_count := children.length,
    reference_count := 0, type := type, children := some children }

def demoHeap : Heap :=
  { nodes := [
      some (demoLeaf NODE_TYPE_ACTION 10),                                 -- 0
      some (demoLeaf NODE_TYPE_ACTION 11),                                 -- 1
      some (demoInner NODE_TYPE_SEQUENCE none [some 0, some 1, some 0]),   -- 2
      some (demoInner NODE_TYPE_SELECTOR none [some 1, some 0, some 1]),   -- 3
      some (demoInner NODE_TYPE_PARALLEL none [some 1, some 0]),           -- 4
      some (demoInner NODE_TYPE_DECORATOR (some 0) [some 2]),              -- 5
      some (demoLeaf NODE_TYPE_CONDITION 12),                              -- 6
      some (demoInner NODE_TYPE_DECORATOR (some 1) [some 6]),              -- 7
      some (demoInner NODE_TYPE_DECORATOR (some 2) [some 6]),              -- 8
      some (demoInner NODE_TYPE_DECORATOR (some 3) [some 1, some 0, some 6]), -- 9
      some (demoLeaf NODE_TYPE_ACTION 13),                                 -- 10
      some (demoInner NODE_TYPE_DECORATOR (some 4) [some 10]),             -- 11
      some (demoInner NODE_TYPE_PARALLEL none [some 0, some 0])],          -- 12
    decorators := [
      some { type := DECORATOR_TYPE_INVERT, params := 0, reference_count := 0 },
      some { type := DECORATOR_TYPE_REPEAT, params := 3, reference_count := 0 },
      some { type := DECORATOR_TYPE_REPEAT_UNTIL_SUCCESS, params := 0, reference_count := 0 },
      some { type := DECORATOR_TYPE_CONDITIONAL, params := 0, reference_count := 0 },
      some { type := DECORATOR_TYPE_DELAY, params := 5, reference_count := 0 }] }

/-- The heap in which nothing has been allocated. -/
def emptyHeap : Heap := { nodes := [], decorators := [] }

/-- A tree built with `createBehaviorNode`: the Action leaf with the callback `10`, at
address `0`, and then the Sequence over that leaf, at address `1`, the root. -/
def treeHeap : Heap :=
  (createBehaviorNode { node := true, children := true, decorator := none }
    (createBehaviorNode { node := true, children := true, decorator := none } emptyHeap
      none 0 NODE_TYPE_ACTION (some 10)).2
    (some [some 0]) 1 NODE_TYPE_SEQUENCE none).2

/-- A decorated tree built as `main.c` builds its own: the Action leaf with the callback
`10`, at address `0`; the decorator node over that leaf, at address `1`; a Repeat
decorator of count `3` from `createRepeatDecorator`, at address `0` of the decorators,
assigned to the field `decorator` of the node. -/
def decoratedHeap : Heap :=
  let h1 := (createBehaviorNode { node := true, children := true, decorator := none }
    emptyHeap none 0 NODE_TYPE_ACTION (some 10)).2
  let h2 := (createBehaviorNode { node := true, children := true, decorator := none } h1
    (some [some 0]) 1 NODE_TYPE_DECORATOR none).2
  let r := createRepeatDecorator true h2 3
  (attachDecorator r.2 (some 1) (some 0)).getD r.2

/-- A tree with an absent child, built with `createBehaviorNode`: the Action leaves with
the callbacks `10` and `11`, at the addresses `0` and `1`, and then the Sequence over
the first leaf, `NULL` and the second leaf, at address `2`, the root. -/
def brokenHeap : Heap :=
  let m : Malloc := { node := true, children := true, decorator := none }
  let h1 := (createBehaviorNode m emptyHeap none 0 NODE_TYPE_ACTION (some 10)).2
  let h2 := (createBehaviorNode m h1 none 0 NODE_TYPE_ACTION (some 11)).2
  (createBehaviorNode m h2 (some [some 0, none, some 1]) 3 NODE_TYPE_SEQUENCE none).2

/-- A graph with a shared inner node, built with `createBehaviorNode`: the Action leaf C
with the callback `10`, at address `0`; the Sequence S over C, at address `1`; the
Sequences P1 and P2, each over S, at the addresses `2` and `3`; and the Sequence over P1
and P2, at address `4`, the root. -/
def dagHeap : Heap :=
  let m : Malloc := { node := true, children := true, decorator := none }
  let h1 := (createBehaviorNode m emptyHeap none 0 NODE_TYPE_ACTION (some 10)).2
  let h2 := (createBehaviorNode m h1 (some [some 0]) 1 NODE_TYPE_SEQUENCE none).2
  let h3 := (createBehaviorNode m h2 (some [some 1]) 1 NODE_TYPE_SEQUENCE none).2
  let h4 := (createBehaviorNode m h3 (some [some 1]) 1 NODE_TYPE_SEQUENCE none).2
  (createBehaviorNode m h4 (some [some 2, some 3]) 2 NODE_TYPE_SEQUENCE none).2

/-- An allocator that serves both requests and hands out a block whose field `decorator`
holds `NULL`. -/
def demoMalloc : Malloc := { node := true, children := true, decorator := none }

/-! ## Lemmas on lists and on `runInOrder` -/

theorem drop_cons_inv {α : Type} {cs : List α} {i : Nat} {c : α} {l : List α}
    (h : cs.drop i = c :: l) : cs[i]? = some c ∧ cs.drop (i + 1) = l := by
  constructor
  · have := congrArg (fun t => t[0]?) h
    simpa using this
  · have := congrArg (fun t => t.drop 1) h
    simpa [List.drop_drop, Nat.add_comm] using this

theorem child_of_drop {node : BehaviorNode} {cs : List (Option Nat)} {i : Nat}
    {c : Option Nat} {l : List (Option Nat)} (hc : node.children = some cs)
    (h : cs.drop i = c :: l) : node.child i = some c := by
  simp [BehaviorNode.child, hc, (drop_cons_inv h).1]

theorem runInOrder_cons_iff (exec : Exec) (c : Option Nat) (cs : List (Option Nat))
    (log : List Event) (rs : List Int) (log2 : List Event) :
    runInOrder exec (c :: cs) log = some (rs, log2) ↔
      ∃ x log1 rs1, exec c log = (.ret x, log1) ∧
        runInOrder exec cs log1 = some (rs1, log2) ∧ rs = x :: rs1 := by
  rw [runInOrder]
  rcases hx : exec c log with ⟨res, log1⟩
  cases res with
  | ret x =>
    dsimp only
    cases hr : runInOrder exec cs log1 with
    | none => simp [hr]
    | some p =>
      rcases p with ⟨rs1, l2⟩
      simp only [Option.some.injEq, Prod.mk.injEq, Result.ret.injEq]
      constructor
      · rintro ⟨h1, h2⟩
        exact ⟨x, log1, rs1, ⟨rfl, rfl⟩, by rw [hr, h2], h1.symm⟩
      · rintro ⟨x1, l1, r1, ⟨h1, h2⟩, h3, h4⟩
        subst h1 h2
        rw [hr] at h3
        simp only [Option.some.injEq, Prod.mk.injEq] at h3
        exact ⟨by rw [h4, h3.1], h3.2⟩
  | exit => simp
  | undef => simp
  | timeout => simp

theorem runInOrder_nil_iff (exec : Exec) (log : List Event) (rs : List Int)
    (log2 : List Event) :
    runInOrder exec [] log = some (rs, log2) ↔ rs = [] ∧ log2 = log := by
  simp only [runInOrder, Option.some.injEq, Prod.mk.injEq]
  constructor
  · rintro ⟨h1, h2⟩; exact ⟨h1.symm, h2.symm⟩
  · rintro ⟨h1, h2⟩; exact ⟨h1.symm, h2.symm⟩

/-- The loop of `sequenceNode` over the children from index `i` on. -/
theorem sequenceLoop_iff (exec : Exec) (node : BehaviorNode) (cs : List (Option Nat))
    (hc : node.children = some cs) (r : Int) (log2 : List Event) :
    ∀ (l : List (Option Nat)) (i : Nat) (log : List Event), cs.drop i = l →
      (sequenceLoop exec node l.length i log = (.ret r, log2) ↔
        (r = 1 ∧ ∃ rs, runInOrder exec l log = some (rs, log2) ∧ ∀ x ∈ rs, x ≠ 0) ∨
        (r = 0 ∧ ∃ k rs logk c, runInOrder exec (l.take k) log = some (rs, logk) ∧
          (∀ x ∈ rs, x ≠ 0) ∧ l[k]? = some c ∧ exec c logk = (.ret 0, log2))) := by
  intro l
  induction l with
  | nil =>
    intro i log _
    simp only [List.length_nil, sequenceLoop, runInOrder_nil_iff, List.take_nil]
    constructor
    · intro h
      simp only [Prod.mk.injEq, Result.ret.injEq] at h
      exact Or.inl ⟨h.1.symm, [], ⟨rfl, h.2.symm⟩, by simp⟩
    · rintro (⟨h1, rs, ⟨_, h2⟩, _⟩ | ⟨_, k, rs, logk, c, _, _, h, _⟩)
      · rw [h1, h2]
      · simp at h
  | cons c l ih =>
    intro i log hd
    have hchild := child_of_drop hc hd
    have hd1 := (drop_cons_inv hd).2
    simp only [List.length_cons, sequenceLoop, hchild]
    rcases hx : exec c log with ⟨res, log1⟩
    cases res with
    | ret x =>
      dsimp only
      by_cases hx0 : x = 0
      · subst hx0
        simp only [if_true]
        constructor
        · intro h
          simp only [Prod.mk.injEq, Result.ret.injEq] at h
          refine Or.inr ⟨h.1.symm, 0, [], log, c, by simp [runInOrder], by simp, by simp, ?_⟩
          rw [hx, h.2]
        · rintro (⟨_, rs, hrun, hall⟩ | ⟨h1, k, rs, logk, c1, hrun, hall, hk, hex⟩)
          · rw [runInOrder_cons_iff] at hrun
            obtain ⟨x1, l1, rs1, he, _, rfl⟩ := hrun
            rw [hx] at he
            simp only [Prod.mk.injEq, Result.ret.injEq] at he
            exact absurd he.1.symm (hall x1 (by simp))
          · cases k with
            | zero =>
              simp only [List.take_zero, runInOrder_nil_iff] at hrun
              simp only [List.getElem?_cons_zero, Option.some.injEq] at hk
              rw [← hk, hrun.2, hx] at hex
              simp only [Prod.mk.injEq, Result.ret.injEq, true_and] at hex
              rw [h1, hex]
            | succ k =>
              rw [List.take_succ_cons, runInOrder_cons_iff] at hrun
              obtain ⟨x1, l1, rs1, he, _, rfl⟩ := hrun
              rw [hx] at he
              simp only [Prod.mk.injEq, Result.ret.injEq] at he
              exact absurd he.1.symm (hall x1 (by simp))
      · simp only [hx0, if_false]
        rw [ih (i + 1) log1 hd1]
        constructor
        · rintro (⟨h1, rs, hrun, hall⟩ | ⟨h1, k, rs, logk, c1, hrun, hall, hk, hex⟩)
          · refine Or.inl ⟨h1, x :: rs, ?_, ?_⟩
            · rw [runInOrder_cons_iff]; exact ⟨x, log1, rs, hx, hrun, rfl⟩
            · intro y hy
              rcases List.mem_cons.1 hy with rfl | hy
              · exact hx0
              · exact hall y hy
          · refine Or.inr ⟨h1, k + 1, x :: rs, logk, c1, ?_, ?_, by simpa using hk, hex⟩
            · rw [List.take_succ_cons, runInOrder_cons_iff]; exact ⟨x, log1, rs, hx, hrun, rfl⟩
            · intro y hy
              rcases List.mem_cons.1 hy with rfl | hy
              · exact hx0
              · exact hall y hy
        · rintro (⟨h1, rs, hrun, hall⟩ | ⟨h1, k, rs, logk, c1, hrun, hall, hk, hex⟩)
          · rw [runInOrder_cons_iff] at hrun
            obtain ⟨x1, l1, rs1, he, hrun1, rfl⟩ := hrun
            rw [hx] at he
            simp only [Prod.mk.injEq, Result.ret.injEq] at he
            rw [← he.2] at hrun1
            exact Or.inl ⟨h1, rs1, hrun1, fun y hy => hall y (List.mem_cons_of_mem _ hy)⟩
          · cases k with
            | zero =>
              simp only [List.take_zero, runInOrder_nil_iff] at hrun
              simp only [List.getElem?_cons_zero, Option.some.injEq] at hk
              rw [← hk, hrun.2, hx] at hex
              simp only [Prod.mk.injEq, Result.ret.injEq] at hex
              exact absurd hex.1 hx0
            | succ k =>
              rw [List.take_succ_cons, runInOrder_cons_iff] at hrun
              obtain ⟨x1, l1, rs1, he, hrun1, rfl⟩ := hrun
              rw [hx] at he
              simp only [Prod.mk.injEq, Result.ret.injEq] at he
              rw [← he.2] at hrun1
              exact Or.inr ⟨h1, k, rs1, logk, c1, hrun1,
                fun y hy => hall y (List.mem_cons_of_mem _ hy), by simpa using hk, hex⟩
    | _ =>
      dsimp only
      constructor
      · intro h; simp at h
      · rintro (⟨_, rs, hrun, _⟩ | ⟨_, k, rs, logk, c1, hrun, _, hk, hex⟩)
        · rw [runInOrder_cons_iff] at hrun
          obtain ⟨x1, l1, rs1, he, _, _⟩ := hrun
          rw [hx] at he; simp at he
        · cases k with
          | zero =>
            simp only [List.take_zero, runInOrder_nil_iff] at hrun
            simp only [List.getElem?_cons_zero, Option.some.injEq] at hk
            rw [← hk, hrun.2, hx] at hex
            simp at hex
          | succ k =>
            rw [List.take_succ_cons, runInOrder_cons_iff] at hrun
            obtain ⟨x1, l1, rs1, he, _, _⟩ := hrun
            rw [hx] at he; simp at he

/-- The loop of `selectorNode` over the children from index `i` on. -/
theorem selectorLoop_iff (exec : Exec) (node : BehaviorNode) (cs : List (Option Nat))
    (hc : node.children = some cs) (r : Int) (log2 : List Event) :
    ∀ (l : List (Option Nat)) (i : Nat) (log : List Event), cs.drop i = l →
      (selectorLoop exec node l.length i log = (.ret r, log2) ↔
        (r = 1 ∧ ∃ k rs logk c x, runInOrder exec (l.take k) log = some (rs, logk) ∧
          (∀ y ∈ rs, y = 0) ∧ l[k]? = some c ∧ exec c logk = (.ret x, log2) ∧ x ≠ 0) ∨
        (r = 0 ∧ ∃ rs, runInOrder exec l log = some (rs, log2) ∧ ∀ y ∈ rs, y = 0)) := by
  intro l
  induction l with
  | nil =>
    intro i log _
    simp only [List.length_nil, selectorLoop, runInOrder_nil_iff, List.take_nil]
    constructor
    · intro h
      simp only [Prod.mk.injEq, Result.ret.injEq] at h
      exact Or.inr ⟨h.1.symm, [], ⟨rfl, h.2.symm⟩, by simp⟩
    · rintro (⟨_, k, rs, logk, c, x, _, _, h, _⟩ | ⟨h1, rs, ⟨_, h2⟩, _⟩)
      · simp at h
      · rw [h1, h2]
  | cons c l ih =>
    intro i log hd
    have hchild := child_of_drop hc hd
    have hd1 := (drop_cons_inv hd).2
    simp only [List.length_cons, selectorLoop, hchild]
    rcases hx : exec c log with ⟨res, log1⟩
    cases res with
    | ret x =>
      dsimp only
      by_cases hx0 : x = 0
      · subst hx0
        simp only [ne_eq, not_true_eq_false, if_false]
        rw [ih (i + 1) log1 hd1]
        constructor
        · rintro (⟨h1, k, rs, logk, c1, x1, hrun, hall, hk, hex, hne⟩ | ⟨h1, rs, hrun, hall⟩)
          · refine Or.inl ⟨h1, k + 1, 0 :: rs, logk, c1, x1, ?_, ?_, by simpa using hk, hex, hne⟩
            · rw [List.take_succ_cons, runInOrder_cons_iff]; exact ⟨0, log1, rs, hx, hrun, rfl⟩
            · intro y hy
              rcases List.mem_cons.1 hy with rfl | hy
              · rfl
              · exact hall y hy
          · refine Or.inr ⟨h1, 0 :: rs, ?_, ?_⟩
            · rw [runInOrder_cons_iff]; exact ⟨0, log1, rs, hx, hrun, rfl⟩
            · intro y hy
              rcases List.mem_cons.1 hy with rfl | hy
              · rfl
              · exact hall y hy
        · rintro (⟨h1, k, rs, logk, c1, x1, hrun, hall, hk, hex, hne⟩ | ⟨h1, rs, hrun, hall⟩)
          · cases k with
            | zero =>
              simp only [List.take_zero, runInOrder_nil_iff] at hrun
              simp only [List.getElem?_cons_zero, Option.some.injEq] at hk
              rw [← hk, hrun.2, hx] at hex
              simp only [Prod.mk.injEq, Result.ret.injEq] at hex
              exact absurd hex.1.symm hne
            | succ k =>
              rw [List.take_succ_cons, runInOrder_cons_iff] at hrun
              obtain ⟨x2, l1, rs1, he, hrun1, rfl⟩ := hrun
              rw [hx] at he
              simp only [Prod.mk.injEq, Result.ret.injEq] at he
              rw [← he.2] at hrun1
              exact Or.inl ⟨h1, k, rs1, logk, c1, x1, hrun1,
                fun y hy => hall y (List.mem_cons_of_mem _ hy), by simpa using hk, hex, hne⟩
          · rw [runInOrder_cons_iff] at hrun
            obtain ⟨x1, l1, rs1, he, hrun1, rfl⟩ := hrun
            rw [hx] at he
            simp only [Prod.mk.injEq, Result.ret.injEq] at he
            rw [← he.2] at hrun1
            exact Or.inr ⟨h1, rs1, hrun1, fun y hy => hall y (List.mem_cons_of_mem _ hy)⟩
      · simp only [ne_eq, hx0, not_false_eq_true, if_true]
        constructor
        · intro h
          simp only [Prod.mk.injEq, Result.ret.injEq] at h
          refine Or.inl ⟨h.1.symm, 0, [], log, c, x, by simp [runInOrder], by simp, by simp, ?_, hx0⟩
          rw [hx, h.2]
        · rintro (⟨h1, k, rs, logk, c1, x1, hrun, hall, hk, hex, hne⟩ | ⟨_, rs, hrun, hall⟩)
          · cases k with
            | zero =>
              simp only [List.take_zero, runInOrder_nil_iff] at hrun
              simp only [List.getElem?_cons_zero, Option.some.injEq] at hk
              rw [← hk, hrun.2, hx] at hex
              simp only [Prod.mk.injEq, Result.ret.injEq] at hex
              rw [h1, hex.2]
            | succ k =>
              rw [List.take_succ_cons, runInOrder_cons_iff] at hrun
              obtain ⟨x2, l1, rs1, he, _, rfl⟩ := hrun
              rw [hx] at he
              simp only [Prod.mk.injEq, Result.ret.injEq] at he
              exact absurd (he.1.trans (hall x2 (by simp))) hx0
          · rw [runInOrder_cons_iff] at hrun
            obtain ⟨x1, l1, rs1, he, _, rfl⟩ := hrun
            rw [hx] at he
            simp only [Prod.mk.injEq, Result.ret.injEq] at he
            exact absurd (he.1.trans (hall x1 (by simp))) hx0
    | _ =>
      dsimp only
      constructor
      · intro h; simp at h
      · rintro (⟨_, k, rs, logk, c1, x1, hrun, _, hk, hex, _⟩ | ⟨_, rs, hrun, _⟩)
        · cases k with
          | zero =>
            simp only [List.take_zero, runInOrder_nil_iff] at hrun
            simp only [List.getElem?_cons_zero, Option.some.injEq] at hk
            rw [← hk, hrun.2, hx] at hex
            simp at hex
          | succ k =>
            rw [List.take_succ_cons, runInOrder_cons_iff] at hrun
            obtain ⟨x2, l1, rs1, he, _, _⟩ := hrun
            rw [hx] at he; simp at he
        · rw [runInOrder_cons_iff] at hrun
          obtain ⟨x1, l1, rs1, he, _, _⟩ := hrun
          rw [hx] at he; simp at he

/-! ## How `executeNode` dispatches -/

theorem executeNode_sequence (cb : Callbacks) (h : Heap) (fuel a : Nat) (node : BehaviorNode)
    (log : List Event) (ha : h.node a = some node) (ht : node.type = NODE_TYPE_SEQUENCE) :
    executeNode cb h (fuel + 1) (some a) log = sequenceNode (executeNode cb h fuel) node log := by
  simp [executeNode, ha, ht, NODE_TYPE_SEQUENCE, NODE_TYPE_ACTION, NODE_TYPE_CONDITION]

theorem executeNode_selector (cb : Callbacks) (h : Heap) (fuel a : Nat) (node : BehaviorNode)
    (log : List Event) (ha : h.node a = some node) (ht : node.type = NODE_TYPE_SELECTOR) :
    executeNode cb h (fuel + 1) (some a) log = selectorNode (executeNode cb h fuel) node log := by
  simp [executeNode, ha, ht, NODE_TYPE_SEQUENCE, NODE_TYPE_ACTION, NODE_TYPE_CONDITION,
    NODE_TYPE_SELECTOR]

theorem executeNode_parallel (cb : Callbacks) (h : Heap) (fuel a : Nat) (node : BehaviorNode)
    (log : List Event) (ha : h.node a = some node) (ht : node.type = NODE_TYPE_PARALLEL) :
    executeNode cb h (fuel + 1) (some a) log = parallelNode (executeNode cb h fuel) node log := by
  simp [executeNode, ha, ht, NODE_TYPE_SEQUENCE, NODE_TYPE_ACTION, NODE_TYPE_CONDITION,
    NODE_TYPE_SELECTOR, NODE_TYPE_PARALLEL, NODE_TYPE_DECORATOR]

theorem executeNode_decorator (cb : Callbacks) (h : Heap) (fuel a : Nat) (node : BehaviorNode)
    (log : List Event) (ha : h.node a = some node) (ht : node.type = NODE_TYPE_DECORATOR) :
    executeNode cb h (fuel + 1) (some a) log =
      decoratorNode h fuel (executeNode cb h fuel) node log := by
  simp [executeNode, ha, ht, NODE_TYPE_SEQUENCE, NODE_TYPE_ACTION, NODE_TYPE_CONDITION,
    NODE_TYPE_SELECTOR, NODE_TYPE_DECORATOR]

theorem executeNode_leaf (cb : Callbacks) (h : Heap) (fuel a fn : Nat) (node : BehaviorNode)
    (log : List Event) (ha : h.node a = some node)
    (ht : node.type = NODE_TYPE_ACTION ∨ node.type = NODE_TYPE_CONDITION)
    (hf : node.action = some fn) :
    executeNode cb h (fuel + 1) (some a) log =
      (.ret (cb log fn), log ++ [Event.call fn (cb log fn)]) := by
  rcases ht with ht | ht <;>
    simp [executeNode, ha, ht, hf, callAction, NODE_TYPE_ACTION, NODE_TYPE_CONDITION]

/-! ## The composites -/

/-- Claim C1. A Sequence node with children `cs` returns `1` exactly when all the children,
executed one after the other from left to right, return a non-zero value, and `0`
exactly when some child returns `0` after all the children before it returned a
non-zero value; in that case the events are those left by that child: no child after
it is executed.  It returns no other value. -/
theorem sequence_returns_iff (cb : Callbacks) (h : Heap) (fuel a : Nat) (node : BehaviorNode)
    (cs : List (Option Nat)) (log : List Event) (r : Int) (log2 : List Event)
    (ha : h.node a = some node) (ht : node.type = NODE_TYPE_SEQUENCE)
    (hc : node.children = some cs) (hn : node.child_count = cs.length) :
    executeNode cb h (fuel + 1) (some a) log = (.ret r, log2) ↔
      (r = 1 ∧ ∃ rs, runInOrder (executeNode cb h fuel) cs log = some (rs, log2) ∧
        ∀ x ∈ rs, x ≠ 0) ∨
      (r = 0 ∧ ∃ k rs logk c,
        runInOrder (executeNode cb h fuel) (cs.take k) log = some (rs, logk) ∧
        (∀ x ∈ rs, x ≠ 0) ∧ cs[k]? = some c ∧
        executeNode cb h fuel c logk = (.ret 0, log2)) := by
  rw [executeNode_sequence cb h fuel a node log ha ht, sequenceNode, hn, Int.toNat_ofNat]
  exact sequenceLoop_iff (executeNode cb h fuel) node cs hc r log2 cs 0 log rfl

/-- An instance of C1: the Sequence at address `2` has the children `[0, 1, 0]`; child `0`
returns `1`, child `1` returns `0`, and the third child is not executed. -/
theorem sequence_returns_iff_witness :
    (demoHeap.node 2 = some (demoInner NODE_TYPE_SEQUENCE none [some 0, some 1, some 0]) ∧
      executeNode demoCallbacks demoHeap 2 (some 2) [] =
        (.ret 0, [Event.call 10 1, Event.call 11 0])) ∧
    (executeNode demoCallbacks demoHeap 2 (some 2) [] =
        (.ret 0, [Event.call 10 1, Event.call 11 0]) ↔
      ((0 : Int) = 1 ∧ ∃ rs, runInOrder (executeNode demoCallbacks demoHeap 1)
          [some 0, some 1, some 0] [] = some (rs, [Event.call 10 1, Event.call 11 0]) ∧
        ∀ x ∈ rs, x ≠ 0) ∨
      ((0 : Int) = 0 ∧ ∃ k rs logk c,
        runInOrder (executeNode demoCallbacks demoHeap 1)
          ([some 0, some 1, some 0].take k) [] = some (rs, logk) ∧
        (∀ x ∈ rs, x ≠ 0) ∧ [some 0, some 1, some 0][k]? = some c ∧
        executeNode demoCallbacks demoHeap 1 c logk =
          (.ret 0, [Event.call 10 1, Event.call 11 0]))) :=
  ⟨⟨by decide, by decide⟩,
    sequence_returns_iff demoCallbacks demoHeap 1 2
      (demoInner NODE_TYPE_SEQUENCE none [some 0, some 1, some 0]) [some 0, some 1, some 0]
      [] 0 [Event.call 10 1, Event.call 11 0] (by decide) (by decide) rfl (by decide)⟩

/-- Claim C2. A Selector node with children `cs` returns `1` exactly when some child returns
a non-zero value after all the children before it, executed from left to right,
returned `0`; the events are then those left by that child: no child after it is
executed.  It returns `0` exactly when all the children, executed from left to right,
return `0`, and it returns no other value.  In particular, over two leaves of which the
first returns `0` and the second `1`, it returns `1` and exactly these two callbacks
were called, in that order. -/
theorem selector_returns_iff (cb : Callbacks) (h : Heap) (fuel a : Nat) (node : BehaviorNode)
    (cs : List (Option Nat)) (log : List Event)
    (ha : h.node a = some node) (ht : node.type = NODE_TYPE_SELECTOR)
    (hc : node.children = some cs) (hn : node.child_count = cs.length) :
    (∀ (r : Int) (log2 : List Event),
      executeNode cb h (fuel + 1) (some a) log = (.ret r, log2) ↔
        (r = 1 ∧ ∃ k rs logk c x,
          runInOrder (executeNode cb h fuel) (cs.take k) log = some (rs, logk) ∧
          (∀ y ∈ rs, y = 0) ∧ cs[k]? = some c ∧
          executeNode cb h fuel c logk = (.ret x, log2) ∧ x ≠ 0) ∨
        (r = 0 ∧ ∃ rs, runInOrder (executeNode cb h fuel) cs log = some (rs, log2) ∧
          ∀ y ∈ rs, y = 0)) ∧
    (∀ (a0 a1 f0 f1 : Nat) (n0 n1 : BehaviorNode), cs = [some a0, some a1] →
      h.node a0 = some n0 → n0.type = NODE_TYPE_ACTION → n0.action = some f0 →
      h.node a1 = some n1 → n1.type = NODE_TYPE_ACTION → n1.action = some f1 →
      cb log f0 = 0 → cb (log ++ [Event.call f0 0]) f1 = 1 →
      executeNode cb h (fuel + 2) (some a) log =
        (.ret 1, log ++ [Event.call f0 0, Event.call f1 1])) := by
  constructor
  · intro r log2
    rw [executeNode_selector cb h fuel a node log ha ht, selectorNode, hn, Int.toNat_ofNat]
    exact selectorLoop_iff (executeNode cb h fuel) node cs hc r log2 cs 0 log rfl
  · intro a0 a1 f0 f1 n0 n1 hcs h0 t0 g0 h1 t1 g1 r0 r1
    subst hcs
    have e0 := executeNode_leaf cb h fuel a0 f0 n0 log h0 (Or.inl t0) g0
    have e1 := executeNode_leaf cb h fuel a1 f1 n1 (log ++ [Event.call f0 0]) h1 (Or.inl t1) g1
    rw [r0] at e0
    rw [r1] at e1
    rw [executeNode_selector cb h (fuel + 1) a node log ha ht, selectorNode, hn]
    simp [selectorLoop, BehaviorNode.child, hc, e0, e1]

/-- An instance of C2: the Selector at address `3` has the children `[1, 0, 1]`; child `1`
returns `0`, child `0` returns `1`, and the third child is not executed. -/
theorem selector_returns_iff_witness :
    (demoHeap.node 3 = some (demoInner NODE_TYPE_SELECTOR none [some 1, some 0, some 1]) ∧
      executeNode demoCallbacks demoHeap 2 (some 3) [] =
        (.ret 1, [Event.call 11 0, Event.call 10 1])) ∧
    (executeNode demoCallbacks demoHeap 2 (some 3) [] =
        (.ret 1, [Event.call 11 0, Event.call 10 1]) ↔
      ((1 : Int) = 1 ∧ ∃ k rs logk c x,
        runInOrder (executeNode demoCallbacks demoHeap 1)
          ([some 1, some 0, some 1].take k) [] = some (rs, logk) ∧
        (∀ y ∈ rs, y = 0) ∧ [some 1, some 0, some 1][k]? = some c ∧
        executeNode demoCallbacks demoHeap 1 c logk =
          (.ret x, [Event.call 11 0, Event.call 10 1]) ∧ x ≠ 0) ∨
      ((1 : Int) = 0 ∧ ∃ rs, runInOrder (executeNode demoCallbacks demoHeap 1)
          [some 1, some 0, some 1] [] = some (rs, [Event.call 11 0, Event.call 10 1]) ∧
        ∀ y ∈ rs, y = 0)) :=
  ⟨⟨by decide, by decide⟩,
    (selector_returns_iff demoCallbacks demoHeap 1 3
      (demoInner NODE_TYPE_SELECTOR none [some 1, some 0, some 1]) [some 1, some 0, some 1]
      [] (by decide) (by decide) rfl (by decide)).1 1 [Event.call 11 0, Event.call 10 1]⟩

/-- The loop of `parallelNode` over the children from index `i` on: all of them are
executed, and `successCount` has grown by the number of those that returned `0`. -/
theorem parallelLoop_iff (exec : Exec) (node : BehaviorNode) (cs : List (Option Nat))
    (hc : node.children = some cs) (r : Int) (log2 : List Event) :
    ∀ (l : List (Option Nat)) (i : Nat) (successCount : Int) (log : List Event),
      cs.drop i = l →
      (parallelLoop exec node l.length i successCount log = (.ret r, log2) ↔
        ∃ rs, runInOrder exec l log = some (rs, log2) ∧
          r = if successCount + (rs.count 0 : Nat) = node.child_count then 1 else 0) := by
  intro l
  induction l with
  | nil =>
    intro i sc log _
    simp only [List.length_nil, parallelLoop, runInOrder_nil_iff]
    constructor
    · intro h
      simp only [Prod.mk.injEq, Result.ret.injEq] at h
      exact ⟨[], ⟨rfl, h.2.symm⟩, by simpa using h.1.symm⟩
    · rintro ⟨rs, ⟨rfl, rfl⟩, h⟩
      simp only [List.count_nil, Nat.cast_zero, add_zero] at h
      rw [h]
  | cons c l ih =>
    intro i sc log hd
    have hchild := child_of_drop hc hd
    have hd1 := (drop_cons_inv hd).2
    simp only [List.length_cons, parallelLoop, hchild]
    rcases hx : exec c log with ⟨res, log1⟩
    cases res with
    | ret x =>
      dsimp only
      by_cases hx0 : x = 0
      · subst hx0
        simp only [if_true]
        rw [ih (i + 1) (sc + 1) log1 hd1]
        constructor
        · rintro ⟨rs, hrun, hr⟩
          refine ⟨0 :: rs, ?_, ?_⟩
          · rw [runInOrder_cons_iff]; exact ⟨0, log1, rs, hx, hrun, rfl⟩
          · rw [hr]; simp only [List.count_cons_self, Nat.cast_add, Nat.cast_one]
            rw [add_assoc, add_comm 1]
        · rintro ⟨rs, hrun, hr⟩
          rw [runInOrder_cons_iff] at hrun
          obtain ⟨x1, l1, rs1, he, hrun1, rfl⟩ := hrun
          rw [hx] at he
          simp only [Prod.mk.injEq, Result.ret.injEq] at he
          rw [← he.2] at hrun1
          refine ⟨rs1, hrun1, ?_⟩
          rw [hr, ← he.1]; simp only [List.count_cons_self, Nat.cast_add, Nat.cast_one]
          rw [add_assoc, add_comm 1]
      · simp only [hx0, if_false]
        rw [ih (i + 1) sc log1 hd1]
        constructor
        · rintro ⟨rs, hrun, hr⟩
          refine ⟨x :: rs, ?_, ?_⟩
          · rw [runInOrder_cons_iff]; exact ⟨x, log1, rs, hx, hrun, rfl⟩
          · rw [hr, List.count_cons_of_ne (Ne.symm hx0)]
        · rintro ⟨rs, hrun, hr⟩
          rw [runInOrder_cons_iff] at hrun
          obtain ⟨x1, l1, rs1, he, hrun1, rfl⟩ := hrun
          rw [hx] at he
          simp only [Prod.mk.injEq, Result.ret.injEq] at he
          rw [← he.2] at hrun1
          refine ⟨rs1, hrun1, ?_⟩
          rw [hr, List.count_cons_of_ne (by rw [← he.1]; exact Ne.symm hx0)]
    | _ =>
      dsimp only
      constructor
      · intro h; simp at h
      · rintro ⟨rs, hrun, _⟩
        rw [runInOrder_cons_iff] at hrun
        obtain ⟨x1, l1, rs1, he, _, _⟩ := hrun
        rw [hx] at he; simp at he

/-- What a Parallel node returns: all its children are executed, from left to right,
and the value is `1` exactly when the number of children that returned `0` is the
number of children. -/
theorem parallel_returns_iff (cb : Callbacks) (h : Heap) (fuel a : Nat) (node : BehaviorNode)
    (cs : List (Option Nat)) (log : List Event) (r : Int) (log2 : List Event)
    (ha : h.node a = some node) (ht : node.type = NODE_TYPE_PARALLEL)
    (hc : node.children = some cs) (hn : node.child_count = cs.length) :
    executeNode cb h (fuel + 1) (some a) log = (.ret r, log2) ↔
      ∃ rs, runInOrder (executeNode cb h fuel) cs log = some (rs, log2) ∧
        r = if rs.count 0 = cs.length then 1 else 0 := by
  rw [executeNode_parallel cb h fuel a node log ha ht, parallelNode, hn, Int.toNat_ofNat,
    parallelLoop_iff (executeNode cb h fuel) node cs hc r log2 cs 0 0 log rfl, hn]
  simp only [zero_add, Nat.cast_inj]

theorem runInOrder_length (exec : Exec) :
    ∀ (cs : List (Option Nat)) (log : List Event) (rs : List Int) (log2 : List Event),
      runInOrder exec cs log = some (rs, log2) → rs.length = cs.length := by
  intro cs
  induction cs with
  | nil =>
    intro log rs log2 h
    rw [runInOrder_nil_iff] at h
    rw [h.1]; rfl
  | cons c cs ih =>
    intro log rs log2 h
    rw [runInOrder_cons_iff] at h
    obtain ⟨x, log1, rs1, _, h1, rfl⟩ := h
    simp [ih log1 rs1 log2 h1]

/-- Claim C3 (what the code does instead).  A Parallel node executes all its children and
returns `1` exactly when every child returned `0`, that is when every child failed, and
`0` as soon as one child returned a non-zero value: `successCount` counts the failing
children and is compared with `child_count`.  A Parallel node whose children all
succeed returns `0`. -/
theorem parallel_returns_one_iff_all_fail (cb : Callbacks) (h : Heap) (fuel a : Nat)
    (node : BehaviorNode) (cs : List (Option Nat)) (log : List Event) (r : Int)
    (log2 : List Event) (ha : h.node a = some node) (ht : node.type = NODE_TYPE_PARALLEL)
    (hc : node.children = some cs) (hn : node.child_count = cs.length) :
    executeNode cb h (fuel + 1) (some a) log = (.ret r, log2) ↔
      ∃ rs, runInOrder (executeNode cb h fuel) cs log = some (rs, log2) ∧
        ((r = 1 ∧ ∀ x ∈ rs, x = 0) ∨ (r = 0 ∧ ∃ x ∈ rs, x ≠ 0)) := by
  rw [parallel_returns_iff cb h fuel a node cs log r log2 ha ht hc hn]
  constructor
  · rintro ⟨rs, hrun, hr⟩
    refine ⟨rs, hrun, ?_⟩
    have hlen := runInOrder_length _ cs log rs log2 hrun
    by_cases hall : ∀ x ∈ rs, x = 0
    · left
      refine ⟨?_, hall⟩
      rw [hr, if_pos]
      rw [← hlen, List.count_eq_length]
      exact fun x hx => (hall x hx).symm
    · right
      refine ⟨?_, by push_neg at hall; exact hall⟩
      rw [hr, if_neg]
      rw [← hlen, List.count_eq_length]
      exact fun hh => hall (fun x hx => (hh x hx).symm)
  · rintro ⟨rs, hrun, hr⟩
    refine ⟨rs, hrun, ?_⟩
    have hlen := runInOrder_length _ cs log rs log2 hrun
    rcases hr with ⟨h1, hall⟩ | ⟨h0, x, hx, hne⟩
    · rw [h1, if_pos]
      rw [← hlen, List.count_eq_length]
      exact fun x hx => (hall x hx).symm
    · rw [h0, if_neg]
      rw [← hlen, List.count_eq_length]
      exact fun hh => hne (hh x hx).symm

/-- The failing input of C3: the Parallel at address `12` has two children, both the leaf
that returns `1`; both succeed and the node returns `0`. -/
theorem parallel_returns_one_iff_all_fail_witness :
    demoHeap.node 12 = some (demoInner NODE_TYPE_PARALLEL none [some 0, some 0]) ∧
    runInOrder (executeNode demoCallbacks demoHeap 1) [some 0, some 0] [] =
      some ([1, 1], [Event.call 10 1, Event.call 10 1]) ∧
    executeNode demoCallbacks demoHeap 2 (some 12) [] =
      (.ret 0, [Event.call 10 1, Event.call 10 1]) :=
  ⟨by decide, by decide,
    (parallel_returns_one_iff_all_fail demoCallbacks demoHeap 1 12
      (demoInner NODE_TYPE_PARALLEL none [some 0, some 0]) [some 0, some 0] [] 0
      [Event.call 10 1, Event.call 10 1] (by decide) (by decide) rfl (by decide)).2
      ⟨[1, 1], by decide, Or.inr ⟨rfl, 1, by decide, by decide⟩⟩⟩

/-- Claim C4. A Parallel node with children `cs` returns, with the events `log2`, exactly
when the children `cs`, all of them, executed one after the other from left to right,
each once, return and leave the events `log2`, whatever values they return: there are as
many returned values as children and no condition on them. -/
theorem parallel_executes_every_child (cb : Callbacks) (h : Heap) (fuel a : Nat)
    (node : BehaviorNode) (cs : List (Option Nat)) (log : List Event) (log2 : List Event)
    (ha : h.node a = some node) (ht : node.type = NODE_TYPE_PARALLEL)
    (hc : node.children = some cs) (hn : node.child_count = cs.length) :
    (∃ r, executeNode cb h (fuel + 1) (some a) log = (.ret r, log2)) ↔
      ∃ rs, runInOrder (executeNode cb h fuel) cs log = some (rs, log2) ∧
        rs.length = cs.length := by
  constructor
  · rintro ⟨r, hr⟩
    obtain ⟨rs, hrun, _⟩ := (parallel_returns_iff cb h fuel a node cs log r log2 ha ht hc hn).1 hr
    exact ⟨rs, hrun, runInOrder_length _ cs log rs log2 hrun⟩
  · rintro ⟨rs, hrun, _⟩
    exact ⟨_, (parallel_returns_iff cb h fuel a node cs log _ log2 ha ht hc hn).2
      ⟨rs, hrun, rfl⟩⟩

/-- An instance of C4: the Parallel at address `4` has the children `[1, 0]`; the first
returns `0`, and the second is executed all the same. -/
theorem parallel_executes_every_child_witness :
    demoHeap.node 4 = some (demoInner NODE_TYPE_PARALLEL none [some 1, some 0]) ∧
    ∃ rs, runInOrder (executeNode demoCallbacks demoHeap 1) [some 1, some 0] [] =
        some (rs, [Event.call 11 0, Event.call 10 1]) ∧ rs.length = [some 1, some 0].length :=
  ⟨by decide,
    (parallel_executes_every_child demoCallbacks demoHeap 1 4
      (demoInner NODE_TYPE_PARALLEL none [some 1, some 0]) [some 1, some 0] []
      [Event.call 11 0, Event.call 10 1] (by decide) (by decide) rfl (by decide)).1
      ⟨0, by decide⟩⟩

/-! ## The decorators -/

theorem decoratorNode_invert (h : Heap) (fuel : Nat) (exec : Exec) (node : BehaviorNode)
    (log : List Event) (d : Decorator) (hn : node.child_count ≠ 0)
    (hd : h.decoratorOf node = some d) (hdt : d.type = DECORATOR_TYPE_INVERT) :
    decoratorNode h fuel exec node log = invertDecorator exec node log := by
  simp [decoratorNode, hn, hd, hdt]

theorem decoratorNode_repeat (h : Heap) (fuel : Nat) (exec : Exec) (node : BehaviorNode)
    (log : List Event) (d : Decorator) (hn : node.child_count ≠ 0)
    (hd : h.decoratorOf node = some d) (hdt : d.type = DECORATOR_TYPE_REPEAT) :
    decoratorNode h fuel exec node log = repeatLoop exec node d.params none log := by
  simp [decoratorNode, repeatDecorator, hn, hd, hdt, DECORATOR_TYPE_REPEAT,
    DECORATOR_TYPE_INVERT]

theorem decoratorNode_repeatUntilSuccess (h : Heap) (fuel : Nat) (exec : Exec)
    (node : BehaviorNode) (log : List Event) (d : Decorator) (hn : node.child_count ≠ 0)
    (hd : h.decoratorOf node = some d) (hdt : d.type = DECORATOR_TYPE_REPEAT_UNTIL_SUCCESS) :
    decoratorNode h fuel exec node log = repeatUntilSuccessLoop exec node fuel log := by
  simp [decoratorNode, repeatUntilSuccessDecorator, hn, hd, hdt, DECORATOR_TYPE_REPEAT,
    DECORATOR_TYPE_INVERT, DECORATOR_TYPE_REPEAT_UNTIL_SUCCESS]

theorem decoratorNode_conditional (h : Heap) (fuel : Nat) (exec : Exec) (node : BehaviorNode)
    (log : List Event) (d : Decorator) (hn : node.child_count ≠ 0)
    (hd : h.decoratorOf node = some d) (hdt : d.type = DECORATOR_TYPE_CONDITIONAL) :
    decoratorNode h fuel exec node log = conditionalDecorator exec node log := by
  simp [decoratorNode, hn, hd, hdt, DECORATOR_TYPE_REPEAT, DECORATOR_TYPE_INVERT,
    DECORATOR_TYPE_REPEAT_UNTIL_SUCCESS, DECORATOR_TYPE_CONDITIONAL]

theorem decoratorNode_delay (h : Heap) (fuel : Nat) (exec : Exec) (node : BehaviorNode)
    (log : List Event) (d : Decorator) (hn : node.child_count ≠ 0)
    (hd : h.decoratorOf node = some d) (hdt : d.type = DECORATOR_TYPE_DELAY) :
    decoratorNode h fuel exec node log = delayDecorator h exec node log := by
  simp [decoratorNode, hn, hd, hdt, DECORATOR_TYPE_REPEAT, DECORATOR_TYPE_INVERT,
    DECORATOR_TYPE_REPEAT_UNTIL_SUCCESS, DECORATOR_TYPE_CONDITIONAL, DECORATOR_TYPE_DELAY]

theorem child_zero_of_children {node : BehaviorNode} {c : Option Nat}
    {rest : List (Option Nat)} (hc : node.children = some (c :: rest)) :
    node.child 0 = some c := by
  simp [BehaviorNode.child, hc]

/-- Claim C5. A decorator node with an Invert decorator over the child `c` executes `c` once
and returns `1` exactly when `c` returned `0`, and `0` exactly when `c` returned a
non-zero value; it returns no other value.  In particular, over a Sequence of two leaves
of which the first returns `1` and the second `0`, it returns `1`. -/
theorem invert_returns_iff (cb : Callbacks) (h : Heap) (fuel a : Nat) (node : BehaviorNode)
    (d : Decorator) (c : Option Nat) (rest : List (Option Nat)) (log : List Event)
    (ha : h.node a = some node) (ht : node.type = NODE_TYPE_DECORATOR)
    (hd : h.decoratorOf node = some d) (hdt : d.type = DECORATOR_TYPE_INVERT)
    (hc : node.children = some (c :: rest)) (hn : node.child_count ≠ 0) :
    (∀ (r : Int) (log2 : List Event),
      executeNode cb h (fuel + 1) (some a) log = (.ret r, log2) ↔
        ∃ x, executeNode cb h fuel c log = (.ret x, log2) ∧
          ((r = 1 ∧ x = 0) ∨ (r = 0 ∧ x ≠ 0))) ∧
    (∀ (s a0 a1 f0 f1 : Nat) (seq n0 n1 : BehaviorNode), c = some s →
      h.node s = some seq → seq.type = NODE_TYPE_SEQUENCE →
      seq.children = some [some a0, some a1] → seq.child_count = 2 →
      h.node a0 = some n0 → n0.type = NODE_TYPE_ACTION → n0.action = some f0 →
      h.node a1 = some n1 → n1.type = NODE_TYPE_ACTION → n1.action = some f1 →
      cb log f0 = 1 → cb (log ++ [Event.call f0 1]) f1 = 0 →
      executeNode cb h (fuel + 3) (some a) log =
        (.ret 1, log ++ [Event.call f0 1, Event.call f1 0])) := by
  have hc0 := child_zero_of_children hc
  constructor
  · intro r log2
    rw [executeNode_decorator cb h fuel a node log ha ht,
      decoratorNode_invert h fuel _ node log d hn hd hdt]
    simp only [invertDecorator, hc0]
    rcases hx : executeNode cb h fuel c log with ⟨res, log1⟩
    cases res with
    | ret x =>
      simp only [Prod.mk.injEq, Result.ret.injEq]
      constructor
      · rintro ⟨h1, h2⟩
        refine ⟨x, ⟨rfl, h2⟩, ?_⟩
        by_cases hx0 : x = 0
        · left; rw [if_pos hx0] at h1; exact ⟨h1.symm, hx0⟩
        · right; rw [if_neg hx0] at h1; exact ⟨h1.symm, hx0⟩
      · rintro ⟨x1, ⟨rfl, h2⟩, ⟨h1, h3⟩ | ⟨h1, h3⟩⟩
        · rw [if_pos h3]; exact ⟨h1.symm, h2⟩
        · rw [if_neg h3]; exact ⟨h1.symm, h2⟩
    | _ => simp
  · intro s a0 a1 f0 f1 seq n0 n1 hcs hs ts cs1 ns h0 t0 g0 h1 t1 g1 r0 r1
    subst hcs
    have e0 := executeNode_leaf cb h fuel a0 f0 n0 log h0 (Or.inl t0) g0
    have e1 := executeNode_leaf cb h fuel a1 f1 n1 (log ++ [Event.call f0 1]) h1 (Or.inl t1) g1
    rw [r0] at e0
    rw [r1] at e1
    have es : executeNode cb h (fuel + 2) (some s) log =
        (.ret 0, log ++ [Event.call f0 1, Event.call f1 0]) := by
      rw [executeNode_sequence cb h (fuel + 1) s seq log hs ts, sequenceNode, ns]
      simp [sequenceLoop, BehaviorNode.child, cs1, e0, e1]
    rw [executeNode_decorator cb h (fuel + 2) a node log ha ht,
      decoratorNode_invert h (fuel + 2) _ node log d hn hd hdt]
    simp [invertDecorator, hc0, es]

/-- An instance of C5: the decorator node at address `5` inverts the Sequence at
address `2`, which returns `0`. -/
theorem invert_returns_iff_witness :
    (demoHeap.node 5 = some (demoInner NODE_TYPE_DECORATOR (some 0) [some 2]) ∧
      executeNode demoCallbacks demoHeap 2 (some 2) [] =
        (.ret 0, [Event.call 10 1, Event.call 11 0])) ∧
    (executeNode demoCallbacks demoHeap 3 (some 5) [] =
        (.ret 1, [Event.call 10 1, Event.call 11 0]) ↔
      ∃ x, executeNode demoCallbacks demoHeap 2 (some 2) [] =
          (.ret x, [Event.call 10 1, Event.call 11 0]) ∧
        (((1 : Int) = 1 ∧ x = 0) ∨ ((1 : Int) = 0 ∧ x ≠ 0))) :=
  ⟨⟨by decide, by decide⟩,
    (invert_returns_iff demoCallbacks demoHeap 2 5
      (demoInner NODE_TYPE_DECORATOR (some 0) [some 2])
      { type := DECORATOR_TYPE_INVERT, params := 0, reference_count := 0 } (some 2) [] []
      (by decide) (by decide) (by decide) (by decide) rfl (by decide)).1 1
      [Event.call 10 1, Event.call 11 0]⟩

/-- The loop of `repeatDecorator`: `n` more executions of the child, and the value is
that of the last execution, or the value `result` already holds when `n` is `0`. -/
theorem repeatLoop_iff (exec : Exec) (node : BehaviorNode) (c : Option Nat)
    (hc0 : node.child 0 = some c) (r : Int) (log2 : List Event) :
    ∀ (n : Nat) (result : Option Int) (log : List Event),
      (repeatLoop exec node n result log = (.ret r, log2) ↔
        ∃ rs, runInOrder exec (List.replicate n c) log = some (rs, log2) ∧
          (result.toList ++ rs).getLast? = some r) := by
  intro n
  induction n with
  | zero =>
    intro result log
    simp only [List.replicate_zero, runInOrder_nil_iff]
    cases result with
    | none =>
      simp only [repeatLoop]
      constructor
      · intro h; simp at h
      · rintro ⟨rs, ⟨rfl, _⟩, h⟩; simp at h
    | some v =>
      simp only [repeatLoop]
      constructor
      · intro h
        simp only [Prod.mk.injEq, Result.ret.injEq] at h
        exact ⟨[], ⟨rfl, h.2.symm⟩, by simp [h.1]⟩
      · rintro ⟨rs, ⟨rfl, rfl⟩, h⟩
        simp only [Option.toList_some, List.append_nil, List.getLast?_singleton,
          Option.some.injEq] at h
        rw [h]
  | succ n ih =>
    intro result log
    simp only [List.replicate_succ, repeatLoop, hc0]
    rcases hx : exec c log with ⟨res, log1⟩
    cases res with
    | ret x =>
      dsimp only
      rw [ih (some x) log1]
      constructor
      · rintro ⟨rs, hrun, hl⟩
        refine ⟨x :: rs, ?_, ?_⟩
        · rw [runInOrder_cons_iff]; exact ⟨x, log1, rs, hx, hrun, rfl⟩
        · rw [List.getLast?_append_of_ne_nil _ (List.cons_ne_nil x rs)]
          simpa using hl
      · rintro ⟨rs, hrun, hl⟩
        rw [runInOrder_cons_iff] at hrun
        obtain ⟨x1, l1, rs1, he, hrun1, rfl⟩ := hrun
        rw [hx] at he
        simp only [Prod.mk.injEq, Result.ret.injEq] at he
        rw [← he.2] at hrun1
        refine ⟨rs1, hrun1, ?_⟩
        rw [List.getLast?_append_of_ne_nil _ (List.cons_ne_nil x1 rs1), ← he.1] at hl
        simpa using hl
    | _ =>
      dsimp only
      constructor
      · intro h; simp at h
      · rintro ⟨rs, hrun, _⟩
        rw [runInOrder_cons_iff] at hrun
        obtain ⟨x1, l1, rs1, he, _, _⟩ := hrun
        rw [hx] at he; simp at he

/-- Claim C6. A decorator node with a Repeat decorator of count `N` over the child `c`
returns `r`, with the events `log2`, exactly when `N` executions of `c`, one after the
other and whatever they return, leave the events `log2` and the last of them returns
`r`.  (There is a last execution only when `1 ≤ N`: with `N = 0` neither side holds.) -/
theorem repeat_returns_iff (cb : Callbacks) (h : Heap) (fuel a : Nat) (node : BehaviorNode)
    (d : Decorator) (c : Option Nat) (rest : List (Option Nat)) (log : List Event)
    (r : Int) (log2 : List Event)
    (ha : h.node a = some node) (ht : node.type = NODE_TYPE_DECORATOR)
    (hd : h.decoratorOf node = some d) (hdt : d.type = DECORATOR_TYPE_REPEAT)
    (hc : node.children = some (c :: rest)) (hn : node.child_count ≠ 0) :
    executeNode cb h (fuel + 1) (some a) log = (.ret r, log2) ↔
      ∃ rs, runInOrder (executeNode cb h fuel) (List.replicate d.params c) log =
          some (rs, log2) ∧
        rs.length = d.params ∧ rs.getLast? = some r := by
  rw [executeNode_decorator cb h fuel a node log ha ht,
    decoratorNode_repeat h fuel _ node log d hn hd hdt,
    repeatLoop_iff _ node c (child_zero_of_children hc) r log2 d.params none log]
  constructor
  · rintro ⟨rs, hrun, hl⟩
    exact ⟨rs, hrun, by simpa using runInOrder_length _ _ log rs log2 hrun, by simpa using hl⟩
  · rintro ⟨rs, hrun, _, hl⟩
    exact ⟨rs, hrun, by simpa using hl⟩

/-- An instance of C6: the decorator node at address `7` repeats the leaf at address `6`
three times; the leaf returns `1`, `1` and then `0`, and the node returns `0`. -/
theorem repeat_returns_iff_witness :
    (demoHeap.node 7 = some (demoInner NODE_TYPE_DECORATOR (some 1) [some 6]) ∧
      demoHeap.decoratorAt 1 =
        some { type := DECORATOR_TYPE_REPEAT, params := 3, reference_count := 0 } ∧
      executeNode demoCallbacks demoHeap 2 (some 7) [] =
        (.ret 0, [Event.call 12 1, Event.call 12 1, Event.call 12 0])) ∧
    (executeNode demoCallbacks demoHeap 2 (some 7) [] =
        (.ret 0, [Event.call 12 1, Event.call 12 1, Event.call 12 0]) ↔
      ∃ rs, runInOrder (executeNode demoCallbacks demoHeap 1) (List.replicate 3 (some 6)) [] =
          some (rs, [Event.call 12 1, Event.call 12 1, Event.call 12 0]) ∧
        rs.length = 3 ∧ rs.getLast? = some 0) :=
  ⟨⟨by decide, by decide, by decide⟩,
    repeat_returns_iff demoCallbacks demoHeap 1 7
      (demoInner NODE_TYPE_DECORATOR (some 1) [some 6])
      { type := DECORATOR_TYPE_REPEAT, params := 3, reference_count := 0 } (some 6) [] []
      0 [Event.call 12 1, Event.call 12 1, Event.call 12 0]
      (by decide) (by decide) (by decide) (by decide) rfl (by decide)⟩

/-- The loop of `repeatUntilSuccessDecorator` with `fuel` turns allowed. -/
theorem repeatUntilSuccessLoop_iff (exec : Exec) (node : BehaviorNode) (c : Option Nat)
    (hc0 : node.child 0 = some c) (r : Int) (log2 : List Event) :
    ∀ (fuel : Nat) (log : List Event),
      (repeatUntilSuccessLoop exec node fuel log = (.ret r, log2) ↔
        r = 0 ∧ ∃ rs, rs.length < fuel ∧ (∀ x ∈ rs, x ≠ 0) ∧
          runInOrder exec (List.replicate (rs.length + 1) c) log = some (rs ++ [0], log2)) := by
  intro fuel
  induction fuel with
  | zero =>
    intro log
    simp [repeatUntilSuccessLoop]
  | succ fuel ih =>
    intro log
    simp only [repeatUntilSuccessLoop, hc0]
    rcases hx : exec c log with ⟨res, log1⟩
    cases res with
    | ret x =>
      dsimp only
      by_cases hx0 : x = 0
      · subst hx0
        simp only [ne_eq, not_true_eq_false, if_false]
        constructor
        · intro h
          simp only [Prod.mk.injEq, Result.ret.injEq] at h
          refine ⟨h.1.symm, [], by simp, by simp, ?_⟩
          simp only [List.length_nil, zero_add, List.replicate_one, List.nil_append]
          rw [runInOrder_cons_iff]
          exact ⟨0, log1, [], hx, by rw [runInOrder_nil_iff]; exact ⟨rfl, h.2.symm⟩, rfl⟩
        · rintro ⟨h0, rs, _, hall, hrun⟩
          rw [List.replicate_succ, runInOrder_cons_iff] at hrun
          obtain ⟨x1, l1, rs1, he, hrun1, hrs⟩ := hrun
          rw [hx] at he
          simp only [Prod.mk.injEq, Result.ret.injEq] at he
          cases rs with
          | nil =>
            simp only [List.length_nil, List.replicate_zero, runInOrder_nil_iff] at hrun1
            rw [h0, hrun1.2, he.2]
          | cons y rs2 =>
            simp only [List.cons_append, List.cons.injEq] at hrs
            exact absurd (hrs.1.trans he.1.symm) (hall y (by simp))
      · simp only [ne_eq, hx0, not_false_eq_true, if_true]
        rw [ih log1]
        constructor
        · rintro ⟨h0, rs, hlt, hall, hrun⟩
          refine ⟨h0, x :: rs, by simpa using hlt, ?_, ?_⟩
          · intro y hy
            rcases List.mem_cons.1 hy with rfl | hy
            · exact hx0
            · exact hall y hy
          · rw [List.length_cons, List.replicate_succ, runInOrder_cons_iff]
            exact ⟨x, log1, rs ++ [0], hx, hrun, rfl⟩
        · rintro ⟨h0, rs, hlt, hall, hrun⟩
          rw [List.replicate_succ, runInOrder_cons_iff] at hrun
          obtain ⟨x1, l1, rs1, he, hrun1, hrs⟩ := hrun
          rw [hx] at he
          simp only [Prod.mk.injEq, Result.ret.injEq] at he
          cases rs with
          | nil =>
            simp only [List.nil_append, List.cons.injEq] at hrs
            exact absurd (he.1.trans hrs.1.symm) hx0
          | cons y rs2 =>
            simp only [List.cons_append, List.cons.injEq] at hrs
            rw [← he.2, ← hrs.2] at hrun1
            exact ⟨h0, rs2, by simpa using hlt,
              fun z hz => hall z (List.mem_cons_of_mem _ hz), by simpa using hrun1⟩
    | _ =>
      dsimp only
      constructor
      · intro h; simp at h
      · rintro ⟨_, rs, _, _, hrun⟩
        rw [List.replicate_succ, runInOrder_cons_iff] at hrun
        obtain ⟨x1, l1, rs1, he, _, _⟩ := hrun
        rw [hx] at he; simp at he

/-- Claim C7. A decorator node with a RepeatUntilSuccess decorator over the child `c`
returns `r`, with the events `log2`, exactly when `r` is `0` and `c` was executed
`k + 1` times in a row, of which the first `k` returned a non-zero value and the last
returned `0`, leaving the events `log2`.  With `fuel` turns allowed, `k < fuel`: a run
that ends is found with enough fuel. -/
theorem repeatUntilSuccess_returns_iff (cb : Callbacks) (h : Heap) (fuel a : Nat)
    (node : BehaviorNode) (d : Decorator) (c : Option Nat) (rest : List (Option Nat))
    (log : List Event) (r : Int) (log2 : List Event)
    (ha : h.node a = some node) (ht : node.type = NODE_TYPE_DECORATOR)
    (hd : h.decoratorOf node = some d)
    (hdt : d.type = DECORATOR_TYPE_REPEAT_UNTIL_SUCCESS)
    (hc : node.children = some (c :: rest)) (hn : node.child_count ≠ 0) :
    executeNode cb h (fuel + 1) (some a) log = (.ret r, log2) ↔
      r = 0 ∧ ∃ rs, rs.length < fuel ∧ (∀ x ∈ rs, x ≠ 0) ∧
        runInOrder (executeNode cb h fuel) (List.replicate (rs.length + 1) c) log =
          some (rs ++ [0], log2) := by
  rw [executeNode_decorator cb h fuel a node log ha ht,
    decoratorNode_repeatUntilSuccess h fuel _ node log d hn hd hdt]
  exact repeatUntilSuccessLoop_iff _ node c (child_zero_of_children hc) r log2 fuel log

/-- An instance of C7: the decorator node at address `8` repeats the leaf at address `6`,
which returns `1`, `1` and then `0`: three executions, and the node returns `0`. -/
theorem repeatUntilSuccess_returns_iff_witness :
    (demoHeap.node 8 = some (demoInner NODE_TYPE_DECORATOR (some 2) [some 6]) ∧
      executeNode demoCallbacks demoHeap 4 (some 8) [] =
        (.ret 0, [Event.call 12 1, Event.call 12 1, Event.call 12 0])) ∧
    (executeNode demoCallbacks demoHeap 4 (some 8) [] =
        (.ret 0, [Event.call 12 1, Event.call 12 1, Event.call 12 0]) ↔
      (0 : Int) = 0 ∧ ∃ rs, rs.length < 3 ∧ (∀ x ∈ rs, x ≠ 0) ∧
        runInOrder (executeNode demoCallbacks demoHeap 3)
            (List.replicate (rs.length + 1) (some 6)) [] =
          some (rs ++ [0], [Event.call 12 1, Event.call 12 1, Event.call 12 0])) :=
  ⟨⟨by decide, by decide⟩,
    repeatUntilSuccess_returns_iff demoCallbacks demoHeap 3 8
      (demoInner NODE_TYPE_DECORATOR (some 2) [some 6])
      { type := DECORATOR_TYPE_REPEAT_UNTIL_SUCCESS, params := 0, reference_count := 0 }
      (some 6) [] [] 0 [Event.call 12 1, Event.call 12 1, Event.call 12 0]
      (by decide) (by decide) (by decide) (by decide) rfl (by decide)⟩

/-- Claim C8. A decorator node with a Conditional decorator and the children `cs` first
executes child `0`.  With one child it returns what that execution gives.  With two
children it goes on with child `1` when the condition returned a non-zero value, and
returns `0` without executing anything more when it returned `0`.  With three children
`[c0, t, f]` it goes on with `t` when the condition returned a non-zero value and with
`f` when it returned `0`: one of the two, never both.  When the condition does not
return, neither does the node, and nothing more is executed. -/
theorem conditional_returns (cb : Callbacks) (h : Heap) (fuel a : Nat) (node : BehaviorNode)
    (d : Decorator) (cs : List (Option Nat)) (log : List Event)
    (ha : h.node a = some node) (ht : node.type = NODE_TYPE_DECORATOR)
    (hd : h.decoratorOf node = some d) (hdt : d.type = DECORATOR_TYPE_CONDITIONAL)
    (hc : node.children = some cs) (hn : node.child_count = cs.length) :
    (∀ c0, cs = [c0] →
      executeNode cb h (fuel + 1) (some a) log = executeNode cb h fuel c0 log) ∧
    (∀ c0 c1 x log1, cs = [c0, c1] → executeNode cb h fuel c0 log = (.ret x, log1) →
      executeNode cb h (fuel + 1) (some a) log =
        if x ≠ 0 then executeNode cb h fuel c1 log1 else (.ret 0, log1)) ∧
    (∀ c0 t f x log1, cs = [c0, t, f] → executeNode cb h fuel c0 log = (.ret x, log1) →
      executeNode cb h (fuel + 1) (some a) log =
        if x ≠ 0 then executeNode cb h fuel t log1 else executeNode cb h fuel f log1) ∧
    (∀ c0 rest res log1, cs = c0 :: rest → executeNode cb h fuel c0 log = (res, log1) →
      (∀ x, res ≠ .ret x) → executeNode cb h (fuel + 1) (some a) log = (res, log1)) := by
  refine ⟨?_, ?_, ?_, ?_⟩
  · intro c0 hcs
    subst hcs
    have hn0 : node.child_count ≠ 0 := by rw [hn]; simp
    rw [executeNode_decorator cb h fuel a node log ha ht,
      decoratorNode_conditional h fuel _ node log d hn0 hd hdt]
    simp only [conditionalDecorator, BehaviorNode.child, hc, hn]
    rcases hx : executeNode cb h fuel c0 log with ⟨res, log1⟩
    cases res <;> simp [hx]
  · intro c0 c1 x log1 hcs hx
    subst hcs
    have hn0 : node.child_count ≠ 0 := by rw [hn]; simp
    rw [executeNode_decorator cb h fuel a node log ha ht,
      decoratorNode_conditional h fuel _ node log d hn0 hd hdt]
    simp only [conditionalDecorator, BehaviorNode.child, hc, hn]
    by_cases hx0 : x = 0 <;> simp [hx, hx0]
  · intro c0 t f x log1 hcs hx
    subst hcs
    have hn0 : node.child_count ≠ 0 := by rw [hn]; simp
    rw [executeNode_decorator cb h fuel a node log ha ht,
      decoratorNode_conditional h fuel _ node log d hn0 hd hdt]
    simp only [conditionalDecorator, BehaviorNode.child, hc, hn]
    by_cases hx0 : x = 0 <;> simp [hx, hx0]
  · intro c0 rest res log1 hcs hx hres
    subst hcs
    have hn0 : node.child_count ≠ 0 := by
      rw [hn]; simp only [List.length_cons]; omega
    rw [executeNode_decorator cb h fuel a node log ha ht,
      decoratorNode_conditional h fuel _ node log d hn0 hd hdt]
    simp only [conditionalDecorator, BehaviorNode.child, hc]
    cases res with
    | ret x => exact absurd rfl (hres x)
    | _ => simp [hx]

/-- An instance of C8: the decorator node at address `9` has the children `[1, 0, 6]`; the
condition, the leaf at address `1`, returns `0`, so the third child is executed and the
second is not. -/
theorem conditional_returns_witness :
    (demoHeap.node 9 =
        some (demoInner NODE_TYPE_DECORATOR (some 3) [some 1, some 0, some 6]) ∧
      executeNode demoCallbacks demoHeap 1 (some 1) [] = (.ret 0, [Event.call 11 0])) ∧
    executeNode demoCallbacks demoHeap 2 (some 9) [] =
      (if (0 : Int) ≠ 0 then executeNode demoCallbacks demoHeap 1 (some 0) [Event.call 11 0]
        else executeNode demoCallbacks demoHeap 1 (some 6) [Event.call 11 0]) ∧
    executeNode demoCallbacks demoHeap 2 (some 9) [] =
      (.ret 1, [Event.call 11 0, Event.call 12 1]) :=
  ⟨⟨by decide, by decide⟩,
    (conditional_returns demoCallbacks demoHeap 1 9
      (demoInner NODE_TYPE_DECORATOR (some 3) [some 1, some 0, some 6])
      { type := DECORATOR_TYPE_CONDITIONAL, params := 0, reference_count := 0 }
      [some 1, some 0, some 6] [] (by decide) (by decide) (by decide) (by decide) rfl
      (by decide)).2.2.1 (some 1) (some 0) (some 6) 0 [Event.call 11 0] rfl (by decide),
    by decide⟩

/-- Claim C9 (what the code does).  A decorator node with a Delay decorator of duration `s`
over the child `c` executes `c` once and returns the value `r` that `c` returned,
unchanged; it sleeps `s` seconds after that exactly when `r = 1`.  A child that returns
another non-zero value, which every composite takes for a success, gives no sleep. -/
theorem delay_returns_iff (cb : Callbacks) (h : Heap) (fuel a : Nat) (node : BehaviorNode)
    (d : Decorator) (c : Option Nat) (rest : List (Option Nat)) (log : List Event)
    (r : Int) (log2 : List Event)
    (ha : h.node a = some node) (ht : node.type = NODE_TYPE_DECORATOR)
    (hd : h.decoratorOf node = some d) (hdt : d.type = DECORATOR_TYPE_DELAY)
    (hc : node.children = some (c :: rest)) (hn : node.child_count ≠ 0) :
    executeNode cb h (fuel + 1) (some a) log = (.ret r, log2) ↔
      ∃ log1, executeNode cb h fuel c log = (.ret r, log1) ∧
        log2 = if r = 1 then log1 ++ [Event.sleep d.params] else log1 := by
  rw [executeNode_decorator cb h fuel a node log ha ht,
    decoratorNode_delay h fuel _ node log d hn hd hdt]
  simp only [delayDecorator, hd, child_zero_of_children hc]
  rcases hx : executeNode cb h fuel c log with ⟨res, log1⟩
  cases res with
  | ret x =>
    dsimp only
    by_cases hx1 : x = 1
    · subst hx1
      simp only [if_true, Prod.mk.injEq, Result.ret.injEq]
      constructor
      · rintro ⟨h1, h2⟩
        exact ⟨log1, ⟨h1, rfl⟩, by rw [← h1, if_pos rfl, h2]⟩
      · rintro ⟨l1, ⟨h1, h2⟩, h3⟩
        rw [← h1, if_pos rfl, ← h2] at h3
        exact ⟨h1, h3.symm⟩
    · simp only [hx1, if_false, Prod.mk.injEq, Result.ret.injEq]
      constructor
      · rintro ⟨h1, h2⟩
        exact ⟨log1, ⟨h1, rfl⟩, by rw [← h1, if_neg hx1, h2]⟩
      · rintro ⟨l1, ⟨h1, h2⟩, h3⟩
        rw [← h1, if_neg hx1, ← h2] at h3
        exact ⟨h1, h3.symm⟩
  | _ => simp

/-- The failing input of C9: the decorator node at address `11` delays, by `5` seconds,
the leaf at address `10`, whose callback returns `2`; the node returns `2` and has not
slept. -/
theorem delay_returns_iff_witness :
    (demoHeap.node 11 = some (demoInner NODE_TYPE_DECORATOR (some 4) [some 10]) ∧
      demoHeap.decoratorAt 4 =
        some { type := DECORATOR_TYPE_DELAY, params := 5, reference_count := 0 } ∧
      executeNode demoCallbacks demoHeap 1 (some 10) [] = (.ret 2, [Event.call 13 2])) ∧
    executeNode demoCallbacks demoHeap 2 (some 11) [] = (.ret 2, [Event.call 13 2]) :=
  ⟨⟨by decide, by decide, by decide⟩,
    (delay_returns_iff demoCallbacks demoHeap 1 11
      (demoInner NODE_TYPE_DECORATOR (some 4) [some 10])
      { type := DECORATOR_TYPE_DELAY, params := 5, reference_count := 0 } (some 10) [] []
      2 [Event.call 13 2] (by decide) (by decide) (by decide) (by decide) rfl
      (by decide)).2 ⟨[Event.call 13 2], by decide, by decide⟩⟩

/-! ## Construction and validation -/

theorem node_append_length (h : Heap) (n : BehaviorNode) :
    ({ h with nodes := h.nodes ++ [some n] } : Heap).node h.nodes.length = some n := by
  simp [Heap.node, List.getD_eq_getElem?_getD]

theorem BehaviorNodeCheck_leaf (h : Heap) (type : NodeType) (a : Nat) (n : BehaviorNode)
    (ht : type = NODE_TYPE_ACTION ∨ type = NODE_TYPE_CONDITION) (ha : h.node a = some n) :
    BehaviorNodeCheck h type (some a) =
      if n.action = none then .ret none
      else if n.children ≠ none then .ret none
      else if n.child_count ≠ 0 then .ret none
      else .ret (some a) := by
  rcases ht with ht | ht <;>
    simp [BehaviorNodeCheck, checkActionNode, checkConditionNode, ht, ha, NODE_TYPE_ACTION,
      NODE_TYPE_CONDITION]

/-- Claim C10. With the node block allocated, `createBehaviorNode` for the type Action or
Condition returns a node exactly when a callback is given and `child_count` is `0`; the
node is then the new block, with that callback, no children and the reference count `0`.
Given one child or more (the array of children allocated and the children adopted), it
returns `NULL`; given no callback and no child, it returns `NULL`. -/
theorem createBehaviorNode_leaf_iff (m : Malloc) (h : Heap)
    (children : Option (List (Option Nat))) (child_count : Int) (type : NodeType)
    (actionFunc : Option Nat)
    (ht : type = NODE_TYPE_ACTION ∨ type = NODE_TYPE_CONDITION) (hm : m.node = true) :
    ((∃ a, (createBehaviorNode m h children child_count type actionFunc).1 = .ret (some a)) ↔
      (actionFunc ≠ none ∧ child_count = 0)) ∧
    (actionFunc ≠ none → child_count = 0 →
      createBehaviorNode m h children child_count type actionFunc =
        (.ret (some h.nodes.length),
          { h with nodes := h.nodes ++ [some
            { decorator := m.decorator, action := actionFunc, child_count := 0,
              reference_count := 0, type := type, children := none }] })) ∧
    (0 < child_count → m.children = true → ∀ h1 copied,
      adoptLoop children child_count.toNat 0 h [] = some (h1, copied) →
      (createBehaviorNode m h children child_count type actionFunc).1 = .ret none) ∧
    (actionFunc = none → child_count ≤ 0 →
      (createBehaviorNode m h children child_count type actionFunc).1 = .ret none) := by
  have key : ∀ (hp : Heap) (n : BehaviorNode),
      BehaviorNodeCheck { hp with nodes := hp.nodes ++ [some n] } type (some hp.nodes.length) =
        if n.action = none then .ret none
        else if n.children ≠ none then .ret none
        else if n.child_count ≠ 0 then .ret none
        else .ret (some hp.nodes.length) :=
    fun hp n => BehaviorNodeCheck_leaf _ type _ n ht (node_append_length hp n)
  refine ⟨?_, ?_, ?_, ?_⟩
  · constructor
    · rintro ⟨a, hr⟩
      unfold createBehaviorNode at hr
      simp only [hm, Bool.true_eq_false, if_false] at hr
      by_cases hpos : 0 < child_count
      · simp only [hpos, if_true] at hr
        by_cases hmc : m.children = true
        · simp only [hmc, Bool.true_eq_false, if_false] at hr
          rcases hl : adoptLoop children child_count.toNat 0 h [] with _ | ⟨h1, copied⟩
          · rw [hl] at hr; simp at hr
          · rw [hl] at hr
            simp only [key] at hr
            by_cases hact : actionFunc = none <;> simp [hact] at hr
        · simp [hmc] at hr
      · simp only [hpos, if_false, key] at hr
        by_cases hact : actionFunc = none
        · simp [hact] at hr
        · by_cases hcc : child_count = 0
          · exact ⟨hact, hcc⟩
          · simp [hact, hcc] at hr
    · rintro ⟨hact, hcc⟩
      subst hcc
      refine ⟨h.nodes.length, ?_⟩
      unfold createBehaviorNode
      simp [hm, key, hact]
  · intro hact hcc
    subst hcc
    unfold createBehaviorNode
    simp [hm, key, hact]
  · intro hpos hmc h1 copied hl
    unfold createBehaviorNode
    simp only [hm, Bool.true_eq_false, if_false, hpos, if_true, hmc, hl, key]
    by_cases hact : actionFunc = none <;> simp [hact]
  · intro hact hcc
    subst hact
    have hpos : ¬ 0 < child_count := not_lt.mpr hcc
    unfold createBehaviorNode
    simp [hm, hpos, key]

/-- Instances of C10 on the small tree: an Action with the callback `10` and no child is
built, at the fresh address `13`; an Action with the callback `10` and the child at
address `0` is rejected. -/
theorem createBehaviorNode_leaf_iff_witness :
    createBehaviorNode demoMalloc demoHeap none 0 NODE_TYPE_ACTION (some 10) =
      (.ret (some 13),
        { demoHeap with nodes := demoHeap.nodes ++ [some (demoLeaf NODE_TYPE_ACTION 10)] }) ∧
    (createBehaviorNode demoMalloc demoHeap (some [some 0]) 1 NODE_TYPE_ACTION (some 10)).1 =
      .ret none :=
  ⟨(createBehaviorNode_leaf_iff demoMalloc demoHeap none 0 NODE_TYPE_ACTION (some 10)
      (Or.inl rfl) rfl).2.1 (by decide) rfl,
    (createBehaviorNode_leaf_iff demoMalloc demoHeap (some [some 0]) 1 NODE_TYPE_ACTION
      (some 10) (Or.inl rfl) rfl).2.2.1 (by decide) rfl _ _ rfl⟩

theorem createBehaviorNode_no_children (m : Malloc) (h : Heap)
    (children : Option (List (Option Nat))) (child_count : Int) (type : NodeType)
    (actionFunc : Option Nat) (hm : m.node = true) (hcc : child_count ≤ 0) :
    createBehaviorNode m h children child_count type actionFunc =
      (BehaviorNodeCheck
          { h with nodes := h.nodes ++ [some
            { decorator := m.decorator, action := actionFunc, child_count := child_count,
              reference_count := 0, type := type, children := none }] }
          type (some h.nodes.length),
        { h with nodes := h.nodes ++ [some
          { decorator := m.decorator, action := actionFunc, child_count := child_count,
            reference_count := 0, type := type, children := none }] }) := by
  have hpos : ¬ 0 < child_count := not_lt.mpr hcc
  unfold createBehaviorNode
  simp [hm, hpos]

theorem createBehaviorNode_children (m : Malloc) (h : Heap)
    (children : Option (List (Option Nat))) (child_count : Int) (type : NodeType)
    (actionFunc : Option Nat) (h1 : Heap) (copied : List (Option Nat))
    (hm : m.node = true) (hpos : 0 < child_count) (hmc : m.children = true)
    (hl : adoptLoop children child_count.toNat 0 h [] = some (h1, copied)) :
    createBehaviorNode m h children child_count type actionFunc =
      (BehaviorNodeCheck
          { h1 with nodes := h1.nodes ++ [some
            { decorator := m.decorator, action := actionFunc, child_count := child_count,
              reference_count := 0, type := type, children := some copied }] }
          type (some h1.nodes.length),
        { h1 with nodes := h1.nodes ++ [some
          { decorator := m.decorator, action := actionFunc, child_count := child_count,
            reference_count := 0, type := type, children := some copied }] }) := by
  unfold createBehaviorNode
  simp [hm, hpos, hmc, hl]

theorem BehaviorNodeCheck_composite (h : Heap) (type : NodeType) (a : Nat) (n : BehaviorNode)
    (ht : type = NODE_TYPE_SEQUENCE ∨ type = NODE_TYPE_SELECTOR ∨ type = NODE_TYPE_PARALLEL)
    (ha : h.node a = some n) :
    BehaviorNodeCheck h type (some a) =
      if n.children = none ∨ n.decorator ≠ none then .ret none
      else if n.child_count = 0 then .ret none
      else if n.action ≠ none then .ret none
      else .ret (some a) := by
  rcases ht with ht | ht | ht <;>
    simp [BehaviorNodeCheck, checkSequenceNode, checkSelectorNode, checkParallelNode, ht, ha,
      NODE_TYPE_ACTION, NODE_TYPE_CONDITION, NODE_TYPE_SEQUENCE, NODE_TYPE_SELECTOR,
      NODE_TYPE_PARALLEL]

theorem BehaviorNodeCheck_decorator (h : Heap) (a : Nat) (n : BehaviorNode)
    (ha : h.node a = some n) :
    BehaviorNodeCheck h NODE_TYPE_DECORATOR (some a) =
      if n.children = none then .ret none
      else if 3 < n.child_count ∨ n.child_count = 0 then .ret none
      else .ret (some a) := by
  simp [BehaviorNodeCheck, checkDecoratorNode, ha, NODE_TYPE_ACTION, NODE_TYPE_CONDITION,
    NODE_TYPE_SEQUENCE, NODE_TYPE_SELECTOR, NODE_TYPE_PARALLEL, NODE_TYPE_DECORATOR]

theorem BehaviorNodeCheck_other (h : Heap) (type : NodeType) (p : Option Nat)
    (ht : ¬ (0 ≤ type ∧ type ≤ 5)) : BehaviorNodeCheck h type p = .ret none := by
  have h0 : type ≠ 0 := fun e => ht (by rw [e]; decide)
  have h1 : type ≠ 1 := fun e => ht (by rw [e]; decide)
  have h2 : type ≠ 2 := fun e => ht (by rw [e]; decide)
  have h3 : type ≠ 3 := fun e => ht (by rw [e]; decide)
  have h4 : type ≠ 4 := fun e => ht (by rw [e]; decide)
  have h5 : type ≠ 5 := fun e => ht (by rw [e]; decide)
  simp [BehaviorNodeCheck, checkMemoryNode, h0, h1, h2, h3, h4, h5, NODE_TYPE_ACTION,
    NODE_TYPE_CONDITION, NODE_TYPE_SEQUENCE, NODE_TYPE_SELECTOR, NODE_TYPE_PARALLEL,
    NODE_TYPE_DECORATOR, NODE_TYPE_MEMORY]

/-- What `createBehaviorNode` returns for the type Sequence, Selector or Parallel, with
the node block allocated: `NULL` when `child_count` is `0` or less; with one child or
more (the array of children allocated and the children adopted), the new node when no
callback is given and the field `decorator` of the new block, which
`createBehaviorNode` never writes, holds `NULL`, and `NULL` otherwise. -/
theorem createBehaviorNode_composite_cases (m : Malloc) (h : Heap)
    (children : Option (List (Option Nat))) (child_count : Int) (type : NodeType)
    (actionFunc : Option Nat)
    (ht : type = NODE_TYPE_SEQUENCE ∨ type = NODE_TYPE_SELECTOR ∨ type = NODE_TYPE_PARALLEL)
    (hm : m.node = true) :
    (child_count ≤ 0 →
      (createBehaviorNode m h children child_count type actionFunc).1 = .ret none) ∧
    (0 < child_count → m.children = true → ∀ h1 copied,
      adoptLoop children child_count.toNat 0 h [] = some (h1, copied) →
      (createBehaviorNode m h children child_count type actionFunc).1 =
        if actionFunc = none ∧ m.decorator = none then .ret (some h1.nodes.length)
        else .ret none) := by
  constructor
  · intro hcc
    rw [createBehaviorNode_no_children m h children child_count type actionFunc hm hcc,
      BehaviorNodeCheck_composite _ type _ _ ht (node_append_length h _)]
    simp
  · intro hpos hmc h1 copied hl
    rw [createBehaviorNode_children m h children child_count type actionFunc h1 copied hm
      hpos hmc hl, BehaviorNodeCheck_composite _ type _ _ ht (node_append_length h1 _)]
    have hne : child_count ≠ 0 := ne_of_gt hpos
    by_cases ha : actionFunc = none <;> by_cases hd : m.decorator = none <;>
      simp [ha, hd, hne]

/-- Claim C11 (what the code does).  `createBehaviorNode` never writes the field
`decorator` of the block it allocates, and the validators of Sequence, Selector and
Parallel read it.  With the node block allocated, the call for one of these types
returns a node only if `child_count` is at least `1`, no callback is given and the
field happens to hold `NULL`; with one child or more and no callback (the array of
children allocated and the children adopted) it returns the new node when the field
holds `NULL` and `NULL` when it holds anything else.  Given a callback it returns `NULL`;
given no child it returns `NULL`. -/
theorem createBehaviorNode_composite_reads_decorator (m : Malloc) (h : Heap)
    (children : Option (List (Option Nat))) (child_count : Int) (type : NodeType)
    (actionFunc : Option Nat)
    (ht : type = NODE_TYPE_SEQUENCE ∨ type = NODE_TYPE_SELECTOR ∨ type = NODE_TYPE_PARALLEL)
    (hm : m.node = true) :
    ((∃ a, (createBehaviorNode m h children child_count type actionFunc).1 = .ret (some a)) →
      1 ≤ child_count ∧ actionFunc = none ∧ m.decorator = none) ∧
    (1 ≤ child_count → actionFunc = none → m.children = true → ∀ h1 copied,
      adoptLoop children child_count.toNat 0 h [] = some (h1, copied) →
      (createBehaviorNode m h children child_count type actionFunc).1 =
        if m.decorator = none then .ret (some h1.nodes.length) else .ret none) ∧
    (actionFunc ≠ none → 0 < child_count → m.children = true → ∀ h1 copied,
      adoptLoop children child_count.toNat 0 h [] = some (h1, copied) →
      (createBehaviorNode m h children child_count type actionFunc).1 = .ret none) ∧
    (child_count ≤ 0 →
      (createBehaviorNode m h children child_count type actionFunc).1 = .ret none) := by
  have hcases := createBehaviorNode_composite_cases m h children child_count type actionFunc
    ht hm
  refine ⟨?_, ?_, ?_, hcases.1⟩
  · rintro ⟨a, hr⟩
    by_cases hpos : 0 < child_count
    · by_cases hmc : m.children = true
      · rcases hl : adoptLoop children child_count.toNat 0 h [] with _ | ⟨h1, copied⟩
        · unfold createBehaviorNode at hr
          simp [hm, hpos, hmc, hl] at hr
        · rw [hcases.2 hpos hmc h1 copied hl] at hr
          by_cases hboth : actionFunc = none ∧ m.decorator = none
          · exact ⟨by omega, hboth.1, hboth.2⟩
          · simp [hboth] at hr
      · unfold createBehaviorNode at hr
        simp [hm, hpos, hmc] at hr
    · rw [hcases.1 (not_lt.mp hpos)] at hr
      simp at hr
  · intro h1le hact hmc h1 copied hl
    rw [hcases.2 (by omega) hmc h1 copied hl]
    simp [hact]
  · intro hact hpos hmc h1 copied hl
    rw [hcases.2 hpos hmc h1 copied hl]
    simp [hact]

/-- The failing input of C11: a Sequence over the leaf at address `0`, without callback,
is rejected when the block it is built in holds the address `7` in the field
`decorator`; the same call is accepted, at the fresh address `13`, when the block holds
`NULL` there. -/
theorem createBehaviorNode_composite_reads_decorator_witness :
    (createBehaviorNode { node := true, children := true, decorator := some 7 } demoHeap
        (some [some 0]) 1 NODE_TYPE_SEQUENCE none).1 = .ret none ∧
    (createBehaviorNode demoMalloc demoHeap (some [some 0]) 1 NODE_TYPE_SEQUENCE none).1 =
      .ret (some 13) :=
  ⟨(createBehaviorNode_composite_reads_decorator
      { node := true, children := true, decorator := some 7 } demoHeap (some [some 0]) 1
      NODE_TYPE_SEQUENCE none (Or.inl rfl) rfl).2.1 (by decide) rfl rfl _ _ rfl,
    (createBehaviorNode_composite_reads_decorator demoMalloc demoHeap (some [some 0]) 1
      NODE_TYPE_SEQUENCE none (Or.inl rfl) rfl).2.1 (by decide) rfl rfl _ _ rfl⟩

/-- Claim C12. With the node block allocated, `createBehaviorNode` for the type Decorator
returns `NULL` when `child_count` is `0` or negative, and when it is greater than `3`
(in particular `4`); with `child_count` from `1` to `3` and no callback it returns the
new node.  (For a positive count: the array of children allocated and the children
adopted.) -/
theorem createBehaviorNode_decorator_count (m : Malloc) (h : Heap)
    (children : Option (List (Option Nat))) (child_count : Int) (actionFunc : Option Nat)
    (hm : m.node = true) :
    (child_count ≤ 0 →
      (createBehaviorNode m h children child_count NODE_TYPE_DECORATOR actionFunc).1 =
        .ret none) ∧
    (3 < child_count → m.children = true → ∀ h1 copied,
      adoptLoop children child_count.toNat 0 h [] = some (h1, copied) →
      (createBehaviorNode m h children child_count NODE_TYPE_DECORATOR actionFunc).1 =
        .ret none) ∧
    (1 ≤ child_count → child_count ≤ 3 → actionFunc = none → m.children = true →
      ∀ h1 copied, adoptLoop children child_count.toNat 0 h [] = some (h1, copied) →
      (createBehaviorNode m h children child_count NODE_TYPE_DECORATOR actionFunc).1 =
        .ret (some h1.nodes.length)) := by
  refine ⟨?_, ?_, ?_⟩
  · intro hcc
    rw [createBehaviorNode_no_children m h children child_count _ actionFunc hm hcc,
      BehaviorNodeCheck_decorator _ _ _ (node_append_length h _)]
    simp
  · intro hgt hmc h1 copied hl
    have hpos : 0 < child_count := by omega
    rw [createBehaviorNode_children m h children child_count _ actionFunc h1 copied hm
      hpos hmc hl, BehaviorNodeCheck_decorator _ _ _ (node_append_length h1 _)]
    simp [hgt]
  · intro h1le hle3 _ hmc h1 copied hl
    have hpos : 0 < child_count := by omega
    have hn3 : ¬ 3 < child_count := by omega
    have hne : child_count ≠ 0 := by omega
    rw [createBehaviorNode_children m h children child_count _ actionFunc h1 copied hm
      hpos hmc hl, BehaviorNodeCheck_decorator _ _ _ (node_append_length h1 _)]
    simp [hn3, hne]

/-- Instances of C12 on the small tree: a decorator node over four children is rejected,
one over two children is built at the fresh address `13`, one without children is
rejected. -/
theorem createBehaviorNode_decorator_count_witness :
    (createBehaviorNode demoMalloc demoHeap (some [some 0, some 1, some 0, some 1]) 4
        NODE_TYPE_DECORATOR none).1 = .ret none ∧
    (createBehaviorNode demoMalloc demoHeap (some [some 0, some 1]) 2
        NODE_TYPE_DECORATOR none).1 = .ret (some 13) ∧
    (createBehaviorNode demoMalloc demoHeap none 0 NODE_TYPE_DECORATOR none).1 = .ret none :=
  ⟨(createBehaviorNode_decorator_count demoMalloc demoHeap
      (some [some 0, some 1, some 0, some 1]) 4 none rfl).2.1 (by decide) rfl _ _ rfl,
    (createBehaviorNode_decorator_count demoMalloc demoHeap (some [some 0, some 1]) 2 none
      rfl).2.2 (by decide) (by decide) rfl rfl _ _ rfl,
    (createBehaviorNode_decorator_count demoMalloc demoHeap none 0 none rfl).1 (by decide)⟩

/-- Counterexample to C13: on the small tree, a decorator node over the leaf at address `0`
and with the callback `10` is not rejected: the new node, at address `13`, is returned. -/
theorem decorator_with_callback_counterexample :
    (createBehaviorNode demoMalloc demoHeap (some [some 0]) 1 NODE_TYPE_DECORATOR
        (some 10)).1 = .ret (some 13) ∧
    ¬ (createBehaviorNode demoMalloc demoHeap (some [some 0]) 1 NODE_TYPE_DECORATOR
        (some 10)).1 = .ret none := by
  constructor <;> decide

/-- Claim C13, amended.  With `child_count` from `1` to `3` (the blocks allocated and the
children adopted), `createBehaviorNode` for the type Decorator returns the new node
whatever the callback, present or absent: `checkDecoratorNode` does not read the field
`action`, and the callback is stored in the node as it was given. -/
theorem createBehaviorNode_decorator_any_callback (m : Malloc) (h : Heap)
    (children : Option (List (Option Nat))) (child_count : Int) (actionFunc : Option Nat)
    (h1 : Heap) (copied : List (Option Nat))
    (hm : m.node = true) (hmc : m.children = true)
    (h1le : 1 ≤ child_count) (hle3 : child_count ≤ 3)
    (hl : adoptLoop children child_count.toNat 0 h [] = some (h1, copied)) :
    createBehaviorNode m h children child_count NODE_TYPE_DECORATOR actionFunc =
      (.ret (some h1.nodes.length),
        { h1 with nodes := h1.nodes ++ [some
          { decorator := m.decorator, action := actionFunc, child_count := child_count,
            reference_count := 0, type := NODE_TYPE_DECORATOR, children := some copied }] }) := by
  have hpos : 0 < child_count := by omega
  have hn3 : ¬ 3 < child_count := by omega
  have hne : child_count ≠ 0 := by omega
  rw [createBehaviorNode_children m h children child_count _ actionFunc h1 copied hm
    hpos hmc hl, BehaviorNodeCheck_decorator _ _ _ (node_append_length h1 _)]
  simp [hn3, hne]

/-- An instance of the amended C13: the decorator node with the callback `10` over the leaf
at address `0` is built, and the node at the new address holds the callback. -/
theorem createBehaviorNode_decorator_any_callback_witness :
    ∃ h2, createBehaviorNode demoMalloc demoHeap (some [some 0]) 1 NODE_TYPE_DECORATOR
        (some 10) = (.ret (some 13), h2) ∧
      (h2.node 13).map (fun n => n.action) = some (some 10) :=
  ⟨_, createBehaviorNode_decorator_any_callback demoMalloc demoHeap (some [some 0]) 1
      (some 10) _ _ rfl rfl (by decide) (by decide) rfl, by decide⟩

/-- Claim C14. With the node block allocated, `createBehaviorNode` for the type Memory, and
for every type value that is none of the seven declared ones, returns `NULL`, whatever
the children and the callback.  (For a positive count: the array of children allocated
and the children adopted.) -/
theorem createBehaviorNode_memory (m : Malloc) (h : Heap)
    (children : Option (List (Option Nat))) (child_count : Int) (type : NodeType)
    (actionFunc : Option Nat)
    (ht : type = NODE_TYPE_MEMORY ∨ type < 0 ∨ 6 < type) (hm : m.node = true) :
    (child_count ≤ 0 →
      (createBehaviorNode m h children child_count type actionFunc).1 = .ret none) ∧
    (0 < child_count → m.children = true → ∀ h1 copied,
      adoptLoop children child_count.toNat 0 h [] = some (h1, copied) →
      (createBehaviorNode m h children child_count type actionFunc).1 = .ret none) := by
  have ht1 : ¬ (0 ≤ type ∧ type ≤ 5) := by
    rcases ht with ht | ht | ht
    · rw [ht]; decide
    · intro hh; exact absurd hh.1 (not_le.mpr ht)
    · intro hh; exact absurd (lt_of_lt_of_le (by decide : (5 : Int) < 6) (le_of_lt ht))
        (not_lt.mpr hh.2)
  constructor
  · intro hcc
    rw [createBehaviorNode_no_children m h children child_count type actionFunc hm hcc,
      BehaviorNodeCheck_other _ type _ ht1]
  · intro hpos hmc h1 copied hl
    rw [createBehaviorNode_children m h children child_count type actionFunc h1 copied hm
      hpos hmc hl, BehaviorNodeCheck_other _ type _ ht1]

/-- Instances of C14 on the small tree: a Memory node with a callback and no child, a
Memory node over one child, and a node of the type `42` are all rejected. -/
theorem createBehaviorNode_memory_witness :
    (createBehaviorNode demoMalloc demoHeap none 0 NODE_TYPE_MEMORY (some 10)).1 =
      .ret none ∧
    (createBehaviorNode demoMalloc demoHeap (some [some 0]) 1 NODE_TYPE_MEMORY none).1 =
      .ret none ∧
    (createBehaviorNode demoMalloc demoHeap (some [some 0]) 1 42 none).1 = .ret none :=
  ⟨(createBehaviorNode_memory demoMalloc demoHeap none 0 NODE_TYPE_MEMORY (some 10)
      (Or.inl rfl) rfl).1 (by decide),
    (createBehaviorNode_memory demoMalloc demoHeap (some [some 0]) 1 NODE_TYPE_MEMORY none
      (Or.inl rfl) rfl).2 (by decide) rfl _ _ rfl,
    (createBehaviorNode_memory demoMalloc demoHeap (some [some 0]) 1 42 none
      (Or.inr (Or.inr (by decide))) rfl).2 (by decide) rfl _ _ rfl⟩

/-! ## The decorator factories -/

theorem decoratorAt_append_length (h : Heap) (d : Decorator) :
    ({ h with decorators := h.decorators ++ [some d] } : Heap).decoratorAt
      h.decorators.length = some d := by
  simp [Heap.decoratorAt, List.getD_eq_getElem?_getD]

theorem setDecorator_append_length (h : Heap) (d e : Decorator) :
    ({ h with decorators := h.decorators ++ [some d] } : Heap).setDecorator
      h.decorators.length e = { h with decorators := h.decorators ++ [some e] } := by
  simp [Heap.setDecorator]

theorem node_lt_length {h : Heap} {c : Nat} {child : BehaviorNode}
    (hc : h.node c = some child) : c < h.nodes.length := by
  by_contra hge
  have : h.node c = none := by
    simp [Heap.node, List.getD_eq_getElem?_getD, List.getElem?_eq_none (not_lt.mp hge)]
  rw [this] at hc
  exact absurd hc (by simp)

theorem node_setNode (h : Heap) (c : Nat) (child nd : BehaviorNode) (a : Nat)
    (hc : h.node c = some child) :
    (h.setNode c nd).node a = if a = c then some nd else h.node a := by
  have hlt : c < h.nodes.length := node_lt_length hc
  by_cases hac : a = c
  · subst hac
    simp [Heap.node, Heap.setNode, List.getD_eq_getElem?_getD, hlt]
  · simp [Heap.node, Heap.setNode, List.getD_eq_getElem?_getD, hac,
      List.getElem?_set_ne (Ne.symm hac)]

theorem adoptedBy_zero (nd : BehaviorNode) : adoptedBy 0 nd = nd := by
  cases nd
  simp [adoptedBy]

/-- The loop of `createBehaviorNode` over the cells `l` of the argument array from index
`i` on: every cell is copied, and the reference count of every node grows by the number
of cells of `l` that point to it. -/
theorem adoptLoop_spec (cs : List (Option Nat)) :
    ∀ (l rest : List (Option Nat)) (i : Nat) (h : Heap) (copied : List (Option Nat)),
      cs.drop i = l ++ rest →
      (∀ a, some a ∈ l → ∃ nd, h.node a = some nd) →
      (∀ a nd, h.node a = some nd →
        nd.reference_count + (l.count (some a) : Nat) ≤ INT_MAX) →
      ∃ h1, adoptLoop (some cs) l.length i h copied = some (h1, copied ++ l) ∧
        h1.decorators = h.decorators ∧ h1.nodes.length = h.nodes.length ∧
        ∀ a, h1.node a = (h.node a).map (adoptedBy (l.count (some a))) := by
  intro l
  induction l with
  | nil =>
    intro rest i h copied _ _ _
    refine ⟨h, by simp [adoptLoop], rfl, rfl, ?_⟩
    intro a
    cases h.node a <;> simp [adoptedBy_zero]
  | cons c l ih =>
    intro rest i h copied hd hlive hmax
    rw [List.cons_append] at hd
    have hci := (drop_cons_inv hd).1
    have hd1 := (drop_cons_inv hd).2
    cases c with
    | none =>
      obtain ⟨h1, hl, hdec, hlen, hnode⟩ := ih rest (i + 1) h (copied ++ [none]) hd1
        (fun a ha => hlive a (List.mem_cons_of_mem _ ha))
        (fun a nd ha => by
          have := hmax a nd ha
          rwa [List.count_cons_of_ne (by simp)] at this)
      refine ⟨h1, ?_, hdec, hlen, ?_⟩
      · simp only [List.length_cons, adoptLoop, hci]
        rw [hl]; simp
      · intro a
        rw [hnode a, List.count_cons_of_ne (by simp)]
    | some x =>
      obtain ⟨child, hx⟩ := hlive x (by simp)
      have hxmax := hmax x child hx
      rw [List.count_cons_self] at hxmax
      have hne : child.reference_count ≠ INT_MAX := by
        intro e
        rw [e] at hxmax
        push_cast at hxmax
        have : (0 : Int) ≤ (List.count (some x) l : Nat) := Int.ofNat_nonneg _
        omega
      have hset := node_setNode h x child
        { child with reference_count := child.reference_count + 1 }
      obtain ⟨h1, hl, hdec, hlen, hnode⟩ := ih rest (i + 1)
        (h.setNode x { child with reference_count := child.reference_count + 1 })
        (copied ++ [some x]) hd1
        (fun a ha => by
          rw [hset a hx]
          by_cases hax : a = x
          · simp [hax]
          · simp only [hax, if_false]
            exact hlive a (List.mem_cons_of_mem _ ha))
        (fun a nd ha => by
          rw [hset a hx] at ha
          by_cases hax : a = x
          · simp only [hax, if_true, Option.some.injEq] at ha
            rw [← ha, hax]
            push_cast at hxmax ⊢
            omega
          · simp only [hax, if_false] at ha
            have := hmax a nd ha
            rwa [List.count_cons_of_ne (by simpa using hax)] at this)
      refine ⟨h1, ?_, ?_, ?_, ?_⟩
      · simp only [List.length_cons, adoptLoop, hci, hx, hne, if_false]
        rw [hl]; simp
      · rw [hdec]; rfl
      · rw [hlen]; simp [Heap.setNode]
      · intro a
        rw [hnode a, hset a hx]
        by_cases hax : a = x
        · subst hax
          simp only [if_true, hx, Option.map_some', List.count_cons_self, Option.some.injEq]
          simp only [adoptedBy, Nat.cast_add, Nat.cast_one]
          congr 1
          omega
        · simp only [hax, if_false]
          rw [List.count_cons_of_ne (by simpa using hax)]

theorem BehaviorNodeCheck_returns (h : Heap) (type : NodeType) (a : Nat) (n : BehaviorNode)
    (ha : h.node a = some n) : ∃ p, BehaviorNodeCheck h type (some a) = .ret p := by
  simp only [BehaviorNodeCheck, checkActionNode, checkConditionNode, checkSequenceNode,
    checkSelectorNode, checkParallelNode, checkDecoratorNode, checkMemoryNode, ha]
  split_ifs <;> exact ⟨_, rfl⟩

theorem node_append_lt (h : Heap) (n : BehaviorNode) (a : Nat) (ha : a < h.nodes.length) :
    ({ h with nodes := h.nodes ++ [some n] } : Heap).node a = h.node a := by
  simp [Heap.node, List.getD_eq_getElem?_getD, List.getElem?_append_left ha]

/-- Claim C15. When `createBehaviorNode` is given `child_count` children that are `NULL`
or live nodes (the blocks allocated, no count overflowing), it returns, a node or `NULL`
as the validation decides, and in both cases every node that was in the heap has its
reference count grown by the number of times it is listed among the first
`child_count` cells of `children`, with no other field changed; the decorators are
unchanged; and the new block, with the reference count `0`, holds the copy of these
cells. -/
theorem createBehaviorNode_adopts (m : Malloc) (h : Heap)
    (children : Option (List (Option Nat))) (cs : List (Option Nat)) (child_count : Int)
    (type : NodeType) (actionFunc : Option Nat)
    (hm : m.node = true) (hmc : m.children = true)
    (hcs : 0 < child_count → children = some cs) (hlen : child_count ≤ cs.length)
    (hlive : ∀ a, some a ∈ cs.take child_count.toNat → ∃ nd, h.node a = some nd)
    (hmax : ∀ a nd, h.node a = some nd →
      nd.reference_count + ((cs.take child_count.toNat).count (some a) : Nat) ≤ INT_MAX) :
    ∃ p h2, createBehaviorNode m h children child_count type actionFunc = (.ret p, h2) ∧
      (∀ a, a < h.nodes.length →
        h2.node a =
          (h.node a).map (adoptedBy ((cs.take child_count.toNat).count (some a)))) ∧
      h2.decorators = h.decorators ∧
      h2.nodes.length = h.nodes.length + 1 ∧
      h2.node h.nodes.length = some
        { decorator := m.decorator, action := actionFunc, child_count := child_count,
          reference_count := 0, type := type,
          children := if 0 < child_count then some (cs.take child_count.toNat) else none } := by
  by_cases hpos : 0 < child_count
  · have hn : child_count.toNat ≤ cs.length := by omega
    have hdrop : cs.drop 0 = cs.take child_count.toNat ++ cs.drop child_count.toNat := by
      simp
    obtain ⟨h1, hl, hdec, hlen1, hnode⟩ := adoptLoop_spec cs (cs.take child_count.toNat)
      (cs.drop child_count.toNat) 0 h [] hdrop hlive hmax
    rw [List.length_take, Nat.min_eq_left hn, List.nil_append] at hl
    rw [← hcs hpos] at hl
    obtain ⟨p, hp⟩ := BehaviorNodeCheck_returns
      { h1 with nodes := h1.nodes ++ [some
        { decorator := m.decorator, action := actionFunc, child_count := child_count,
          reference_count := 0, type := type,
          children := some (cs.take child_count.toNat) }] }
      type h1.nodes.length _ (node_append_length h1 _)
    refine ⟨p, { h1 with nodes := h1.nodes ++ [some
        { decorator := m.decorator, action := actionFunc, child_count := child_count,
          reference_count := 0, type := type,
          children := some (cs.take child_count.toNat) }] }, ?_, ?_, hdec, ?_, ?_⟩
    · rw [createBehaviorNode_children m h children child_count type actionFunc h1 _ hm hpos
        hmc hl, hp]
    · intro a ha
      rw [node_append_lt h1 _ a (by rw [hlen1]; exact ha), hnode a]
    · simp [hlen1]
    · rw [← hlen1, node_append_length h1 _]
      simp [hpos]
  · have hcc : child_count ≤ 0 := not_lt.mp hpos
    have h0 : child_count.toNat = 0 := by omega
    obtain ⟨p, hp⟩ := BehaviorNodeCheck_returns
      { h with nodes := h.nodes ++ [some
        { decorator := m.decorator, action := actionFunc, child_count := child_count,
          reference_count := 0, type := type, children := none }] }
      type h.nodes.length _ (node_append_length h _)
    refine ⟨p, { h with nodes := h.nodes ++ [some
        { decorator := m.decorator, action := actionFunc, child_count := child_count,
          reference_count := 0, type := type, children := none }] }, ?_, ?_, rfl, ?_, ?_⟩
    · rw [createBehaviorNode_no_children m h children child_count type actionFunc hm hcc, hp]
    · intro a ha
      rw [node_append_lt h _ a ha, h0]
      cases h.node a <;> simp [adoptedBy_zero]
    · simp
    · rw [node_append_length h _]
      simp [hpos]

/-- An instance of C15 on the small tree: an Action node given the leaf at address `0`
twice and the leaf at address `1` once is rejected, and the reference count of the
first leaf has grown by `2`, that of the second by `1`. -/
theorem createBehaviorNode_adopts_witness :
    ∃ p h2, createBehaviorNode demoMalloc demoHeap (some [some 0, some 1, some 0]) 3
          NODE_TYPE_ACTION (some 10) = (.ret p, h2) ∧
      p = none ∧
      h2.node 0 = some (adoptedBy 2 (demoLeaf NODE_TYPE_ACTION 10)) ∧
      h2.node 1 = some (adoptedBy 1 (demoLeaf NODE_TYPE_ACTION 11)) ∧
      h2.node 13 = some
        { decorator := none, action := some 10, child_count := 3, reference_count := 0,
          type := NODE_TYPE_ACTION, children := some [some 0, some 1, some 0] } := by
  obtain ⟨p, h2, he, hn, _, _, hnew⟩ := createBehaviorNode_adopts demoMalloc demoHeap
    (some [some 0, some 1, some 0]) [some 0, some 1, some 0] 3 NODE_TYPE_ACTION (some 10)
    rfl rfl (fun _ => rfl) (by decide)
    (by
      intro a ha
      have h3 : (3 : Int).toNat = 3 := rfl
      rw [h3] at ha
      simp only [List.take_succ_cons, List.take_zero, List.mem_cons, Option.some.injEq,
        List.mem_nil_iff, or_false] at ha
      rcases ha with rfl | rfl | rfl <;> exact ⟨_, rfl⟩)
    (by
      intro a nd ha
      have hlt : a < 13 := node_lt_length ha
      interval_cases a <;>
        · simp only [demoHeap, Heap.node, List.getD_cons_succ, List.getD_cons_zero,
            Option.some.injEq] at ha
          subst ha
          decide)
  have e : createBehaviorNode demoMalloc demoHeap (some [some 0, some 1, some 0]) 3
      NODE_TYPE_ACTION (some 10) =
      (.ret none, (createBehaviorNode demoMalloc demoHeap (some [some 0, some 1, some 0]) 3
        NODE_TYPE_ACTION (some 10)).2) := by decide
  rw [e] at he
  simp only [Prod.mk.injEq, Result.ret.injEq] at he
  refine ⟨p, h2, ?_, he.1.symm, ?_, ?_, ?_⟩
  · rw [e, he.1, he.2]
  · exact hn 0 (by decide)
  · exact hn 1 (by decide)
  · exact hnew

/-! ## Teardown: what a release can change -/

theorem node_freeNode (h : Heap) (a b : Nat) :
    (h.freeNode a).node b = if b = a then none else h.node b := by
  by_cases hba : b = a
  · subst hba
    by_cases hlt : b < h.nodes.length
    · simp [Heap.node, Heap.freeNode, List.getD_eq_getElem?_getD, hlt]
    · have hnone : (h.nodes.set b none)[b]? = none :=
        List.getElem?_eq_none (by rw [List.length_set]; exact not_lt.mp hlt)
      simp [Heap.node, Heap.freeNode, List.getD_eq_getElem?_getD, hnone]
  · simp [Heap.node, Heap.freeNode, List.getD_eq_getElem?_getD, hba,
      List.getElem?_set_ne (Ne.symm hba)]

theorem decorator_lt_length {h : Heap} {d : Nat} {dec : Decorator}
    (hd : h.decoratorAt d = some dec) : d < h.decorators.length := by
  by_contra hge
  have : h.decoratorAt d = none := by
    simp [Heap.decoratorAt, List.getD_eq_getElem?_getD,
      List.getElem?_eq_none (not_lt.mp hge)]
  rw [this] at hd
  exact absurd hd (by simp)

theorem decoratorAt_setDecorator (h : Heap) (d : Nat) (dec new : Decorator) (e : Nat)
    (hd : h.decoratorAt d = some dec) :
    (h.setDecorator d new).decoratorAt e = if e = d then some new else h.decoratorAt e := by
  have hlt := decorator_lt_length hd
  by_cases hed : e = d
  · subst hed
    simp [Heap.decoratorAt, Heap.setDecorator, List.getD_eq_getElem?_getD, hlt]
  · simp [Heap.decoratorAt, Heap.setDecorator, List.getD_eq_getElem?_getD, hed,
      List.getElem?_set_ne (Ne.symm hed)]

theorem decoratorAt_freeDecorator (h : Heap) (d e : Nat) :
    (h.freeDecorator d).decoratorAt e = if e = d then none else h.decoratorAt e := by
  by_cases hed : e = d
  · subst hed
    by_cases hlt : e < h.decorators.length
    · simp [Heap.decoratorAt, Heap.freeDecorator, List.getD_eq_getElem?_getD, hlt]
    · have hnone : (h.decorators.set e none)[e]? = none :=
        List.getElem?_eq_none (by rw [List.length_set]; exact not_lt.mp hlt)
      simp [Heap.decoratorAt, Heap.freeDecorator, List.getD_eq_getElem?_getD, hnone]
  · simp [Heap.decoratorAt, Heap.freeDecorator, List.getD_eq_getElem?_getD, hed,
      List.getElem?_set_ne (Ne.symm hed)]

theorem Released.refl (h : Heap) : Released h h :=
  ⟨fun _ n1 h1 => ⟨n1, h1, rfl, rfl, le_refl _⟩, fun _ n hn _ => ⟨n, hn⟩,
    fun _ dec hd _ => ⟨dec, hd, le_refl _⟩⟩

theorem Released.trans {h h1 h2 : Heap} (r1 : Released h h1) (r2 : Released h1 h2) :
    Released h h2 := by
  refine ⟨?_, ?_, ?_⟩
  · intro a n2 hn2
    obtain ⟨n1, hn1, c1, k1, l1⟩ := r2.1 a n2 hn2
    obtain ⟨n, hn, c0, k0, l0⟩ := r1.1 a n1 hn1
    exact ⟨n, hn, c1.trans c0, k1.trans k0, le_trans l1 l0⟩
  · intro a n hn hle
    obtain ⟨n1, hn1⟩ := r1.2.1 a n hn hle
    obtain ⟨n0, hn0, _, _, l0⟩ := r1.1 a n1 hn1
    rw [hn] at hn0
    simp only [Option.some.injEq] at hn0
    subst hn0
    exact r2.2.1 a n1 hn1 (le_trans l0 hle)
  · intro d dec hd hle
    obtain ⟨dec1, hd1, l1⟩ := r1.2.2 d dec hd hle
    obtain ⟨dec2, hd2, l2⟩ := r2.2.2 d dec1 hd1 (le_trans l1 hle)
    exact ⟨dec2, hd2, le_trans l2 l1⟩

theorem releaseDecorator_released (h h1 : Heap) (a : Nat)
    (hr : releaseDecorator h a = some h1) : Released h h1 := by
  unfold releaseDecorator at hr
  cases hn : h.node a with
  | none => rw [hn] at hr; simp at hr
  | some node =>
    rw [hn] at hr
    cases hdp : node.decorator with
    | none =>
      simp only [hdp, Option.some.injEq] at hr
      subst hr
      exact Released.refl h
    | some d =>
      simp only [hdp] at hr
      cases hdd : h.decoratorAt d with
      | none => rw [hdd] at hr; simp at hr
      | some dec =>
        rw [hdd] at hr
        by_cases hmin : dec.reference_count = INT_MIN
        · simp [hmin] at hr
        · simp only [hmin, if_false] at hr
          by_cases hz : dec.reference_count - 1 = 0
          · simp only [hz, if_true, Option.some.injEq] at hr
            subst hr
            have hfn : (h.freeDecorator d).node a = some node := hn
            refine ⟨?_, ?_, ?_⟩
            · intro b n1 hb
              rw [node_setNode _ a node _ b hfn] at hb
              by_cases hba : b = a
              · simp only [hba, if_true, Option.some.injEq] at hb
                subst hb
                exact ⟨node, by rw [hba]; exact hn, rfl, rfl, le_refl _⟩
              · simp only [hba, if_false] at hb
                exact ⟨n1, hb, rfl, rfl, le_refl _⟩
            · intro b n hb _
              rw [node_setNode _ a node _ b hfn]
              by_cases hba : b = a
              · simp [hba]
              · simp only [hba, if_false]
                exact ⟨n, hb⟩
            · intro e dec0 he hle
              have hed : e ≠ d := by
                intro heq
                rw [heq, hdd] at he
                simp only [Option.some.injEq] at he
                rw [← he] at hle
                omega
              refine ⟨dec0, ?_, le_refl _⟩
              show (h.freeDecorator d).decoratorAt e = some dec0
              rw [decoratorAt_freeDecorator, if_neg hed]
              exact he
          · simp only [hz, if_false, Option.some.injEq] at hr
            subst hr
            refine ⟨fun b n1 hb => ⟨n1, hb, rfl, rfl, le_refl _⟩, fun b n hb _ => ⟨n, hb⟩, ?_⟩
            intro e dec0 he hle
            rw [decoratorAt_setDecorator h d dec _ e hdd]
            by_cases hed : e = d
            · simp only [hed, if_true]
              rw [hed, hdd] at he
              simp only [Option.some.injEq] at he
              exact ⟨_, rfl, by rw [← he]; simp⟩
            · simp only [hed, if_false]
              exact ⟨dec0, he, le_refl _⟩

theorem releaseSelf_released (h h1 : Heap) (a : Nat)
    (hr : releaseSelf h a = some h1) : Released h h1 := by
  unfold releaseSelf at hr
  cases hn : h.node a with
  | none => rw [hn] at hr; simp at hr
  | some node =>
    rw [hn] at hr
    by_cases hmin : node.reference_count = INT_MIN
    · simp [hmin] at hr
    · simp only [hmin, if_false] at hr
      by_cases hz : node.reference_count - 1 = 0
      · simp only [hz, if_true, Option.some.injEq] at hr
        subst hr
        refine ⟨?_, ?_, fun e dec0 he _ => ⟨dec0, he, le_refl _⟩⟩
        · intro b n1 hb
          rw [node_freeNode] at hb
          by_cases hba : b = a
          · simp [hba] at hb
          · simp only [hba, if_false] at hb
            exact ⟨n1, hb, rfl, rfl, le_refl _⟩
        · intro b n hb hle
          rw [node_freeNode]
          have hba : b ≠ a := by
            intro heq
            rw [heq, hn] at hb
            simp only [Option.some.injEq] at hb
            rw [← hb] at hle
            omega
          simp only [hba, if_false]
          exact ⟨n, hb⟩
      · simp only [hz, if_false, Option.some.injEq] at hr
        subst hr
        refine ⟨?_, ?_, fun e dec0 he _ => ⟨dec0, he, le_refl _⟩⟩
        · intro b n1 hb
          rw [node_setNode h a node _ b hn] at hb
          by_cases hba : b = a
          · simp only [hba, if_true, Option.some.injEq] at hb
            subst hb
            exact ⟨node, by rw [hba]; exact hn, rfl, rfl, by simp⟩
          · simp only [hba, if_false] at hb
            exact ⟨n1, hb, rfl, rfl, le_refl _⟩
        · intro b n hb _
          rw [node_setNode h a node _ b hn]
          by_cases hba : b = a
          · simp [hba]
          · simp only [hba, if_false]
            exact ⟨n, hb⟩

theorem freeChildrenLoop_released (free : Option Nat → Heap → Result Int × Heap) (a : Nat)
    (hfree : ∀ p h r h1, free p h = (r, h1) → Released h h1) :
    ∀ (n i : Nat) (h : Heap) (r : Result Int) (h1 : Heap),
      freeChildrenLoop free a n i h = (r, h1) → Released h h1 := by
  intro n
  induction n with
  | zero =>
    intro i h r h1 hl
    simp only [freeChildrenLoop, Prod.mk.injEq] at hl
    rw [← hl.2]
    exact Released.refl h
  | succ n ih =>
    intro i h r h1 hl
    simp only [freeChildrenLoop] at hl
    cases hn : h.node a with
    | none =>
      simp only [hn, Prod.mk.injEq] at hl
      rw [← hl.2]; exact Released.refl h
    | some node =>
      simp only [hn] at hl
      cases hc : node.child i with
      | none =>
        simp only [hc, Prod.mk.injEq] at hl
        rw [← hl.2]; exact Released.refl h
      | some c =>
        cases c with
        | none =>
          simp only [hc, Prod.mk.injEq] at hl
          rw [← hl.2]; exact Released.refl h
        | some x =>
          simp only [hc] at hl
          rcases hx : free (some x) h with ⟨res, h2⟩
          have r2 := hfree (some x) h res h2 hx
          rw [hx] at hl
          cases res with
          | ret v =>
            dsimp only at hl
            by_cases hv : v = 0
            · simp only [hv, if_true, Prod.mk.injEq] at hl
              rw [← hl.2]; exact r2
            · simp only [hv, if_false] at hl
              exact r2.trans (ih (i + 1) h2 r h1 hl)
          | exit => simp only [Prod.mk.injEq] at hl; rw [← hl.2]; exact r2
          | undef => simp only [Prod.mk.injEq] at hl; rw [← hl.2]; exact r2
          | timeout => simp only [Prod.mk.injEq] at hl; rw [← hl.2]; exact r2

/-- Whatever `freeBehaviorTree` returns, it has only released: see `Released`. -/
theorem freeBehaviorTree_released :
    ∀ (fuel : Nat) (p : Option Nat) (h : Heap) (r : Result Int) (h1 : Heap),
      freeBehaviorTree fuel p h = (r, h1) → Released h h1 := by
  intro fuel
  induction fuel with
  | zero =>
    intro p h r h1 hf
    simp only [freeBehaviorTree, Prod.mk.injEq] at hf
    rw [← hf.2]; exact Released.refl h
  | succ fuel ih =>
    intro p h r h1 hf
    cases p with
    | none =>
      simp only [freeBehaviorTree, Prod.mk.injEq] at hf
      rw [← hf.2]; exact Released.refl h
    | some a =>
      simp only [freeBehaviorTree] at hf
      cases hn : h.node a with
      | none =>
        simp only [hn, Prod.mk.injEq] at hf
        rw [← hf.2]; exact Released.refl h
      | some node =>
        simp only [hn] at hf
        rcases hl : freeChildrenLoop (freeBehaviorTree fuel) a node.child_count.toNat 0 h
          with ⟨res, h2⟩
        have r2 := freeChildrenLoop_released (freeBehaviorTree fuel) a ih _ 0 h res h2 hl
        rw [hl] at hf
        cases res with
        | ret v =>
          dsimp only at hf
          by_cases hv : v = 0
          · simp only [hv, if_true, Prod.mk.injEq] at hf
            rw [← hf.2]; exact r2
          · simp only [hv, if_false] at hf
            cases hd : releaseDecorator h2 a with
            | none =>
              simp only [hd, Prod.mk.injEq] at hf
              rw [← hf.2]; exact r2
            | some h3 =>
              simp only [hd] at hf
              have r3 := releaseDecorator_released h2 h3 a hd
              cases hs : releaseSelf h3 a with
              | none =>
                simp only [hs, Prod.mk.injEq] at hf
                rw [← hf.2]; exact r2.trans r3
              | some h4 =>
                simp only [hs, Prod.mk.injEq] at hf
                rw [← hf.2]
                exact (r2.trans r3).trans (releaseSelf_released h3 h4 a hs)
        | exit => simp only [Prod.mk.injEq] at hf; rw [← hf.2]; exact r2
        | undef => simp only [Prod.mk.injEq] at hf; rw [← hf.2]; exact r2
        | timeout => simp only [Prod.mk.injEq] at hf; rw [← hf.2]; exact r2

/-- Claim C18 (what the code does).  A node whose reference count is `0` or less, as is
the `0` of the root of a tree, which `createBehaviorNode` has built and no parent has
adopted, is not freed by `freeBehaviorTree`, whatever the node the call starts from and
whatever the call returns: the block is still live afterwards, with a count that has
not grown.  The root of a tree is therefore never freed. -/
theorem freeBehaviorTree_keeps_unadopted_node (fuel : Nat) (p : Option Nat) (h : Heap)
    (r : Result Int) (h1 : Heap) (a : Nat) (n : BehaviorNode)
    (hf : freeBehaviorTree fuel p h = (r, h1))
    (ha : h.node a = some n) (hrc : n.reference_count ≤ 0) :
    ∃ n1, h1.node a = some n1 ∧ n1.reference_count ≤ n.reference_count := by
  have hrel := freeBehaviorTree_released fuel p h r h1 hf
  obtain ⟨n1, hn1⟩ := hrel.2.1 a n ha hrc
  obtain ⟨n0, hn0, _, _, hle⟩ := hrel.1 a n1 hn1
  rw [ha] at hn0
  simp only [Option.some.injEq] at hn0
  subst hn0
  exact ⟨n1, hn1, hle⟩

/-- The failing input of C18: the tree of two nodes built with `createBehaviorNode`, the
Sequence at address `1` over the leaf at address `0`.  `freeBehaviorTree` on the root
returns `1`; the leaf is freed; the root is not, and its count is `-1`. -/
theorem freeBehaviorTree_keeps_unadopted_node_witness :
    freeBehaviorTree 2 (some 1) treeHeap =
      (.ret 1,
        { nodes := [none, some
            { decorator := none, action := none, child_count := 1, reference_count := -1,
              type := NODE_TYPE_SEQUENCE, children := some [some 0] }],
          decorators := [] }) ∧
    ∃ n1, (freeBehaviorTree 2 (some 1) treeHeap).2.node 1 = some n1 ∧
      n1.reference_count ≤ 0 :=
  ⟨by decide,
    freeBehaviorTree_keeps_unadopted_node 2 (some 1) treeHeap _ _ 1
      { decorator := none, action := none, child_count := 1, reference_count := 0,
        type := NODE_TYPE_SEQUENCE, children := some [some 0] } rfl (by decide) (by decide)⟩

/-- Claim C19 (what the code does).  Every decorator factory returns a decorator whose
reference count is `0`, and nothing increments it when the decorator is assigned to a
node.  A decorator whose count is `0` or less is not freed by `freeBehaviorTree`,
whatever the node the call starts from and whatever the call returns: the block is
still live afterwards, with a count that has not grown, `-1` instead of `0` after the
release of its node. -/
theorem freeBehaviorTree_keeps_fresh_decorator :
    (∀ ok h type param d h1, createDecorator ok h type param = (.ret (some d), h1) →
      ∃ dec, h1.decoratorAt d = some dec ∧ dec.reference_count = 0) ∧
    (∀ ok h repeatCount d h1, createRepeatDecorator ok h repeatCount = (.ret (some d), h1) →
      ∃ dec, h1.decoratorAt d = some dec ∧ dec.reference_count = 0) ∧
    (∀ ok h delayTime d h1, createDelayDecorator ok h delayTime = (.ret (some d), h1) →
      ∃ dec, h1.decoratorAt d = some dec ∧ dec.reference_count = 0) ∧
    (∀ ok h d h1, createConditionalDecorator ok h = (.ret (some d), h1) →
      ∃ dec, h1.decoratorAt d = some dec ∧ dec.reference_count = 0) ∧
    (∀ fuel p h r h1 d dec, freeBehaviorTree fuel p h = (r, h1) →
      h.decoratorAt d = some dec → dec.reference_count ≤ 0 →
      ∃ dec1, h1.decoratorAt d = some dec1 ∧
        dec1.reference_count ≤ dec.reference_count) := by
  refine ⟨?_, ?_, ?_, ?_, ?_⟩
  · intro ok h type param d h1 hc
    cases ok with
    | false => simp [createDecorator, createEmptyDecorator] at hc
    | true =>
      by_cases ht : type = DECORATOR_TYPE_REPEAT ∨ type = DECORATOR_TYPE_REPEAT_UNTIL_SUCCESS ∨
          type = DECORATOR_TYPE_DELAY
      · cases param with
        | none => simp [createDecorator, createEmptyDecorator, ht] at hc
        | some v =>
          simp only [createDecorator, createEmptyDecorator, Bool.true_eq_false, if_false, ht,
            if_true, writeDecorator, decoratorAt_append_length, setDecorator_append_length,
            Prod.mk.injEq, Result.ret.injEq, Option.some.injEq] at hc
          rw [← hc.1, ← hc.2]
          exact ⟨_, decoratorAt_append_length h _, rfl⟩
      · simp only [createDecorator, createEmptyDecorator, Bool.true_eq_false, if_false, ht,
          writeDecorator, decoratorAt_append_length, setDecorator_append_length,
          Prod.mk.injEq, Result.ret.injEq, Option.some.injEq] at hc
        rw [← hc.1, ← hc.2]
        exact ⟨_, decoratorAt_append_length h _, rfl⟩
  · intro ok h repeatCount d h1 hc
    cases ok with
    | false => simp [createRepeatDecorator, createEmptyDecorator] at hc
    | true =>
      simp only [createRepeatDecorator, createEmptyDecorator, Bool.true_eq_false, if_false,
        writeDecorator, decoratorAt_append_length, setDecorator_append_length,
        Prod.mk.injEq, Result.ret.injEq, Option.some.injEq] at hc
      rw [← hc.1, ← hc.2]
      exact ⟨_, decoratorAt_append_length h _, rfl⟩
  · intro ok h delayTime d h1 hc
    cases ok with
    | false => simp [createDelayDecorator, createEmptyDecorator] at hc
    | true =>
      simp only [createDelayDecorator, createEmptyDecorator, Bool.true_eq_false, if_false,
        writeDecorator, decoratorAt_append_length, setDecorator_append_length,
        Prod.mk.injEq, Result.ret.injEq, Option.some.injEq] at hc
      rw [← hc.1, ← hc.2]
      exact ⟨_, decoratorAt_append_length h _, rfl⟩
  · intro ok h d h1 hc
    cases ok with
    | false => simp [createConditionalDecorator, createEmptyDecorator] at hc
    | true =>
      simp only [createConditionalDecorator, createEmptyDecorator, Bool.true_eq_false,
        if_false, writeDecorator, decoratorAt_append_length, setDecorator_append_length,
        Prod.mk.injEq, Result.ret.injEq, Option.some.injEq] at hc
      rw [← hc.1, ← hc.2]
      exact ⟨_, decoratorAt_append_length h _, rfl⟩
  · intro fuel p h r h1 d dec hf hd hrc
    exact (freeBehaviorTree_released fuel p h r h1 hf).2.2 d dec hd hrc

/-- The failing input of C19: the decorator node at address `1` of the decorated tree, to
which the Repeat decorator made by `createRepeatDecorator` is assigned.
`freeBehaviorTree` on that node returns `1`; the decorator is not freed, and its count
is `-1`. -/
theorem freeBehaviorTree_keeps_fresh_decorator_witness :
    (createRepeatDecorator true
        (createBehaviorNode demoMalloc
          (createBehaviorNode demoMalloc emptyHeap none 0 NODE_TYPE_ACTION (some 10)).2
          (some [some 0]) 1 NODE_TYPE_DECORATOR none).2 3).1 = .ret (some 0) ∧
    decoratedHeap.decoratorAt 0 =
      some { type := DECORATOR_TYPE_REPEAT, params := 3, reference_count := 0 } ∧
    (freeBehaviorTree 2 (some 1) decoratedHeap).1 = .ret 1 ∧
    (freeBehaviorTree 2 (some 1) decoratedHeap).2.decoratorAt 0 =
      some { type := DECORATOR_TYPE_REPEAT, params := 3, reference_count := -1 } ∧
    ∃ dec1, (freeBehaviorTree 2 (some 1) decoratedHeap).2.decoratorAt 0 = some dec1 ∧
      dec1.reference_count ≤ 0 :=
  ⟨by decide, by decide, by decide, by decide,
    freeBehaviorTree_keeps_fresh_decorator.2.2.2.2 2 (some 1) decoratedHeap _ _ 0
      { type := DECORATOR_TYPE_REPEAT, params := 3, reference_count := 0 } rfl (by decide)
      (by decide)⟩

/-! ## Teardown: what `freeBehaviorTree` returns -/

theorem child_of_children_drop {n : BehaviorNode} {children : Option (List (Option Nat))}
    {i : Nat} {c : Option Nat} {l : List (Option Nat)} (hn : n.children = children)
    (hd : (children.getD []).drop i = c :: l) : n.child i = some c := by
  cases children with
  | none => simp at hd
  | some arr =>
    simp only [Option.getD_some] at hd
    simp [BehaviorNode.child, hn, (drop_cons_inv hd).1]

/-- The loop of `freeBehaviorTree` over the children `l`, from index `i` on, of the node at
address `a`. -/
theorem freeChildrenLoop_iff (free : Option Nat → Heap → Result Int × Heap)
    (hfree : ∀ p h r h1, free p h = (r, h1) → Released h h1) (a : Nat)
    (children : Option (List (Option Nat))) (r : Int) (h1 : Heap) :
    ∀ (l rest : List (Option Nat)) (i : Nat) (h : Heap),
      (children.getD []).drop i = l ++ rest →
      (∀ n, h.node a = some n → n.children = children) →
      (freeChildrenLoop free a l.length i h = (.ret r, h1) ↔
        (r = 1 ∧ freeInOrder free a l h = some h1) ∨
        (r = 0 ∧ ∃ k hk, freeInOrder free a (l.take k) h = some hk ∧
          (∃ n, hk.node a = some n) ∧
          ((l[k]? = some none ∧ h1 = hk) ∨
            ∃ x, l[k]? = some (some x) ∧ free (some x) hk = (.ret 0, h1)))) := by
  intro l
  induction l with
  | nil =>
    intro rest i h _ _
    simp only [List.length_nil, freeChildrenLoop, freeInOrder, Prod.mk.injEq,
      Result.ret.injEq, Option.some.injEq, List.take_nil, List.getElem?_nil]
    constructor
    · rintro ⟨h1, h2⟩
      exact Or.inl ⟨h1.symm, h2⟩
    · rintro (⟨h1, h2⟩ | ⟨_, k, hk, _, _, hh⟩)
      · exact ⟨h1.symm, h2⟩
      · rcases hh with ⟨hh, _⟩ | ⟨x, hh, _⟩ <;> simp at hh
  | cons c l ih =>
    intro rest i h hd hch
    rw [List.cons_append] at hd
    have hd1 : (children.getD []).drop (i + 1) = l ++ rest := (drop_cons_inv hd).2
    simp only [List.length_cons, freeChildrenLoop]
    cases hn : h.node a with
    | none =>
      dsimp only
      constructor
      · intro hh; simp at hh
      · rintro (⟨_, hfo⟩ | ⟨_, k, hk, hfo, ⟨n, hlive⟩, _⟩)
        · cases c <;> simp [freeInOrder, hn] at hfo
        · cases k with
          | zero =>
            simp only [List.take_zero, freeInOrder, Option.some.injEq] at hfo
            rw [← hfo, hn] at hlive
            simp at hlive
          | succ k => cases c <;> simp [freeInOrder, hn] at hfo
    | some n =>
      have hchild := child_of_children_drop (hch n hn) hd
      dsimp only
      rw [hchild]
      cases c with
      | none =>
        dsimp only
        constructor
        · intro hh
          simp only [Prod.mk.injEq, Result.ret.injEq] at hh
          exact Or.inr ⟨hh.1.symm, 0, h, by simp [freeInOrder], ⟨n, hn⟩,
            Or.inl ⟨by simp, hh.2.symm⟩⟩
        · rintro (⟨_, hfo⟩ | ⟨h0, k, hk, hfo, _, hh⟩)
          · simp [freeInOrder] at hfo
          · cases k with
            | zero =>
              simp only [List.take_zero, freeInOrder, Option.some.injEq] at hfo
              rcases hh with ⟨_, hh⟩ | ⟨x, hh, _⟩
              · rw [h0, hh, hfo]
              · simp at hh
            | succ k => simp [freeInOrder] at hfo
      | some x =>
        dsimp only
        rcases hx : free (some x) h with ⟨res, h2⟩
        have hrel := hfree (some x) h res h2 hx
        have hch2 : ∀ n2, h2.node a = some n2 → n2.children = children := by
          intro n2 hn2
          obtain ⟨n0, hn0, hc0, _, _⟩ := hrel.1 a n2 hn2
          rw [hc0]; exact hch n0 hn0
        cases res with
        | ret v =>
          dsimp only
          by_cases hv : v = 0
          · subst hv
            simp only [if_true]
            constructor
            · intro hh
              simp only [Prod.mk.injEq, Result.ret.injEq] at hh
              refine Or.inr ⟨hh.1.symm, 0, h, by simp [freeInOrder], ⟨n, hn⟩,
                Or.inr ⟨x, by simp, ?_⟩⟩
              rw [hx, hh.2]
            · rintro (⟨_, hfo⟩ | ⟨h0, k, hk, hfo, _, hh⟩)
              · simp [freeInOrder, hn, hx] at hfo
              · cases k with
                | zero =>
                  simp only [List.take_zero, freeInOrder, Option.some.injEq] at hfo
                  rcases hh with ⟨hh, _⟩ | ⟨y, hy, hfy⟩
                  · simp at hh
                  · simp only [List.getElem?_cons_zero, Option.some.injEq] at hy
                    rw [← hy, ← hfo, hx] at hfy
                    simp only [Prod.mk.injEq, Result.ret.injEq, true_and] at hfy
                    rw [h0, hfy]
                | succ k => simp [freeInOrder, hn, hx] at hfo
          · simp only [hv, if_false]
            rw [ih rest (i + 1) h2 hd1 hch2]
            have hfo1 : ∀ l1, freeInOrder free a (some x :: l1) h = freeInOrder free a l1 h2 := by
              intro l1
              simp [freeInOrder, hn, hx, hv]
            constructor
            · rintro (⟨h0, hfo⟩ | ⟨h0, k, hk, hfo, hlive, hh⟩)
              · exact Or.inl ⟨h0, by rw [hfo1]; exact hfo⟩
              · exact Or.inr ⟨h0, k + 1, hk, by rw [List.take_succ_cons, hfo1]; exact hfo,
                  hlive, by simpa using hh⟩
            · rintro (⟨h0, hfo⟩ | ⟨h0, k, hk, hfo, hlive, hh⟩)
              · exact Or.inl ⟨h0, by rw [hfo1] at hfo; exact hfo⟩
              · cases k with
                | zero =>
                  simp only [List.take_zero, freeInOrder, Option.some.injEq] at hfo
                  rcases hh with ⟨hh, _⟩ | ⟨y, hy, hfy⟩
                  · simp at hh
                  · simp only [List.getElem?_cons_zero, Option.some.injEq] at hy
                    rw [← hy, ← hfo, hx] at hfy
                    simp only [Prod.mk.injEq, Result.ret.injEq] at hfy
                    exact absurd hfy.1 hv
                | succ k =>
                  rw [List.take_succ_cons, hfo1] at hfo
                  exact Or.inr ⟨h0, k, hk, hfo, hlive, by simpa using hh⟩
        | _ =>
          dsimp only
          constructor
          · intro hh; simp at hh
          · rintro (⟨_, hfo⟩ | ⟨h0, k, hk, hfo, _, hh⟩)
            · simp [freeInOrder, hn, hx] at hfo
            · cases k with
              | zero =>
                simp only [List.take_zero, freeInOrder, Option.some.injEq] at hfo
                rcases hh with ⟨hh, _⟩ | ⟨y, hy, hfy⟩
                · simp at hh
                · simp only [List.getElem?_cons_zero, Option.some.injEq] at hy
                  rw [← hy, ← hfo, hx] at hfy
                  simp at hfy
              | succ k => simp [freeInOrder, hn, hx] at hfo

/-- Claim C20. `freeBehaviorTree` returns `0` on `NULL`, and changes nothing.  On the node
at address `a`, whose array of children begins with the `child_count` cells `cs`, it
returns only `0` or `1`.  It returns `0` exactly when, the children before some child
`k` having been released in order, child `k` is `NULL`, and the heap is then the one these
releases left, or the release of child `k` returns `0`, and the heap is then the one that
call left: in both cases nothing more is done, neither to the children after `k` nor to
the node itself.  It returns `1` exactly when all the children have been released in
order and the decorator and the node itself have then been released. -/
theorem freeBehaviorTree_returns_iff (fuel a : Nat) (h : Heap) (node : BehaviorNode)
    (cs rest : List (Option Nat)) (ha : h.node a = some node)
    (hc : node.children.getD [] = cs ++ rest) (hn : node.child_count.toNat = cs.length) :
    (∀ h0, freeBehaviorTree (fuel + 1) none h0 = (.ret 0, h0)) ∧
    (∀ (r : Int) (h1 : Heap),
      freeBehaviorTree (fuel + 1) (some a) h = (.ret r, h1) ↔
        (r = 0 ∧ ∃ k hk, freeInOrder (freeBehaviorTree fuel) a (cs.take k) h = some hk ∧
          (∃ n, hk.node a = some n) ∧
          ((cs[k]? = some none ∧ h1 = hk) ∨
            ∃ x, cs[k]? = some (some x) ∧
              freeBehaviorTree fuel (some x) hk = (.ret 0, h1))) ∨
        (r = 1 ∧ ∃ h2 h3, freeInOrder (freeBehaviorTree fuel) a cs h = some h2 ∧
          releaseDecorator h2 a = some h3 ∧ releaseSelf h3 a = some h1)) := by
  constructor
  · intro h0
    simp [freeBehaviorTree]
  · intro r h1
    have hloop := fun (v : Int) (hv : Heap) =>
      freeChildrenLoop_iff (freeBehaviorTree fuel) (freeBehaviorTree_released fuel) a
        node.children v hv cs rest 0 h (by simpa using hc)
        (fun n hn0 => by rw [ha] at hn0; simp only [Option.some.injEq] at hn0; rw [hn0])
    simp only [freeBehaviorTree, ha, hn]
    rcases hl : freeChildrenLoop (freeBehaviorTree fuel) a cs.length 0 h with ⟨res, h2⟩
    cases res with
    | ret v =>
      dsimp only
      have hv := (hloop v h2).1 hl
      by_cases hv0 : v = 0
      · subst hv0
        simp only [if_true, Prod.mk.injEq, Result.ret.injEq]
        constructor
        · rintro ⟨h0, hh⟩
          rcases hv with ⟨hv, _⟩ | ⟨_, k, hk, hfo, hlive, hh1⟩
          · exact absurd hv (by decide)
          · rw [hh] at hh1
            exact Or.inl ⟨h0.symm, k, hk, hfo, hlive, hh1⟩
        · rintro (⟨h0, k, hk, hfo, hlive, hh1⟩ | ⟨h0, h3, h4, hfo, _, _⟩)
          · have := (hloop 0 h1).2 (Or.inr ⟨rfl, k, hk, hfo, hlive, hh1⟩)
            rw [hl] at this
            simp only [Prod.mk.injEq, Result.ret.injEq, true_and] at this
            exact ⟨h0.symm, this⟩
          · rcases hv with ⟨hv, _⟩ | ⟨_, k, hk, hfo1, hlive, hh1⟩
            · exact absurd hv (by decide)
            · have := (hloop 1 h3).2 (Or.inl ⟨rfl, hfo⟩)
              rw [hl] at this
              simp at this
      · simp only [hv0, if_false]
        have hfo2 : v = 1 ∧ freeInOrder (freeBehaviorTree fuel) a cs h = some h2 := by
          rcases hv with hv | ⟨hv, _⟩
          · exact hv
          · exact absurd hv hv0
        constructor
        · intro hh
          cases hd : releaseDecorator h2 a with
          | none => simp [hd] at hh
          | some h3 =>
            cases hs : releaseSelf h3 a with
            | none => simp [hd, hs] at hh
            | some h4 =>
              simp only [hd, hs, Prod.mk.injEq, Result.ret.injEq] at hh
              exact Or.inr ⟨hh.1.symm, h2, h3, hfo2.2, hd, by rw [hs, hh.2]⟩
        · rintro (⟨h0, k, hk, hfo, hlive, hh1⟩ | ⟨h0, h3, h4, hfo, hd, hs⟩)
          · have := (hloop 0 h1).2 (Or.inr ⟨rfl, k, hk, hfo, hlive, hh1⟩)
            rw [hl] at this
            simp only [Prod.mk.injEq, Result.ret.injEq] at this
            exact absurd this.1 hv0
          · rw [hfo2.2] at hfo
            simp only [Option.some.injEq] at hfo
            subst hfo
            simp [hd, hs, h0]
    | _ =>
      dsimp only
      constructor
      · intro hh; simp at hh
      · rintro (⟨h0, k, hk, hfo, hlive, hh1⟩ | ⟨h0, h3, h4, hfo, _, _⟩)
        · have := (hloop 0 h1).2 (Or.inr ⟨rfl, k, hk, hfo, hlive, hh1⟩)
          rw [hl] at this
          simp at this
        · have := (hloop 1 h3).2 (Or.inl ⟨rfl, hfo⟩)
          rw [hl] at this
          simp at this

/-- An instance of C20: in the tree with an absent child, the root at address `2` has the
children `[0, NULL, 1]`.  `freeBehaviorTree` on the root releases the first leaf, meets
`NULL` and returns `0`: the second leaf keeps its count `1` and the root its count `0`. -/
theorem freeBehaviorTree_returns_iff_witness :
    brokenHeap.node 2 = some
      { decorator := none, action := none, child_count := 3, reference_count := 0,
        type := NODE_TYPE_SEQUENCE, children := some [some 0, none, some 1] } ∧
    freeBehaviorTree 2 (some 2) brokenHeap = (.ret 0, brokenHeap.freeNode 0) ∧
    (brokenHeap.freeNode 0).node 1 = brokenHeap.node 1 ∧
    (brokenHeap.freeNode 0).node 2 = brokenHeap.node 2 :=
  ⟨by decide,
    ((freeBehaviorTree_returns_iff 1 2 brokenHeap
      { decorator := none, action := none, child_count := 3, reference_count := 0,
        type := NODE_TYPE_SEQUENCE, children := some [some 0, none, some 1] }
      [some 0, none, some 1] [] (by decide) (by decide) (by decide)).2 0
      (brokenHeap.freeNode 0)).2
      (Or.inl ⟨rfl, 1, brokenHeap.freeNode 0, by decide,
        ⟨{ decorator := none, action := none, child_count := 3, reference_count := 0,
            type := NODE_TYPE_SEQUENCE, children := some [some 0, none, some 1] },
          by decide⟩,
        Or.inl ⟨by decide, rfl⟩⟩),
    by decide, by decide⟩

/-! ## The scenario of the shared node -/

theorem node_withNodes_add (h : Heap) (l : List (Option BehaviorNode)) (k : Nat) :
    (h.withNodes l).node (h.nodes.length + k) = l.getD k none := by
  simp [Heap.withNodes, Heap.node, List.getD_eq_getElem?_getD, List.getElem?_append_right]

theorem node_withNodes_zero (h : Heap) (l : List (Option BehaviorNode)) :
    (h.withNodes l).node h.nodes.length = l.getD 0 none :=
  node_withNodes_add h l 0

theorem setNode_withNodes_add (h : Heap) (l : List (Option BehaviorNode)) (k : Nat)
    (nd : BehaviorNode) :
    (h.withNodes l).setNode (h.nodes.length + k) nd = h.withNodes (l.set k (some nd)) := by
  simp [Heap.withNodes, Heap.setNode, List.set_append]

theorem setNode_withNodes_zero (h : Heap) (l : List (Option BehaviorNode))
    (nd : BehaviorNode) :
    (h.withNodes l).setNode h.nodes.length nd = h.withNodes (l.set 0 (some nd)) :=
  setNode_withNodes_add h l 0 nd

theorem freeNode_withNodes_add (h : Heap) (l : List (Option BehaviorNode)) (k : Nat) :
    (h.withNodes l).freeNode (h.nodes.length + k) = h.withNodes (l.set k none) := by
  simp [Heap.withNodes, Heap.freeNode, List.set_append]

theorem freeNode_withNodes_zero (h : Heap) (l : List (Option BehaviorNode)) :
    (h.withNodes l).freeNode h.nodes.length = h.withNodes (l.set 0 none) :=
  freeNode_withNodes_add h l 0

theorem withNodes_append_one (h : Heap) (l : List (Option BehaviorNode))
    (n : BehaviorNode) :
    ({ h.withNodes l with nodes := (h.withNodes l).nodes ++ [some n] } : Heap) =
      h.withNodes (l ++ [some n]) := by
  simp [Heap.withNodes]

theorem withNodes_length (h : Heap) (l : List (Option BehaviorNode)) :
    (h.withNodes l).nodes.length = h.nodes.length + l.length := by
  simp [Heap.withNodes]

theorem withNodes_nil (h : Heap) : h.withNodes [] = h := by
  cases h; simp [Heap.withNodes]

/-- The scenario of the shared node when every block happens to hold `NULL` in the field
`decorator`, from any heap `h0`: the Condition leaf X with the callback `fn` is built at
the first free address `x`; the Sequences A and B, each over X, are built at `x + 1` and
`x + 2`, and X then has the count `2`.  `freeBehaviorTree` on A returns `1` and leaves X
live with the count `1`; `executeNode` on B then calls the callback of X and returns `1`
or `0` as the callback returned a non-zero value or `0`; `freeBehaviorTree` on B then
returns `1` and frees X.  (A and B themselves, whose counts were `0`, are left with the
count `-1`.) -/
theorem shared_node_scenario_cleared_blocks (h0 : Heap) (m : Malloc) (fn fuel : Nat) (cb : Callbacks)
    (log : List Event) (hm : m.node = true) (hmc : m.children = true)
    (hmd : m.decorator = none) :
    createBehaviorNode m h0 none 0 NODE_TYPE_CONDITION (some fn) =
      (.ret (some h0.nodes.length), h0.withNodes [some (sharedLeaf fn 0)]) ∧
    createBehaviorNode m (h0.withNodes [some (sharedLeaf fn 0)])
        (some [some h0.nodes.length]) 1 NODE_TYPE_SEQUENCE none =
      (.ret (some (h0.nodes.length + 1)),
        h0.withNodes [some (sharedLeaf fn 1), some (sharedParent h0.nodes.length 0)]) ∧
    createBehaviorNode m
        (h0.withNodes [some (sharedLeaf fn 1), some (sharedParent h0.nodes.length 0)])
        (some [some h0.nodes.length]) 1 NODE_TYPE_SEQUENCE none =
      (.ret (some (h0.nodes.length + 2)),
        h0.withNodes [some (sharedLeaf fn 2), some (sharedParent h0.nodes.length 0),
          some (sharedParent h0.nodes.length 0)]) ∧
    freeBehaviorTree (fuel + 2) (some (h0.nodes.length + 1))
        (h0.withNodes [some (sharedLeaf fn 2), some (sharedParent h0.nodes.length 0),
          some (sharedParent h0.nodes.length 0)]) =
      (.ret 1,
        h0.withNodes [some (sharedLeaf fn 1), some (sharedParent h0.nodes.length (-1)),
          some (sharedParent h0.nodes.length 0)]) ∧
    (h0.withNodes [some (sharedLeaf fn 1), some (sharedParent h0.nodes.length (-1)),
        some (sharedParent h0.nodes.length 0)]).node h0.nodes.length =
      some (sharedLeaf fn 1) ∧
    executeNode cb
        (h0.withNodes [some (sharedLeaf fn 1), some (sharedParent h0.nodes.length (-1)),
          some (sharedParent h0.nodes.length 0)])
        (fuel + 2) (some (h0.nodes.length + 2)) log =
      (.ret (if cb log fn = 0 then 0 else 1), log ++ [Event.call fn (cb log fn)]) ∧
    freeBehaviorTree (fuel + 2) (some (h0.nodes.length + 2))
        (h0.withNodes [some (sharedLeaf fn 1), some (sharedParent h0.nodes.length (-1)),
          some (sharedParent h0.nodes.length 0)]) =
      (.ret 1,
        h0.withNodes [none, some (sharedParent h0.nodes.length (-1)),
          some (sharedParent h0.nodes.length (-1))]) ∧
    (h0.withNodes [none, some (sharedParent h0.nodes.length (-1)),
        some (sharedParent h0.nodes.length (-1))]).node h0.nodes.length = none := by
  have h1 : (1 : Int).toNat = 1 := rfl
  refine ⟨?_, ?_, ?_, ?_, ?_, ?_, ?_, ?_⟩
  · rw [createBehaviorNode_no_children m h0 none 0 _ (some fn) hm (le_refl _),
      BehaviorNodeCheck_leaf _ _ _ _ (Or.inr rfl) (node_append_length _ _)]
    simp [hmd, Heap.withNodes, sharedLeaf]
  · have hl : adoptLoop (some [some h0.nodes.length]) (1 : Int).toNat 0
        (h0.withNodes [some (sharedLeaf fn 0)]) [] =
        some (h0.withNodes [some (sharedLeaf fn 1)], [some h0.nodes.length]) := by
      rw [h1]
      simp [adoptLoop, node_withNodes_zero, setNode_withNodes_zero, INT_MAX, sharedLeaf]
    rw [createBehaviorNode_children m _ _ 1 _ none _ _ hm (by decide) hmc hl,
      BehaviorNodeCheck_composite _ _ _ _ (Or.inl rfl) (node_append_length _ _)]
    simp [hmd, withNodes_append_one, withNodes_length, sharedParent]
  · have hl : adoptLoop (some [some h0.nodes.length]) (1 : Int).toNat 0
        (h0.withNodes [some (sharedLeaf fn 1), some (sharedParent h0.nodes.length 0)]) [] =
        some (h0.withNodes [some (sharedLeaf fn 2), some (sharedParent h0.nodes.length 0)],
          [some h0.nodes.length]) := by
      rw [h1]
      simp [adoptLoop, node_withNodes_zero, setNode_withNodes_zero, INT_MAX, sharedLeaf]
    rw [createBehaviorNode_children m _ _ 1 _ none _ _ hm (by decide) hmc hl,
      BehaviorNodeCheck_composite _ _ _ _ (Or.inl rfl) (node_append_length _ _)]
    simp [hmd, withNodes_append_one, withNodes_length, sharedParent]
  · simp [freeBehaviorTree, freeChildrenLoop, releaseDecorator, releaseSelf,
      node_withNodes_add, node_withNodes_zero, setNode_withNodes_add,
      setNode_withNodes_zero, sharedLeaf, sharedParent, BehaviorNode.child, INT_MIN]
  · simp [node_withNodes_zero]
  · have e0 : (h0.withNodes [some (sharedLeaf fn 1), some (sharedParent h0.nodes.length (-1)),
        some (sharedParent h0.nodes.length 0)]).node h0.nodes.length =
        some (sharedLeaf fn 1) := by simp [node_withNodes_zero]
    have e2 : (h0.withNodes [some (sharedLeaf fn 1), some (sharedParent h0.nodes.length (-1)),
        some (sharedParent h0.nodes.length 0)]).node (h0.nodes.length + 2) =
        some (sharedParent h0.nodes.length 0) := by simp [node_withNodes_add]
    rw [executeNode_sequence cb _ (fuel + 1) _ _ log e2 rfl, sequenceNode]
    have e3 := executeNode_leaf cb _ fuel h0.nodes.length fn _ log e0 (Or.inr rfl) rfl
    have h2 : (sharedParent h0.nodes.length 0).child_count.toNat = 1 := rfl
    have h3 : (sharedParent h0.nodes.length 0).children = some [some h0.nodes.length] := rfl
    rw [h2]
    by_cases hr : cb log fn = 0 <;>
      simp [sequenceLoop, BehaviorNode.child, h3, e3, hr]
  · simp [freeBehaviorTree, freeChildrenLoop, releaseDecorator, releaseSelf,
      node_withNodes_add, node_withNodes_zero, setNode_withNodes_add,
      freeNode_withNodes_zero, sharedLeaf, sharedParent, BehaviorNode.child, INT_MIN]
  · simp [node_withNodes_zero]

/-- Claim C17 (what the code does).  `createBehaviorNode` never writes the field
`decorator`, `checkConditionNode` does not read it, and `freeBehaviorTree` does.  From
any heap `h0`: the Condition leaf X with the callback `fn` is built, at the first free
address `x`, in a block that holds in that field the address `d`, at which no decorator
is live; the Sequences A and B, each over X, are built at `x + 1` and `x + 2` in blocks
that hold `NULL` there.  All three are accepted, and X has the count `2`.
`freeBehaviorTree` on A then visits X and dereferences the field: the behaviour is
undefined, and the scenario does not get to its first step. -/
theorem shared_node_release_reads_decorator (h0 : Heap) (m mx : Malloc) (fn fuel d : Nat)
    (hm : m.node = true) (hmc : m.children = true) (hmd : m.decorator = none)
    (hx : mx.node = true) (hxd : mx.decorator = some d) (hd : h0.decoratorAt d = none) :
    createBehaviorNode mx h0 none 0 NODE_TYPE_CONDITION (some fn) =
      (.ret (some h0.nodes.length), h0.withNodes [some (garbageLeaf d fn 0)]) ∧
    createBehaviorNode m (h0.withNodes [some (garbageLeaf d fn 0)])
        (some [some h0.nodes.length]) 1 NODE_TYPE_SEQUENCE none =
      (.ret (some (h0.nodes.length + 1)),
        h0.withNodes [some (garbageLeaf d fn 1), some (sharedParent h0.nodes.length 0)]) ∧
    createBehaviorNode m
        (h0.withNodes [some (garbageLeaf d fn 1), some (sharedParent h0.nodes.length 0)])
        (some [some h0.nodes.length]) 1 NODE_TYPE_SEQUENCE none =
      (.ret (some (h0.nodes.length + 2)),
        h0.withNodes [some (garbageLeaf d fn 2), some (sharedParent h0.nodes.length 0),
          some (sharedParent h0.nodes.length 0)]) ∧
    (freeBehaviorTree (fuel + 2) (some (h0.nodes.length + 1))
        (h0.withNodes [some (garbageLeaf d fn 2), some (sharedParent h0.nodes.length 0),
          some (sharedParent h0.nodes.length 0)])).1 = .undef := by
  have h1 : (1 : Int).toNat = 1 := rfl
  have hdw : ∀ l, (h0.withNodes l).decoratorAt d = none := fun l => hd
  refine ⟨?_, ?_, ?_, ?_⟩
  · rw [createBehaviorNode_no_children mx h0 none 0 _ (some fn) hx (le_refl _),
      BehaviorNodeCheck_leaf _ _ _ _ (Or.inr rfl) (node_append_length _ _)]
    simp [hxd, Heap.withNodes, garbageLeaf, sharedLeaf]
  · have hl : adoptLoop (some [some h0.nodes.length]) (1 : Int).toNat 0
        (h0.withNodes [some (garbageLeaf d fn 0)]) [] =
        some (h0.withNodes [some (garbageLeaf d fn 1)], [some h0.nodes.length]) := by
      rw [h1]
      simp [adoptLoop, node_withNodes_zero, setNode_withNodes_zero, INT_MAX, garbageLeaf,
        sharedLeaf]
    rw [createBehaviorNode_children m _ _ 1 _ none _ _ hm (by decide) hmc hl,
      BehaviorNodeCheck_composite _ _ _ _ (Or.inl rfl) (node_append_length _ _)]
    simp [hmd, withNodes_append_one, withNodes_length, sharedParent]
  · have hl : adoptLoop (some [some h0.nodes.length]) (1 : Int).toNat 0
        (h0.withNodes [some (garbageLeaf d fn 1), some (sharedParent h0.nodes.length 0)]) [] =
        some (h0.withNodes [some (garbageLeaf d fn 2), some (sharedParent h0.nodes.length 0)],
          [some h0.nodes.length]) := by
      rw [h1]
      simp [adoptLoop, node_withNodes_zero, setNode_withNodes_zero, INT_MAX, garbageLeaf,
        sharedLeaf]
    rw [createBehaviorNode_children m _ _ 1 _ none _ _ hm (by decide) hmc hl,
      BehaviorNodeCheck_composite _ _ _ _ (Or.inl rfl) (node_append_length _ _)]
    simp [hmd, withNodes_append_one, withNodes_length, sharedParent]
  · simp [freeBehaviorTree, freeChildrenLoop, releaseDecorator, node_withNodes_add,
      node_withNodes_zero, garbageLeaf, sharedLeaf, sharedParent, BehaviorNode.child, hdw]

/-- The failing input of C17, from the heap in which nothing has been allocated: X, with
the callback `10`, is built in a block that holds the address `7` in the field
`decorator`; A and B are built over it; `freeBehaviorTree` on A is undefined. -/
theorem shared_node_release_reads_decorator_witness :
    createBehaviorNode { node := true, children := true, decorator := some 7 } emptyHeap
        none 0 NODE_TYPE_CONDITION (some 10) =
      (.ret (some 0), emptyHeap.withNodes [some (garbageLeaf 7 10 0)]) ∧
    (freeBehaviorTree 2 (some 1)
        (emptyHeap.withNodes [some (garbageLeaf 7 10 2), some (sharedParent 0 0),
          some (sharedParent 0 0)])).1 = .undef :=
  ⟨(shared_node_release_reads_decorator emptyHeap demoMalloc
      { node := true, children := true, decorator := some 7 } 10 0 7 rfl rfl rfl rfl rfl
      rfl).1,
    (shared_node_release_reads_decorator emptyHeap demoMalloc
      { node := true, children := true, decorator := some 7 } 10 0 7 rfl rfl rfl rfl rfl
      rfl).2.2.2⟩

/-! ## The absent node, and the shared node with children -/

/-- Claim C21 (what the code does).  `executeNode` on `NULL` does not return `0`: it calls
`handleMemoryError`, which ends the process by `exit (EXIT_FAILURE)`, so that the
statement `return 0` after the call is never reached.  No events are added, and this is
so whatever the fuel, as soon as the call is made at all. -/
theorem executeNode_null_exits (cb : Callbacks) (h : Heap) (fuel : Nat) (log : List Event) :
    executeNode cb h (fuel + 1) none log = (.exit, log) ∧
    ∀ (r : Int) (log2 : List Event), executeNode cb h (fuel + 1) none log ≠ (.ret r, log2) := by
  constructor
  · simp [executeNode]
  · intro r log2
    simp [executeNode]

/-- Claim C22 (what the code does).  In the graph `dagHeap`, built with
`createBehaviorNode`, the Sequence S at address `1` is the child of two parents, P1 and
P2, and has the count `2`; its own child C, at address `0`, was adopted once, by S, and
has the count `1`.  `freeBehaviorTree` on P1 returns `1`: it visits S, which visits C and
frees it, and S is left live with the count `1`.  `freeBehaviorTree` on P2 then visits S
again, which visits C again, a block that has been freed: the behaviour is undefined.
So is `freeBehaviorTree` on the root, which makes these two calls one after the other:
C is visited twice, once per path from the root, though its count is `1`. -/
theorem freeBehaviorTree_revisits_freed_child :
    (dagHeap.node 1).map (fun n => (n.reference_count, n.children)) =
      some (2, some [some 0]) ∧
    (dagHeap.node 0).map (fun n => n.reference_count) = some 1 ∧
    (freeBehaviorTree 3 (some 2) dagHeap).1 = .ret 1 ∧
    (freeBehaviorTree 3 (some 2) dagHeap).2.node 0 = none ∧
    ((freeBehaviorTree 3 (some 2) dagHeap).2.node 1).map (fun n => n.reference_count) =
      some 1 ∧
    (∀ fuel, (freeBehaviorTree (fuel + 3) (some 3)
      (freeBehaviorTree 3 (some 2) dagHeap).2).1 = .undef) ∧
    (∀ fuel, (freeBehaviorTree (fuel + 4) (some 4) dagHeap).1 = .undef) := by
  refine ⟨by decide, by decide, by decide, by decide, by decide, ?_, ?_⟩
  · intro fuel; rfl
  · intro fuel; rfl

/-! ## Execution of a well-formed tree: what the loops keep

In this section `Q` is a property of results that holds of every returned value; when the
executor has it on every child of a node, the function of the node has it too. -/

theorem child_of_mem_index {node : BehaviorNode} {cs : List (Option Nat)} {i : Nat}
    (hc : node.children = some cs) (hi : i < cs.length) :
    ∃ c, node.child i = some c ∧ c ∈ cs := by
  refine ⟨cs[i], ?_, List.getElem_mem hi⟩
  simp [BehaviorNode.child, hc, List.getElem?_eq_getElem hi]

theorem sequenceLoop_keeps (Q : Result Int → Prop) (hQ : ∀ v, Q (.ret v)) (exec : Exec)
    (node : BehaviorNode) (cs : List (Option Nat)) (hc : node.children = some cs)
    (hch : ∀ c ∈ cs, ∀ log, Q (exec c log).1) :
    ∀ (n i : Nat) (log : List Event), i + n ≤ cs.length →
      Q (sequenceLoop exec node n i log).1 := by
  intro n
  induction n with
  | zero => intro i log _; exact hQ 1
  | succ n ih =>
    intro i log hle
    obtain ⟨c, hci, hmem⟩ := child_of_mem_index hc (show i < cs.length by omega)
    simp only [sequenceLoop, hci]
    have hq := hch c hmem log
    rcases hx : exec c log with ⟨res, log1⟩
    rw [hx] at hq
    cases res with
    | ret v =>
      dsimp only
      by_cases hv : v = 0
      · simp only [hv, if_true]; exact hQ 0
      · simp only [hv, if_false]; exact ih (i + 1) log1 (by omega)
    | exit => exact hq
    | undef => exact hq
    | timeout => exact hq

theorem selectorLoop_keeps (Q : Result Int → Prop) (hQ : ∀ v, Q (.ret v)) (exec : Exec)
    (node : BehaviorNode) (cs : List (Option Nat)) (hc : node.children = some cs)
    (hch : ∀ c ∈ cs, ∀ log, Q (exec c log).1) :
    ∀ (n i : Nat) (log : List Event), i + n ≤ cs.length →
      Q (selectorLoop exec node n i log).1 := by
  intro n
  induction n with
  | zero => intro i log _; exact hQ 0
  | succ n ih =>
    intro i log hle
    obtain ⟨c, hci, hmem⟩ := child_of_mem_index hc (show i < cs.length by omega)
    simp only [selectorLoop, hci]
    have hq := hch c hmem log
    rcases hx : exec c log with ⟨res, log1⟩
    rw [hx] at hq
    cases res with
    | ret v =>
      dsimp only
      by_cases hv : v = 0
      · simp only [hv, ne_eq, not_true_eq_false, if_false]; exact ih (i + 1) log1 (by omega)
      · simp only [ne_eq, hv, not_false_eq_true, if_true]; exact hQ 1
    | exit => exact hq
    | undef => exact hq
    | timeout => exact hq

theorem parallelLoop_keeps (Q : Result Int → Prop) (hQ : ∀ v, Q (.ret v)) (exec : Exec)
    (node : BehaviorNode) (cs : List (Option Nat)) (hc : node.children = some cs)
    (hch : ∀ c ∈ cs, ∀ log, Q (exec c log).1) :
    ∀ (n i : Nat) (successCount : Int) (log : List Event), i + n ≤ cs.length →
      Q (parallelLoop exec node n i successCount log).1 := by
  intro n
  induction n with
  | zero => intro i sc log _; exact hQ _
  | succ n ih =>
    intro i sc log hle
    obtain ⟨c, hci, hmem⟩ := child_of_mem_index hc (show i < cs.length by omega)
    simp only [parallelLoop, hci]
    have hq := hch c hmem log
    rcases hx : exec c log with ⟨res, log1⟩
    rw [hx] at hq
    cases res with
    | ret v =>
      dsimp only
      by_cases hv : v = 0
      · simp only [hv, if_true]; exact ih (i + 1) (sc + 1) log1 (by omega)
      · simp only [hv, if_false]; exact ih (i + 1) sc log1 (by omega)
    | exit => exact hq
    | undef => exact hq
    | timeout => exact hq

theorem invertDecorator_keeps (Q : Result Int → Prop) (hQ : ∀ v, Q (.ret v)) (exec : Exec)
    (node : BehaviorNode) (c : Option Nat) (hc0 : node.child 0 = some c)
    (hch : ∀ log, Q (exec c log).1) (log : List Event) :
    Q (invertDecorator exec node log).1 := by
  simp only [invertDecorator, hc0]
  have hq := hch log
  rcases hx : exec c log with ⟨res, log1⟩
  rw [hx] at hq
  cases res with
  | ret v => exact hQ _
  | exit => exact hq
  | undef => exact hq
  | timeout => exact hq

theorem repeatLoop_keeps (Q : Result Int → Prop) (hQ : ∀ v, Q (.ret v)) (exec : Exec)
    (node : BehaviorNode) (c : Option Nat) (hc0 : node.child 0 = some c)
    (hch : ∀ log, Q (exec c log).1) :
    ∀ (n : Nat) (result : Option Int) (log : List Event), (n = 0 → result ≠ none) →
      Q (repeatLoop exec node n result log).1 := by
  intro n
  induction n with
  | zero =>
    intro result log hr
    cases result with
    | none => exact absurd rfl (hr rfl)
    | some v => exact hQ v
  | succ n ih =>
    intro result log _
    simp only [repeatLoop, hc0]
    have hq := hch log
    rcases hx : exec c log with ⟨res, log1⟩
    rw [hx] at hq
    cases res with
    | ret v => exact ih (some v) log1 (fun _ => by simp)
    | exit => exact hq
    | undef => exact hq
    | timeout => exact hq

theorem repeatUntilSuccessLoop_keeps (Q : Result Int → Prop) (hQ : ∀ v, Q (.ret v))
    (hT : Q .timeout) (exec : Exec) (node : BehaviorNode) (c : Option Nat)
    (hc0 : node.child 0 = some c) (hch : ∀ log, Q (exec c log).1) :
    ∀ (fuel : Nat) (log : List Event), Q (repeatUntilSuccessLoop exec node fuel log).1 := by
  intro fuel
  induction fuel with
  | zero => intro log; exact hT
  | succ fuel ih =>
    intro log
    simp only [repeatUntilSuccessLoop, hc0]
    have hq := hch log
    rcases hx : exec c log with ⟨res, log1⟩
    rw [hx] at hq
    cases res with
    | ret v =>
      dsimp only
      by_cases hv : v = 0
      · simp only [hv, ne_eq, not_true_eq_false, if_false]; exact hQ 0
      · simp only [ne_eq, hv, not_false_eq_true, if_true]; exact ih log1
    | exit => exact hq
    | undef => exact hq
    | timeout => exact hq

theorem conditionalDecorator_keeps (Q : Result Int → Prop) (hQ : ∀ v, Q (.ret v))
    (exec : Exec) (node : BehaviorNode) (cs : List (Option Nat))
    (hc : node.children = some cs) (hn : node.child_count = cs.length)
    (h1 : 1 ≤ cs.length) (h3 : cs.length ≤ 3)
    (hch : ∀ c ∈ cs, ∀ log, Q (exec c log).1) (log : List Event) :
    Q (conditionalDecorator exec node log).1 := by
  obtain ⟨c0, hc0, hm0⟩ := child_of_mem_index hc (show 0 < cs.length by omega)
  simp only [conditionalDecorator, hc0]
  have hq := hch c0 hm0 log
  rcases hx : exec c0 log with ⟨res, log1⟩
  rw [hx] at hq
  cases res with
  | ret v =>
    dsimp only
    by_cases hone : node.child_count = 1
    · simp only [hone, if_true]; exact hQ v
    · have h2 : 2 ≤ cs.length := by
        rw [hn] at hone
        have : cs.length ≠ 1 := fun e => hone (by rw [e]; rfl)
        omega
      obtain ⟨c1, hc1, hm1⟩ := child_of_mem_index hc (show 1 < cs.length by omega)
      simp only [hone, if_false, hc1]
      by_cases hv : v = 0
      · simp only [hv, ne_eq, not_true_eq_false, if_false]
        by_cases hlt : node.child_count < 3
        · simp only [hlt, if_true]; exact hQ 0
        · have h33 : cs.length = 3 := by
            rw [hn] at hlt
            have : ¬ cs.length < 3 := fun e => hlt (by exact_mod_cast e)
            omega
          obtain ⟨c2, hc2, hm2⟩ := child_of_mem_index hc (show 2 < cs.length by omega)
          simp only [hlt, if_false, hc2]
          exact hch c2 hm2 log1
      · simp only [ne_eq, hv, not_false_eq_true, if_true]
        exact hch c1 hm1 log1
  | exit => exact hq
  | undef => exact hq
  | timeout => exact hq

theorem delayDecorator_keeps (Q : Result Int → Prop) (hQ : ∀ v, Q (.ret v)) (h : Heap)
    (exec : Exec) (node : BehaviorNode) (d : Decorator) (c : Option Nat)
    (hd : h.decoratorOf node = some d) (hc0 : node.child 0 = some c)
    (hch : ∀ log, Q (exec c log).1) (log : List Event) :
    Q (delayDecorator h exec node log).1 := by
  simp only [delayDecorator, hd, hc0]
  have hq := hch log
  rcases hx : exec c log with ⟨res, log1⟩
  rw [hx] at hq
  cases res with
  | ret v =>
    dsimp only
    by_cases hv : v = 1
    · simp only [hv, if_true]; exact hQ 1
    · simp only [hv, if_false]; exact hQ v
  | exit => exact hq
  | undef => exact hq
  | timeout => exact hq

/-- One level of `executeNode` on a node of the shape `nodeOk`: when the executor with the
fuel `fuel` has the property `Q` on every child, the executor with the fuel `fuel + 1`
has it on the node.  The property must hold of the exhausted fuel when the kind
RepeatUntilSuccess is allowed. -/
theorem executeNode_step_keeps (Q : Result Int → Prop) (hQ : ∀ v, Q (.ret v)) (rus : Bool)
    (hT : rus = true → Q .timeout) (cb : Callbacks) (h : Heap) (fuel a : Nat)
    (node : BehaviorNode) (ha : h.node a = some node) (hok : nodeOk rus h node = true)
    (hch : ∀ c ∈ node.children.getD [], ∀ log, Q (executeNode cb h fuel c log).1)
    (log : List Event) : Q (executeNode cb h (fuel + 1) (some a) log).1 := by
  unfold nodeOk at hok
  by_cases hleaf : node.type = NODE_TYPE_ACTION ∨ node.type = NODE_TYPE_CONDITION
  · simp only [hleaf, if_true, Bool.and_eq_true, decide_eq_true_eq] at hok
    obtain ⟨fn, hfn⟩ := Option.isSome_iff_exists.1 hok.1.1
    rw [executeNode_leaf cb h fuel a fn node log ha hleaf hfn]
    exact hQ _
  · simp only [hleaf, if_false] at hok
    by_cases hcomp : node.type = NODE_TYPE_SEQUENCE ∨ node.type = NODE_TYPE_SELECTOR ∨
        node.type = NODE_TYPE_PARALLEL
    · simp only [hcomp, if_true] at hok
      cases hc : node.children with
      | none => simp [hc] at hok
      | some cs =>
        simp only [hc, Bool.and_eq_true, decide_eq_true_eq] at hok
        simp only [hc, Option.getD_some] at hch
        have hn : node.child_count.toNat = cs.length := by rw [hok.1]; simp
        rcases hcomp with ht | ht | ht
        · rw [executeNode_sequence cb h fuel a node log ha ht, sequenceNode, hn]
          exact sequenceLoop_keeps Q hQ _ node cs hc hch cs.length 0 log (by omega)
        · rw [executeNode_selector cb h fuel a node log ha ht, selectorNode, hn]
          exact selectorLoop_keeps Q hQ _ node cs hc hch cs.length 0 log (by omega)
        · rw [executeNode_parallel cb h fuel a node log ha ht, parallelNode, hn]
          exact parallelLoop_keeps Q hQ _ node cs hc hch cs.length 0 0 log (by omega)
    · simp only [hcomp, if_false] at hok
      by_cases hdt : node.type = NODE_TYPE_DECORATOR
      · simp only [hdt, if_true] at hok
        cases hc : node.children with
        | none => simp [hc] at hok
        | some cs =>
          cases hd : h.decoratorOf node with
          | none => simp [hc, hd] at hok
          | some d =>
            simp only [hc, hd, Bool.and_eq_true, Bool.or_eq_true, decide_eq_true_eq] at hok
            simp only [hc, Option.getD_some] at hch
            obtain ⟨⟨⟨hn, h1⟩, h3⟩, hkind⟩ := hok
            have hn0 : node.child_count ≠ 0 := by
              rw [hn]
              have : cs.length ≠ 0 := by omega
              exact_mod_cast this
            obtain ⟨c0, hc0, hm0⟩ := child_of_mem_index hc (show 0 < cs.length by omega)
            rw [executeNode_decorator cb h fuel a node log ha hdt]
            rcases hkind with (((hk | hk) | hk) | hk) | hk
            · rw [decoratorNode_invert h fuel _ node log d hn0 hd hk]
              exact invertDecorator_keeps Q hQ _ node c0 hc0 (hch c0 hm0) log
            · rw [decoratorNode_repeat h fuel _ node log d hn0 hd hk.1]
              exact repeatLoop_keeps Q hQ _ node c0 hc0 (hch c0 hm0) d.params none log
                (fun e => by have := hk.2; omega)
            · rw [decoratorNode_repeatUntilSuccess h fuel _ node log d hn0 hd hk.2]
              exact repeatUntilSuccessLoop_keeps Q hQ (hT hk.1) _ node c0 hc0 (hch c0 hm0)
                fuel log
            · rw [decoratorNode_conditional h fuel _ node log d hn0 hd hk]
              exact conditionalDecorator_keeps Q hQ _ node cs hc hn h1 h3 hch log
            · rw [decoratorNode_delay h fuel _ node log d hn0 hd hk]
              exact delayDecorator_keeps Q hQ h _ node d c0 hd hc0 (hch c0 hm0) log
      · simp [hdt] at hok

theorem wellFormed_succ (rus : Bool) (h : Heap) (depth a : Nat)
    (hw : wellFormed rus h (depth + 1) a = true) :
    ∃ node, h.node a = some node ∧ nodeOk rus h node = true ∧
      ∀ c ∈ node.children.getD [], ∃ x, c = some x ∧ wellFormed rus h depth x = true := by
  simp only [wellFormed] at hw
  cases hn : h.node a with
  | none => simp [hn] at hw
  | some node =>
    simp only [hn, Bool.and_eq_true, List.all_eq_true] at hw
    refine ⟨node, rfl, hw.1, ?_⟩
    intro c hc
    have := hw.2 c hc
    cases c with
    | none => simp at this
    | some x => exact ⟨x, rfl, this⟩

/-- Claim C23. On the root of a well-formed tree (all child references present, every node
of the shape `nodeOk`, RepeatUntilSuccess allowed), and whatever the callbacks return,
`executeNode` ends neither in `handleMemoryError` nor in undefined behaviour: no child
is read outside the array of children, no absent decorator or callback is dereferenced,
no uninitialised value is returned.  What it gives is a returned value or, for want of
fuel, nothing yet. -/
theorem executeNode_safe (cb : Callbacks) (h : Heap) (depth a : Nat)
    (hw : wellFormed true h depth a = true) (fuel : Nat) (log : List Event) :
    (executeNode cb h fuel (some a) log).1 ≠ .exit ∧
    (executeNode cb h fuel (some a) log).1 ≠ .undef := by
  induction fuel generalizing depth a log with
  | zero => simp [executeNode]
  | succ fuel ih =>
    cases depth with
    | zero => simp [wellFormed] at hw
    | succ depth =>
      obtain ⟨node, ha, hok, hch⟩ := wellFormed_succ true h depth a hw
      refine executeNode_step_keeps (fun r => r ≠ .exit ∧ r ≠ .undef)
        (fun v => ⟨by simp, by simp⟩) true (fun _ => ⟨by simp, by simp⟩) cb h fuel a node ha
        hok ?_ log
      intro c hc log1
      obtain ⟨x, rfl, hx⟩ := hch c hc
      exact ih depth x hx log1

/-- An instance of C23 on the small tree: the decorator node at address `8`, a
RepeatUntilSuccess over a Condition leaf, is the root of a well-formed tree of depth
`2`, and its execution with the fuel `4` returns. -/
theorem executeNode_safe_witness :
    wellFormed true demoHeap 2 8 = true ∧
    executeNode demoCallbacks demoHeap 4 (some 8) [] =
      (.ret 0, [Event.call 12 1, Event.call 12 1, Event.call 12 0]) ∧
    (executeNode demoCallbacks demoHeap 4 (some 8) []).1 ≠ .exit ∧
    (executeNode demoCallbacks demoHeap 4 (some 8) []).1 ≠ .undef :=
  ⟨by decide, by decide, executeNode_safe demoCallbacks demoHeap 2 8 (by decide) 4 []⟩


/-! ## Execution of a well-formed tree: the fuel does not matter

When two executors agree on every child of a node, the functions of the node agree. -/

theorem sequenceLoop_congr (exec exec1 : Exec) (node : BehaviorNode)
    (cs : List (Option Nat)) (hc : node.children = some cs)
    (hch : ∀ c ∈ cs, ∀ log, exec c log = exec1 c log) :
    ∀ (n i : Nat) (log : List Event), i + n ≤ cs.length →
      sequenceLoop exec node n i log = sequenceLoop exec1 node n i log := by
  intro n
  induction n with
  | zero => intro i log _; rfl
  | succ n ih =>
    intro i log hle
    obtain ⟨c, hci, hmem⟩ := child_of_mem_index hc (show i < cs.length by omega)
    simp only [sequenceLoop, hci, hch c hmem log]
    rcases exec1 c log with ⟨res, log1⟩
    cases res with
    | ret v =>
      dsimp only
      by_cases hv : v = 0
      · simp only [hv, if_true]
      · simp only [hv, if_false]; exact ih (i + 1) log1 (by omega)
    | exit => rfl
    | undef => rfl
    | timeout => rfl

theorem selectorLoop_congr (exec exec1 : Exec) (node : BehaviorNode)
    (cs : List (Option Nat)) (hc : node.children = some cs)
    (hch : ∀ c ∈ cs, ∀ log, exec c log = exec1 c log) :
    ∀ (n i : Nat) (log : List Event), i + n ≤ cs.length →
      selectorLoop exec node n i log = selectorLoop exec1 node n i log := by
  intro n
  induction n with
  | zero => intro i log _; rfl
  | succ n ih =>
    intro i log hle
    obtain ⟨c, hci, hmem⟩ := child_of_mem_index hc (show i < cs.length by omega)
    simp only [selectorLoop, hci, hch c hmem log]
    rcases exec1 c log with ⟨res, log1⟩
    cases res with
    | ret v =>
      dsimp only
      by_cases hv : v = 0
      · simp only [hv, ne_eq, not_true_eq_false, if_false]; exact ih (i + 1) log1 (by omega)
      · simp only [ne_eq, hv, not_false_eq_true, if_true]
    | exit => rfl
    | undef => rfl
    | timeout => rfl

theorem parallelLoop_congr (exec exec1 : Exec) (node : BehaviorNode)
    (cs : List (Option Nat)) (hc : node.children = some cs)
    (hch : ∀ c ∈ cs, ∀ log, exec c log = exec1 c log) :
    ∀ (n i : Nat) (successCount : Int) (log : List Event), i + n ≤ cs.length →
      parallelLoop exec node n i successCount log =
        parallelLoop exec1 node n i successCount log := by
  intro n
  induction n with
  | zero => intro i sc log _; rfl
  | succ n ih =>
    intro i sc log hle
    obtain ⟨c, hci, hmem⟩ := child_of_mem_index hc (show i < cs.length by omega)
    simp only [parallelLoop, hci, hch c hmem log]
    rcases exec1 c log with ⟨res, log1⟩
    cases res with
    | ret v =>
      dsimp only
      by_cases hv : v = 0
      · simp only [hv, if_true]; exact ih (i + 1) (sc + 1) log1 (by omega)
      · simp only [hv, if_false]; exact ih (i + 1) sc log1 (by omega)
    | exit => rfl
    | undef => rfl
    | timeout => rfl

theorem repeatLoop_congr (exec exec1 : Exec) (node : BehaviorNode) (c : Option Nat)
    (hc0 : node.child 0 = some c) (hch : ∀ log, exec c log = exec1 c log) :
    ∀ (n : Nat) (result : Option Int) (log : List Event),
      repeatLoop exec node n result log = repeatLoop exec1 node n result log := by
  intro n
  induction n with
  | zero => intro result log; cases result <;> rfl
  | succ n ih =>
    intro result log
    simp only [repeatLoop, hc0, hch log]
    rcases exec1 c log with ⟨res, log1⟩
    cases res with
    | ret v => exact ih (some v) log1
    | exit => rfl
    | undef => rfl
    | timeout => rfl

theorem conditionalDecorator_congr (exec exec1 : Exec) (node : BehaviorNode)
    (cs : List (Option Nat)) (hc : node.children = some cs)
    (hch : ∀ c ∈ cs, ∀ log, exec c log = exec1 c log) (log : List Event) :
    conditionalDecorator exec node log = conditionalDecorator exec1 node log := by
  have hall : ∀ i c, node.child i = some c → ∀ log, exec c log = exec1 c log := by
    intro i c hci
    simp only [BehaviorNode.child, hc] at hci
    exact hch c (List.getElem?_mem hci)
  simp only [conditionalDecorator]
  cases h0 : node.child 0 with
  | none => rfl
  | some c0 =>
    dsimp only
    rw [hall 0 c0 h0 log]
    rcases exec1 c0 log with ⟨res, log1⟩
    cases res with
    | ret v =>
      dsimp only
      cases h1 : node.child 1 with
      | none =>
        cases h2 : node.child 2 with
        | none => rfl
        | some c2 => dsimp only; rw [hall 2 c2 h2 log1]
      | some c1 =>
        dsimp only
        rw [hall 1 c1 h1 log1]
        cases h2 : node.child 2 with
        | none => rfl
        | some c2 => dsimp only; rw [hall 2 c2 h2 log1]
    | exit => rfl
    | undef => rfl
    | timeout => rfl

/-- One level of `executeNode` on a node of the shape `nodeOk` without RepeatUntilSuccess:
when the executors with the fuels `fuel` and `fuel1` agree on every child, the
executors with the fuels `fuel + 1` and `fuel1 + 1` agree on the node. -/
theorem executeNode_step_congr (cb : Callbacks) (h : Heap) (fuel fuel1 a : Nat)
    (node : BehaviorNode) (ha : h.node a = some node) (hok : nodeOk false h node = true)
    (hch : ∀ c ∈ node.children.getD [], ∀ log,
      executeNode cb h fuel c log = executeNode cb h fuel1 c log)
    (log : List Event) :
    executeNode cb h (fuel + 1) (some a) log = executeNode cb h (fuel1 + 1) (some a) log := by
  unfold nodeOk at hok
  by_cases hleaf : node.type = NODE_TYPE_ACTION ∨ node.type = NODE_TYPE_CONDITION
  · simp only [hleaf, if_true, Bool.and_eq_true, decide_eq_true_eq] at hok
    obtain ⟨fn, hfn⟩ := Option.isSome_iff_exists.1 hok.1.1
    rw [executeNode_leaf cb h fuel a fn node log ha hleaf hfn,
      executeNode_leaf cb h fuel1 a fn node log ha hleaf hfn]
  · simp only [hleaf, if_false] at hok
    by_cases hcomp : node.type = NODE_TYPE_SEQUENCE ∨ node.type = NODE_TYPE_SELECTOR ∨
        node.type = NODE_TYPE_PARALLEL
    · simp only [hcomp, if_true] at hok
      cases hc : node.children with
      | none => simp [hc] at hok
      | some cs =>
        simp only [hc, Bool.and_eq_true, decide_eq_true_eq] at hok
        simp only [hc, Option.getD_some] at hch
        have hn : node.child_count.toNat = cs.length := by rw [hok.1]; simp
        rcases hcomp with ht | ht | ht
        · rw [executeNode_sequence cb h fuel a node log ha ht,
            executeNode_sequence cb h fuel1 a node log ha ht, sequenceNode, sequenceNode, hn]
          exact sequenceLoop_congr _ _ node cs hc hch cs.length 0 log (by omega)
        · rw [executeNode_selector cb h fuel a node log ha ht,
            executeNode_selector cb h fuel1 a node log ha ht, selectorNode, selectorNode, hn]
          exact selectorLoop_congr _ _ node cs hc hch cs.length 0 log (by omega)
        · rw [executeNode_parallel cb h fuel a node log ha ht,
            executeNode_parallel cb h fuel1 a node log ha ht, parallelNode, parallelNode, hn]
          exact parallelLoop_congr _ _ node cs hc hch cs.length 0 0 log (by omega)
    · simp only [hcomp, if_false] at hok
      by_cases hdt : node.type = NODE_TYPE_DECORATOR
      · simp only [hdt, if_true] at hok
        cases hc : node.children with
        | none => simp [hc] at hok
        | some cs =>
          cases hd : h.decoratorOf node with
          | none => simp [hc, hd] at hok
          | some d =>
            simp only [hc, hd, Bool.and_eq_true, Bool.or_eq_true, decide_eq_true_eq,
              Bool.false_eq_true, false_and, or_false] at hok
            simp only [hc, Option.getD_some] at hch
            obtain ⟨⟨⟨hn, h1⟩, _⟩, hkind⟩ := hok
            have hn0 : node.child_count ≠ 0 := by
              rw [hn]
              have : cs.length ≠ 0 := by omega
              exact_mod_cast this
            obtain ⟨c0, hc0, hm0⟩ := child_of_mem_index hc (show 0 < cs.length by omega)
            rw [executeNode_decorator cb h fuel a node log ha hdt,
              executeNode_decorator cb h fuel1 a node log ha hdt]
            rcases hkind with ((hk | hk) | hk) | hk
            · rw [decoratorNode_invert h fuel _ node log d hn0 hd hk,
                decoratorNode_invert h fuel1 _ node log d hn0 hd hk]
              simp only [invertDecorator, hc0, hch c0 hm0 log]
            · rw [decoratorNode_repeat h fuel _ node log d hn0 hd hk.1,
                decoratorNode_repeat h fuel1 _ node log d hn0 hd hk.1]
              exact repeatLoop_congr _ _ node c0 hc0 (hch c0 hm0) d.params none log
            · rw [decoratorNode_conditional h fuel _ node log d hn0 hd hk,
                decoratorNode_conditional h fuel1 _ node log d hn0 hd hk]
              exact conditionalDecorator_congr _ _ node cs hc hch log
            · rw [decoratorNode_delay h fuel _ node log d hn0 hd hk,
                decoratorNode_delay h fuel1 _ node log d hn0 hd hk]
              simp only [delayDecorator, hd, hc0, hch c0 hm0 log]
      · simp [hdt] at hok

/-- On the root of a well-formed tree of depth at most `depth` without
RepeatUntilSuccess, every fuel from `depth` on gives what the fuel `depth` gives. -/
theorem executeNode_fuel_stable (cb : Callbacks) (h : Heap) :
    ∀ (depth a : Nat), wellFormed false h depth a = true → ∀ (fuel : Nat), depth ≤ fuel →
      ∀ log, executeNode cb h fuel (some a) log = executeNode cb h depth (some a) log := by
  intro depth
  induction depth with
  | zero => intro a hw; simp [wellFormed] at hw
  | succ depth ih =>
    intro a hw fuel hf log
    obtain ⟨f, rfl⟩ : ∃ f, fuel = f + 1 := ⟨fuel - 1, by omega⟩
    obtain ⟨node, ha, hok, hch⟩ := wellFormed_succ false h depth a hw
    refine executeNode_step_congr cb h f depth a node ha hok ?_ log
    intro c hc log1
    obtain ⟨x, rfl, hx⟩ := hch c hc
    exact ih x hx f (by omega) log1

/-- Claim C24. On the root of a well-formed tree of depth at most `depth` in which no
decorator is a RepeatUntilSuccess, and whatever the callbacks return, `executeNode`
returns a value as soon as its fuel is at least `depth`, and the value and the events
are those that the fuel `depth` gives: the calls go down into the children only, every
loop has a bound, and the evaluation is a function of the tree and of the callbacks. -/
theorem executeNode_terminates (cb : Callbacks) (h : Heap) (depth a : Nat)
    (hw : wellFormed false h depth a = true) (fuel : Nat) (hf : depth ≤ fuel)
    (log : List Event) :
    (∃ r log2, executeNode cb h fuel (some a) log = (.ret r, log2)) ∧
    executeNode cb h fuel (some a) log = executeNode cb h depth (some a) log := by
  have key : ∀ (depth a : Nat), wellFormed false h depth a = true → ∀ (fuel : Nat),
      depth ≤ fuel → ∀ log, ∃ r, (executeNode cb h fuel (some a) log).1 = .ret r := by
    intro depth
    induction depth with
    | zero => intro a hw; simp [wellFormed] at hw
    | succ depth ih =>
      intro a hw fuel hf log
      obtain ⟨f, rfl⟩ : ∃ f, fuel = f + 1 := ⟨fuel - 1, by omega⟩
      obtain ⟨node, ha, hok, hch⟩ := wellFormed_succ false h depth a hw
      refine executeNode_step_keeps (fun r => ∃ v, r = .ret v) (fun v => ⟨v, rfl⟩) false
        (fun e => by simp at e) cb h f a node ha hok ?_ log
      intro c hc log1
      obtain ⟨x, rfl, hx⟩ := hch c hc
      exact ih x hx f (by omega) log1
  obtain ⟨r, hr⟩ := key depth a hw fuel hf log
  exact ⟨⟨r, (executeNode cb h fuel (some a) log).2, by rw [← hr]⟩,
    executeNode_fuel_stable cb h depth a hw fuel hf log⟩

/-- An instance of C24 on the small tree: the decorator node at address `5`, an Invert over
a Sequence over two leaves, is the root of a well-formed tree of depth `3` without
RepeatUntilSuccess; its execution with the fuel `3` returns, and so does its execution
with the fuel `7`, with the same value and events. -/
theorem executeNode_terminates_witness :
    wellFormed false demoHeap 3 5 = true ∧
    executeNode demoCallbacks demoHeap 3 (some 5) [] =
      (.ret 1, [Event.call 10 1, Event.call 11 0]) ∧
    (∃ r log2, executeNode demoCallbacks demoHeap 7 (some 5) [] = (.ret r, log2)) ∧
    executeNode demoCallbacks demoHeap 7 (some 5) [] =
      executeNode demoCallbacks demoHeap 3 (some 5) [] :=
  ⟨by decide, by decide,
    executeNode_terminates demoCallbacks demoHeap 3 5 (by decide) 7 (by decide) []⟩

end BehaviorTree
